import Mathlib

set_option maxRecDepth 100000

/-!
Verification of the topology-aware RCA classification engine
(`inference_engine.py`, class `LogicalRCA`) against its specification.

Modelling conventions:
* Python `str` is modelled as `List Char` (`Str`); `bytes`-level and Unicode
  case/digit/whitespace classes are modelled at ASCII granularity (the
  regexes and keyword tables in the source are all ASCII).
* Python dicts (`topology`, `msg_map`, `children_map`, `silent_suspects`) are
  modelled as insertion-ordered association lists, matching dict iteration
  order; `dict.setdefault(k, []).append(v)` is `mmAdd`.
* Python floats (probabilities, the affected/total ratio) are modelled as
  exact rationals.  For the value range occurring here (small fractions with
  tiny numerators and denominators) rational comparison agrees with binary64
  comparison.
* The external generative-model call of `analyze_redundancy_depth` is
  modelled by an oracle in `Env`: `apiConfigured` is the outcome of
  `_ensure_api_configured` (GOOGLE_API_KEY present and `genai.configure`
  succeeded), and `llm` maps the device and sanitized alert list (the data
  serialized into the prompt) to the joint outcome of `generate_content`
  plus `json.loads` on its stripped text: `LLMOutcome.err` for any raised
  exception, `LLMOutcome.ok` for a successfully parsed JSON object with the
  three fields read by the code, each `none` when absent.
-/

/-- Python `str`, modelled as a list of characters. -/
abbrev Str := List Char

/-- Convert a Lean string literal to the `Str` model. -/
def str (s : String) : Str := s.data

/-- Python `\s` at ASCII granularity: the six whitespace characters. -/
def pyWS (c : Char) : Bool :=
  c = ' ' || c = '\t' || c = '\n' || c = '\r' || c = '\x0b' || c = '\x0c'

/-- ASCII lower-casing of one character (Python `str.lower` restricted to ASCII). -/
def asciiLower (c : Char) : Char :=
  if 'A' ≤ c ∧ c ≤ 'Z' then Char.ofNat (c.toNat + 32) else c

/-- ASCII upper-casing of one character (Python `str.upper` restricted to ASCII). -/
def asciiUpper (c : Char) : Char :=
  if 'a' ≤ c ∧ c ≤ 'z' then Char.ofNat (c.toNat - 32) else c

/-- Python `text.lower()`. -/
def pyLower (s : Str) : Str := s.map asciiLower

/-- Python `text.upper()`. -/
def pyUpper (s : Str) : Str := s.map asciiUpper

/-- Does `pre` occur at the very start of `s`?  (Helper for `containsStr`.) -/
def startsWithStr : Str → Str → Bool
  | [], _ => true
  | _ :: _, [] => false
  | a :: as, b :: bs => a = b && startsWithStr as bs

/-- Python `needle in hay` (substring containment). -/
def containsStr : Str → Str → Bool
  | [], needle => startsWithStr needle []
  | c :: t, needle => startsWithStr needle (c :: t) || containsStr t needle

/-- Strip a literal prefix, returning the remainder on success. -/
def stripLit : Str → Str → Option Str
  | [], s => some s
  | _ :: _, [] => none
  | a :: as, b :: bs => if a = b then stripLit as bs else none

/-- Longest whitespace run at the front (regex `\s*` as text). -/
def wsTake (s : Str) : Str := s.takeWhile pyWS

/-- Remainder after the longest whitespace run at the front. -/
def wsDrop (s : Str) : Str := s.dropWhile pyWS

/-- Longest non-whitespace run at the front (regex `\S*` as text). -/
def tokTake (s : Str) : Str := s.takeWhile (fun c => !pyWS c)

/-- Remainder after the longest non-whitespace run at the front. -/
def tokDrop (s : Str) : Str := s.dropWhile (fun c => !pyWS c)

/-- Eight-star redaction token used by every replacement of `_sanitize_text`. -/
def stars8 : Str := str "********"

/-!
The four `re.sub` calls of `_sanitize_text` are embedded as deterministic
scanners.  Each `tryN s` attempts the pattern anchored at the start of `s`
and returns `(matched length, replacement)` on success.  The patterns use
only literal alternatives, `\s+`, `\d`, `\S+` and `[^"]+` followed either by
the pattern end or by a character no shorter greedy choice can reach, so
Python's backtracking search is equivalent to the greedy deterministic scan
implemented here.
-/

/-- Anchored match of `(encrypted-password\s+)"[^"]+"` with replacement
`\1"********"` (group 1 keeps the original whitespace verbatim). -/
def try1 (s : Str) : Option (Nat × Str) :=
  match stripLit (str "encrypted-password") s with
  | none => none
  | some s1 =>
    let ws := wsTake s1
    if ws = [] then none else
    match wsDrop s1 with
    | '"' :: s2 =>
      if s2.takeWhile (fun c => c ≠ '"') = [] then none else
      match s2.dropWhile (fun c => c ≠ '"') with
      | '"' :: s3 =>
        some (s.length - s3.length, str "encrypted-password" ++ ws ++ str "\"********\"")
      | _ => none
    | _ => none

/-- Anchored match of `kw\s+(\d)\s+\S+` for one alternative `kw` of pattern 2,
with replacement `\1 \2 ********`. -/
def try2kw (kw : Str) (s : Str) : Option (Nat × Str) :=
  match stripLit kw s with
  | none => none
  | some s1 =>
    if wsTake s1 = [] then none else
    match wsDrop s1 with
    | [] => none
    | d :: s2 =>
      if d.isDigit then
        if wsTake s2 = [] then none else
        let s3 := wsDrop s2
        if tokTake s3 = [] then none else
        some (s.length - (tokDrop s3).length, kw ++ str " " ++ (d :: str " ") ++ stars8)
      else none

/-- Anchored match of `(password|secret)\s+(\d)\s+\S+` with replacement
`\1 \2 ********` ("password" is the preferred alternative, as in the regex). -/
def try2 (s : Str) : Option (Nat × Str) :=
  match try2kw (str "password") s with
  | some r => some r
  | none => try2kw (str "secret") s

/-- Anchored match of `(username\s+\S+\s+secret)\s+\d\s+\S+` with replacement
`\1 5 ********` (group 1 keeps the original whitespace and token verbatim). -/
def try3 (s : Str) : Option (Nat × Str) :=
  match stripLit (str "username") s with
  | none => none
  | some s1 =>
    let ws1 := wsTake s1
    if ws1 = [] then none else
    let s2 := wsDrop s1
    let tok1 := tokTake s2
    if tok1 = [] then none else
    let s3 := tokDrop s2
    let ws2 := wsTake s3
    if ws2 = [] then none else
    match stripLit (str "secret") (wsDrop s3) with
    | none => none
    | some s5 =>
      if wsTake s5 = [] then none else
      match wsDrop s5 with
      | [] => none
      | d :: s6 =>
        if d.isDigit then
          if wsTake s6 = [] then none else
          let s7 := wsDrop s6
          if tokTake s7 = [] then none else
          some (s.length - (tokDrop s7).length,
                str "username" ++ ws1 ++ tok1 ++ ws2 ++ str "secret 5 " ++ stars8)
        else none

/-- Anchored match of `(snmp-server community)\s+\S+` with replacement
`\1 ********`. -/
def try4 (s : Str) : Option (Nat × Str) :=
  match stripLit (str "snmp-server community") s with
  | none => none
  | some s1 =>
    if wsTake s1 = [] then none else
    let s2 := wsDrop s1
    if tokTake s2 = [] then none else
    some (s.length - (tokDrop s2).length, str "snmp-server community " ++ stars8)

/-- Left-to-right non-overlapping substitution scan of `re.sub`: at each
position attempt the anchored match; on success emit the replacement and
resume after the match, otherwise copy one character.  Structural recursion
on a fuel bounded below by the string length (all four matchers consume at
least one character on success). -/
def subLoopF (t : Str → Option (Nat × Str)) : Nat → Str → Str
  | _, [] => []
  | 0, s => s
  | fuel + 1, c :: rest =>
    match t (c :: rest) with
    | none => c :: subLoopF t fuel rest
    | some (len, repl) => repl ++ subLoopF t fuel (rest.drop (len - 1))

/-- One full `re.sub(pattern, repl, s)` pass. -/
def pySub (t : Str → Option (Nat × Str)) (s : Str) : Str :=
  subLoopF t s.length s

/-- `_sanitize_text`: the four substitution passes in source order. -/
def sanitize_text (text : Str) : Str :=
  pySub try4 (pySub try3 (pySub try2 (pySub try1 text)))

/-!
Data model.  A topology entry (`topology[device_id]`, dict form) is reduced
to the four attributes the engine reads: `parent_id`, `parent_ids`,
`metadata.hw_inventory.psu_count` and `metadata.redundancy_type`.  The rest
of `metadata` flows only into the prompt of the external call, which is an
oracle here.  `parent_id : none` models both an absent key and an explicit
`null`; `psu_count : some n` models a present, `int()`-convertible value
(`int()` failures fall through to the redundancy check, like an absent key).
-/

structure DeviceInfo where
  parent_id : Option Str
  parent_ids : List Str
  psu_count : Option Int
  redundancy_type : Option Str
deriving DecidableEq

/-- The topology dict, in insertion order. -/
abbrev Topo := List (Str × DeviceInfo)

/-- An entry of the alert batch handed to `analyze`. -/
structure Alarm where
  device_id : Str
  message : Str
deriving DecidableEq

/-- Association-list lookup, modelling Python `dict.get`. -/
def mmLookup {β : Type} (m : List (Str × β)) (k : Str) : Option β :=
  match m with
  | [] => none
  | (k', v) :: rest => if k' = k then some v else mmLookup rest k

/-- Python `dict.get(k, [])` for list-valued dicts. -/
def mmLookupD {β : Type} (m : List (Str × List β)) (k : Str) : List β :=
  (mmLookup m k).getD []

/-- Python `d.setdefault(k, []).append(v)`: append to the entry of `k`,
creating it (at the end, preserving insertion order) when missing. -/
def mmAdd {β : Type} (m : List (Str × List β)) (k : Str) (v : β) : List (Str × List β) :=
  match m with
  | [] => [(k, [v])]
  | (k', vs) :: rest => if k' = k then (k', vs ++ [v]) :: rest else (k', vs) :: mmAdd rest k v

/-- The keys of an association list, in order. -/
def mmKeys {β : Type} (m : List (Str × β)) : List Str := m.map (fun e => e.1)

/-- Python truthiness of an optional string (`if p:`): `None` and the empty
string are falsy. -/
def truthy : Option Str → Option Str
  | none => none
  | some [] => none
  | some (c :: cs) => some (c :: cs)

/-- Python `str(x)` on an optional string (`f"...{p}..."` when `p` may be `None`). -/
def pyStrOpt : Option Str → Str
  | none => str "None"
  | some s => s

/-- `_get_parent_id`: the raw `parent_id` attribute of the device's topology
entry, `None` when the device or the key is missing.  The `parent_ids` list
is never consulted. -/
def get_parent_id (topo : Topo) (device_id : Str) : Option Str :=
  match mmLookup topo device_id with
  | none => none
  | some info => info.parent_id

/-- `_get_psu_count`: `metadata.hw_inventory.psu_count` when present, else 2
when `str(metadata.redundancy_type).upper() == "PSU"`, else the default. -/
def get_psu_count (topo : Topo) (device_id : Str) (dflt : Int) : Int :=
  match mmLookup topo device_id with
  | none => dflt
  | some info =>
    match info.psu_count with
    | some n => n
    | none => if pyUpper ((info.redundancy_type).getD []) = str "PSU" then 2 else dflt

/-- The `children_map` built by `LogicalRCA.__init__`: for each topology
entry with a truthy `parent_id`, append the device to its parent's list. -/
def children_map (topo : Topo) : List (Str × List Str) :=
  topo.foldl
    (fun acc e =>
      match truthy e.2.parent_id with
      | some p => mmAdd acc p e.1
      | none => acc)
    []

/-- Aggregation of the alert batch by device (`msg_map` in `analyze`). -/
def build_msg_map (alarms : List Alarm) : List (Str × List Str) :=
  alarms.foldl (fun m a => mmAdd m a.device_id a.message) []

/-- `_is_connection_loss`: connection-loss-class symptom keywords,
case-insensitively. -/
def is_connection_loss (msg : Str) : Bool :=
  let l := pyLower msg
  containsStr l (str "connection lost") || containsStr l (str "link down") ||
  containsStr l (str "port down") || containsStr l (str "unreachable")

/-- `SILENT_MIN_CHILDREN` (source constant). -/
def SILENT_MIN_CHILDREN : Nat := 2

/-- The `SILENT_RATIO` source constant (the float 0.5, i.e. 1/2).  Stated as
an explicit reduced fraction so that kernel evaluation never has to unfold
the irreducible `Rat` field arithmetic. -/
def silentRatioMin : Rat := ⟨1, 2, by decide, by decide⟩

/-- Decimal rendering of a natural number. -/
def natToStr (n : Nat) : Str := (toString n).data

/-- Decimal rendering of an integer (Python `str(int)`). -/
def intToStr (n : Int) : Str := (toString n).data

/-- Round `100 * q` to the nearest integer, ties to even, computed directly
on the numerator and denominator.  Models Python's `:.2f` float formatting;
it agrees with CPython whenever the comparison of `100q` against the tie
point is not perturbed by the binary64 approximation of `q` (true for all
ratios of small integers arising here). -/
def roundHalfEven100 (q : Rat) : Int :=
  let n := 100 * q.num
  let d : Int := q.den
  let f := Int.fdiv n d
  let r2 := 2 * (n - f * d)
  if r2 < d then f else if d < r2 then f + 1 else if f % 2 = 0 then f else f + 1

/-- Python `f"{q:.2f}"` for a nonnegative rational. -/
def formatQ2 (q : Rat) : Str :=
  let n := roundHalfEven100 q
  intToStr (n / 100) ++ str "." ++
    (if n % 100 < 10 then str "0" ++ intToStr (n % 100) else intToStr (n % 100))

/-- The active-investigation report generated for a silent-failure suspect. -/
def silent_report (parent_id : Str) (affected total : Nat) (ratio : Rat) : Str :=
  str "[Silent Failure Heuristic]\n- Suspected upstream device: " ++ parent_id ++
  str "\n- Affected children: " ++ natToStr affected ++ str "/" ++ natToStr total ++
  str " (ratio=" ++ formatQ2 ratio ++
  str ")\n- Evidence: children raised Connection Lost/Unreachable simultaneously\n- Recommended checks:\n  1) Check uplink interface counters/errors on " ++
  parent_id ++
  str "\n  2) Verify MAC table / ARP / STP state changes around incident time\n  3) Compare syslog/event logs for link flap, STP re-convergence\n  4) Run targeted ping/ARP from CORE side to affected APs\n"

/-- The evidence dict stored in `silent_suspects[parent_id]`. -/
structure Evidence where
  children : List Str
  evidence_count : Nat
  total_children : Nat
  ratio : Rat
  report : Str
deriving DecidableEq

/-- The children of `children` whose aggregated messages contain a
connection-loss symptom. -/
def affected_children (msg_map : List (Str × List Str)) (children : List Str) : List Str :=
  children.filter (fun c => (mmLookupD msg_map c).any is_connection_loss)

/-- The affected/total ratio (`len(affected) / max(total, 1)`), built with
the normalizing constructor `mkRat` (equal to rational division, but
kernel-evaluable). -/
def child_ratio (affected total : Nat) : Rat :=
  mkRat (affected : Int) (max total 1)

/-- The evidence record for a suspect parent. -/
def mkEvidence (parent_id : Str) (affected : List Str) (total : Nat) : Evidence :=
  { children := affected
    evidence_count := affected.length
    total_children := total
    ratio := child_ratio affected.length total
    report := silent_report parent_id affected.length total (child_ratio affected.length total) }

/-- The body of the `_detect_silent_failures` loop for one
`(parent_id, children)` entry of the children map: `none` when any `continue`
or the threshold test skips the parent, otherwise the suspect entry. -/
def detect_entry (msg_map : List (Str × List Str)) (e : Str × List Str) :
    Option (Str × Evidence) :=
  let parent_id := e.1
  let children := e.2
  if children = [] then none
  else if (mmLookup msg_map parent_id).isSome then none
  else
    let affected := affected_children msg_map children
    if affected = [] then none
    else
      let total := children.length
      let ratio := child_ratio affected.length total
      if SILENT_MIN_CHILDREN ≤ affected.length ∧ silentRatioMin ≤ ratio then
        some (parent_id, mkEvidence parent_id affected total)
      else none

/-- `_detect_silent_failures`: suspect every parent that has children, no
alert of its own, and a concentration of connection-loss children meeting
both thresholds. -/
def detect_silent_failures (cm : List (Str × List Str)) (msg_map : List (Str × List Str)) :
    List (Str × Evidence) :=
  cm.filterMap (detect_entry msg_map)

/-- Health status enumeration. -/
inductive HealthStatus where
  | NORMAL
  | WARNING
  | CRITICAL
deriving DecidableEq

/-- The dict returned by `analyze_redundancy_depth`. -/
structure AnalysisOut where
  status : HealthStatus
  reason : Str
  impact_type : Str
deriving DecidableEq

/-- Outcome of the external inference call, after response handling up to
`json.loads`: `err` for any raised exception (unreachable service, non-JSON
text, non-object JSON), `ok` for a parsed JSON object with the three fields
the code reads (each `none` when the key is absent; values after `str()`). -/
inductive LLMOutcome where
  | err (msg : Str)
  | ok (status : Option Str) (reason : Option Str) (impact_type : Option Str)

/-- External state: whether `_ensure_api_configured` succeeds, and the
oracle for the inference call (device id and sanitized alert list are the
analysis-specific data serialized into the prompt). -/
structure Env where
  apiConfigured : Bool
  llm : Str → List Str → LLMOutcome

/-- Response handling of the external call (the `try` block of
`analyze_redundancy_depth` after the prompt): map the parsed status via
`str(result_json.get("status", "CRITICAL")).upper()`, defaulting reason and
impact type; any exception yields the WARNING/AI_ERROR fallback. -/
def llm_result : LLMOutcome → AnalysisOut
  | .err m => ⟨.WARNING, str "AI Analysis Failed: " ++ m, str "AI_ERROR"⟩
  | .ok st rs it =>
    let status_str := pyUpper (st.getD (str "CRITICAL"))
    let health :=
      if status_str = str "GREEN" ∨ status_str = str "NORMAL" then HealthStatus.NORMAL
      else if status_str = str "YELLOW" ∨ status_str = str "WARNING" then HealthStatus.WARNING
      else HealthStatus.CRITICAL
    ⟨health, rs.getD (str "AI provided no reason"), it.getD (str "UNKNOWN")⟩

/-- Is the (defaulted, upper-cased) status value one of the recognized
non-critical-by-default spellings? -/
def status_recognized (st : Option Str) : Bool :=
  let u := pyUpper (st.getD (str "CRITICAL"))
  u = str "GREEN" || u = str "NORMAL" || u = str "YELLOW" || u = str "WARNING"

/-- The sanitized, space-joined alert text rules 0-3 match against. -/
def sanitizedJoined (alerts : List Str) : Str :=
  List.intercalate (str " ") (alerts.map sanitize_text)

/-- Rule 0: outright stop conditions, matched case-sensitively on the
sanitized joined text. -/
def stop_condition (joined : Str) : Bool :=
  containsStr joined (str "Power Supply: Dual Loss") || containsStr joined (str "Dual Loss") ||
  containsStr joined (str "Device Down") || containsStr joined (str "Thermal Shutdown")

/-- Rule 1 trigger: single-PSU-failure wording without "dual", on the
lower-cased text. -/
def psu_single_fail (jl : Str) : Bool :=
  (containsStr jl (str "power supply") && containsStr jl (str "failed") &&
    !containsStr jl (str "dual")) ||
  (containsStr jl (str "psu") && containsStr jl (str "fail") && !containsStr jl (str "dual"))

/-- Rule 2 trigger: fan failure wording. -/
def fan_fail_cond (jl : Str) : Bool :=
  containsStr jl (str "fan fail") || (containsStr jl (str "fan") && containsStr jl (str "fail"))

/-- Rule 2 escalation: overheat/thermal wording. -/
def overheat_hint (jl : Str) : Bool :=
  containsStr jl (str "high temperature") || containsStr jl (str "overheat") ||
  containsStr jl (str "thermal")

/-- Rule 3 trigger: memory-pressure wording. -/
def mem_symptom (jl : Str) : Bool :=
  containsStr jl (str "memory high") || containsStr jl (str "memory leak") ||
  (containsStr jl (str "memory") && (containsStr jl (str "leak") || containsStr jl (str "high")))

/-- Rule 3 escalation: out-of-memory/crash wording. -/
def oom_hint (jl : Str) : Bool :=
  containsStr jl (str "out of memory") || containsStr jl (str "oom") ||
  containsStr jl (str "killed process") || containsStr jl (str "kernel panic")

/-- `analyze_redundancy_depth`: the prioritized local severity rules, then
the external fallback. -/
def analyze_redundancy_depth (topo : Topo) (env : Env) (device_id : Str)
    (alerts : List Str) : AnalysisOut :=
  if alerts = [] then
    ⟨.NORMAL, str "No active alerts detected.", str "NONE"⟩
  else
    let joined := sanitizedJoined alerts
    let joined_lower := pyLower joined
    if stop_condition joined then
      ⟨.CRITICAL,
       str "Device down / dual PSU loss / thermal shutdown detected (local safety rule).",
       str "Hardware/Physical"⟩
    else
      let psu_count := get_psu_count topo device_id 1
      if psu_single_fail joined_lower then
        if 2 ≤ psu_count then
          ⟨.WARNING,
           str "Single PSU failure with redundancy (psu_count=" ++ intToStr psu_count ++
             str ") (local safety rule).",
           str "Hardware/Redundancy"⟩
        else
          ⟨.CRITICAL,
           str "Single PSU failure without redundancy (psu_count=" ++ intToStr psu_count ++
             str ") (local safety rule).",
           str "Hardware/Physical"⟩
      else if fan_fail_cond joined_lower then
        if overheat_hint joined_lower then
          ⟨.CRITICAL, str "Fan failure with overheat/thermal symptom detected (local safety rule).",
           str "Hardware/Physical"⟩
        else
          ⟨.WARNING,
           str "Fan failure detected. Service likely continues but risk of thermal escalation (local safety rule).",
           str "Hardware/Degraded"⟩
      else if mem_symptom joined_lower then
        if oom_hint joined_lower then
          ⟨.CRITICAL, str "Memory leak/high with OOM/crash symptom detected (local safety rule).",
           str "Software/Resource"⟩
        else
          ⟨.WARNING,
           str "Memory high/leak symptom detected. Likely degraded but not down yet (local safety rule).",
           str "Software/Resource"⟩
      else if !env.apiConfigured then
        ⟨.WARNING, str "API key not configured. Manual analysis required.", str "UNKNOWN"⟩
      else
        llm_result (env.llm device_id (alerts.map sanitize_text))

/-- One entry of the result list of `analyze`.  The `analyst_report` and
`auto_investigation` keys exist only on silent-failure results; they are
`none` elsewhere. -/
structure RcaResult where
  id : Str
  label : Str
  prob : Rat
  type : Str
  tier : Nat
  reason : Str
  analyst_report : Option Str
  auto_investigation : Option (List Str)
deriving DecidableEq

/-- Python `" / ".join(messages)`. -/
def joinSlash (msgs : List Str) : Str := List.intercalate (str " / ") msgs

/-!
The probability constants of `analyze` (Python float literals), as explicit
reduced fractions so that kernel evaluation of result comparisons never has
to unfold the irreducible `Rat` division.
-/

/-- The float 0.0. -/
def q00 : Rat := ⟨0, 1, by decide, by decide⟩
/-- The float 0.2. -/
def q02 : Rat := ⟨1, 5, by decide, by decide⟩
/-- The float 0.3. -/
def q03 : Rat := ⟨3, 10, by decide, by decide⟩
/-- The float 0.4. -/
def q04 : Rat := ⟨2, 5, by decide, by decide⟩
/-- The float 0.5. -/
def q05 : Rat := ⟨1, 2, by decide, by decide⟩
/-- The float 0.7. -/
def q07 : Rat := ⟨7, 10, by decide, by decide⟩
/-- The float 0.8. -/
def q08 : Rat := ⟨4, 5, by decide, by decide⟩
/-- The float 0.9. -/
def q09 : Rat := ⟨9, 10, by decide, by decide⟩

/-- The synthetic alert injected onto each silent-failure suspect. -/
def silent_synthetic : Str := str "Silent Failure Suspected (Derived from child Connection Lost)"

/-- The fixed checklist attached to silent-failure results. -/
def auto_checklist : List Str :=
  [str "Pull interface counters/errors (uplinks)",
   str "Check STP/MAC flaps",
   str "Ping/ARP reachability tests from upstream",
   str "Correlate syslog around incident time"]

/-- The `parent_is_silent_suspect` closure of `analyze`. -/
def parent_is_silent_suspect (topo : Topo) (suspects : List (Str × Evidence))
    (device_id : Str) : Bool :=
  match truthy (get_parent_id topo device_id) with
  | some p => (mmLookup suspects p).isSome
  | none => false

/-- The `parent_is_alarmed` closure of `analyze` (`alarmed_ids` are the keys
of the synthetically augmented message map). -/
def parent_is_alarmed (topo : Topo) (msg_map : List (Str × List Str))
    (device_id : Str) : Bool :=
  match truthy (get_parent_id topo device_id) with
  | some p => (mmLookup msg_map p).isSome
  | none => false

/-- The loop body of `analyze`: classify one `(device_id, messages)` entry of
the augmented message map. -/
def classify_device (topo : Topo) (env : Env) (suspects : List (Str × Evidence))
    (msg_map : List (Str × List Str)) (e : Str × List Str) : RcaResult :=
  let device_id := e.1
  let messages := e.2
  if parent_is_silent_suspect topo suspects device_id && messages.any is_connection_loss then
    { id := device_id, label := joinSlash messages, prob := q04,
      type := str "Network/ConnectionLost", tier := 3,
      reason := str "Downstream symptom under suspected silent failure parent (parent=" ++
        pyStrOpt (get_parent_id topo device_id) ++ str ").",
      analyst_report := none, auto_investigation := none }
  else if messages.any (fun m => containsStr (pyLower m) (str "unreachable")) &&
      parent_is_alarmed topo msg_map device_id then
    { id := device_id, label := joinSlash messages, prob := q02,
      type := str "Network/Unreachable", tier := 3,
      reason := str "Downstream unreachable due to upstream alarm (parent=" ++
        pyStrOpt (get_parent_id topo device_id) ++ str ").",
      analyst_report := none, auto_investigation := none }
  else
    match mmLookup suspects device_id with
    | some info =>
      { id := device_id, label := joinSlash messages, prob := q08,
        type := str "Network/SilentFailure", tier := 1,
        reason := str "Silent failure suspected: " ++ natToStr info.evidence_count ++
          str "/" ++ natToStr info.total_children ++ str " children affected.",
        analyst_report := some info.report, auto_investigation := some auto_checklist }
    | none =>
      let analysis := analyze_redundancy_depth topo env device_id messages
      if analysis.impact_type = str "UNKNOWN" ∧
          containsStr analysis.reason (str "API key not configured") = true then
        { id := device_id, label := joinSlash messages, prob := q05,
          type := analysis.impact_type, tier := 3, reason := analysis.reason,
          analyst_report := none, auto_investigation := none }
      else
        let pt : Rat × Nat :=
          match analysis.status with
          | .CRITICAL => (q09, 1)
          | .WARNING => (q07, 2)
          | .NORMAL => (q03, 3)
        { id := device_id, label := joinSlash messages, prob := pt.1,
          type := analysis.impact_type, tier := pt.2, reason := analysis.reason,
          analyst_report := none, auto_investigation := none }

/-- Insert into a descending-by-prob sorted list, after all entries with
probability greater than or equal (stability). -/
def insertByProb (x : RcaResult) : List RcaResult → List RcaResult
  | [] => [x]
  | y :: ys => if x.prob ≤ y.prob then y :: insertByProb x ys else x :: y :: ys

/-- Stable sort by probability, descending.  Python's
`results.sort(key=..., reverse=True)` is a stable descending sort, and every
stable sort under the same total key order produces the same list. -/
def sortByProbDesc (l : List RcaResult) : List RcaResult :=
  l.foldl (fun acc x => insertByProb x acc) []

/-- Injection of the synthetic alert onto every silent suspect
(`msg_map.setdefault(parent_id, []).append(...)` in suspect order). -/
def inject_suspects (suspects : List (Str × Evidence))
    (msg_map : List (Str × List Str)) : List (Str × List Str) :=
  suspects.foldl (fun m e => mmAdd m e.1 silent_synthetic) msg_map

/-- The suspects computed inside `analyze` for a topology and alert batch. -/
def suspects_of (topo : Topo) (alarms : List Alarm) : List (Str × Evidence) :=
  detect_silent_failures (children_map topo) (build_msg_map alarms)

/-- The augmented message map `analyze` classifies. -/
def final_msg_map (topo : Topo) (alarms : List Alarm) : List (Str × List Str) :=
  inject_suspects (suspects_of topo alarms) (build_msg_map alarms)

/-- `LogicalRCA.analyze`: the public entry point. -/
def analyze (topo : Topo) (env : Env) (alarms : List Alarm) : List RcaResult :=
  if alarms = [] then
    [{ id := str "SYSTEM", label := str "No alerts detected", prob := q00,
       type := str "Normal", tier := 0, reason := str "No active alerts detected.",
       analyst_report := none, auto_investigation := none }]
  else
    let suspects := suspects_of topo alarms
    let msg_map := final_msg_map topo alarms
    sortByProbDesc (msg_map.map (classify_device topo env suspects msg_map))

/-- The unique result entry for a device (result ids are the keys of the
augmented message map, which are distinct). -/
def resultFor (results : List RcaResult) (device_id : Str) : Option RcaResult :=
  results.find? (fun r => r.id == device_id)

/-- The environment with no API key configured (the oracle is never reached). -/
def envOff : Env := ⟨false, fun _ _ => LLMOutcome.err []⟩

/-- The same topology with every `parent_ids` list deleted (the engine never
reads that field). -/
def erase_parent_ids (topo : Topo) : Topo :=
  topo.map (fun e => (e.1, { e.2 with parent_ids := [] }))

/-- Nested silent-failure scenario: G uplinks X, Y and P; P uplinks M and N. -/
def topoNested : Topo :=
  [(str "G", ⟨none, [], none, none⟩),
   (str "X", ⟨some (str "G"), [], none, none⟩),
   (str "Y", ⟨some (str "G"), [], none, none⟩),
   (str "P", ⟨some (str "G"), [], none, none⟩),
   (str "M", ⟨some (str "P"), [], none, none⟩),
   (str "N", ⟨some (str "P"), [], none, none⟩)]

/-- Alert batch for the nested scenario: all four leaves lose connection. -/
def alNested : List Alarm :=
  [⟨str "X", str "Connection Lost"⟩, ⟨str "Y", str "Connection Lost"⟩,
   ⟨str "M", str "Connection Lost"⟩, ⟨str "N", str "Connection Lost"⟩]

/-- A topology whose children declare their uplink only via `parent_ids`. -/
def topoListOnly : Topo :=
  [(str "CORE", ⟨none, [], none, none⟩),
   (str "A", ⟨none, [str "CORE"], none, none⟩),
   (str "B", ⟨none, [str "CORE"], none, none⟩)]

/-- Alert batch for `topoListOnly`: both children lose connection. -/
def alListOnly : List Alarm :=
  [⟨str "A", str "Connection Lost"⟩, ⟨str "B", str "Connection Lost"⟩]

/-- A `parent_ids`-only child reporting unreachable under an alarmed parent. -/
def topoListOnly2 : Topo :=
  [(str "CORE", ⟨none, [], none, none⟩),
   (str "SW1", ⟨none, [str "CORE"], none, none⟩)]

/-- Alert batch for `topoListOnly2`. -/
def alListOnly2 : List Alarm :=
  [⟨str "CORE", str "Fan Fail"⟩, ⟨str "SW1", str "Device Unreachable"⟩]

/-!
Infrastructure for the sanitizer-idempotence claim.  `AllId t w` states that
every anchored match of the matcher `t` at any suffix of `w` rewrites to the
very text it matched; a scan over such a string is the identity.
-/

/-- The head of the string, when present, is whitespace. -/
def headWsOrNil (s : Str) : Prop :=
  match s with
  | [] => True
  | c :: _ => pyWS c = true

/-- Every anchored match at any suffix is an identity rewrite. -/
def AllId (t : Str → Option (Nat × Str)) (w : Str) : Prop :=
  ∀ v : Str, v.IsSuffix w → ∀ len r, t v = some (len, r) → r = v.take len

/-!
Stage-machine view of the four anchored matchers.  Each matcher is a
pipeline of primitive regex pieces (a literal, `\s+`, `\d`, `\S+`, `"`,
`[^"]+`); `runStages` runs a pipeline against a string and returns whether
the anchored match succeeds.  `stepState` advances a pipeline over one
consumed character (the `…Opt` stages are the in-progress forms of the
greedy runs); `stepStr` iterates it over a string.  This is used to relate
matches found in a substitution output to matches in its source.
-/

/-- Boolean prefix test on character lists. -/
def litPre : Str → Str → Bool
  | [], _ => true
  | _ :: _, [] => false
  | a :: as, b :: bs => a = b && litPre as bs

inductive Stage where
  | lit (l : Str)
  | ws
  | wsOpt
  | digit
  | tok
  | tokOpt
  | quote
  | content
  | contentOpt
deriving DecidableEq

/-- Run a pipeline of stages against a string (anchored acceptance). -/
def runStages : List Stage → Str → Bool
  | [], _ => true
  | .lit l :: ss, v =>
    match stripLit l v with
    | none => false
    | some v1 => runStages ss v1
  | .ws :: ss, v => decide (wsTake v ≠ []) && runStages ss (wsDrop v)
  | .wsOpt :: ss, v => runStages ss (wsDrop v)
  | .digit :: ss, v =>
    match v with
    | c :: v1 => c.isDigit && runStages ss v1
    | [] => false
  | .tok :: ss, v => decide (tokTake v ≠ []) && runStages ss (tokDrop v)
  | .tokOpt :: ss, v => runStages ss (tokDrop v)
  | .quote :: ss, v =>
    match v with
    | c :: v1 => decide (c = '"') && runStages ss v1
    | [] => false
  | .content :: ss, v =>
    decide (v.takeWhile (fun c => c ≠ '"') ≠ []) &&
      runStages ss (v.dropWhile (fun c => c ≠ '"'))
  | .contentOpt :: ss, v => runStages ss (v.dropWhile (fun c => c ≠ '"'))

/-- Advance a pipeline over one consumed character. -/
def stepState (c : Char) : List Stage → Option (List Stage)
  | [] => some []
  | .lit [] :: ss => stepState c ss
  | .lit (a :: l) :: ss =>
    if a = c then
      match l with
      | [] => some ss
      | _ => some (.lit l :: ss)
    else none
  | .ws :: ss => if pyWS c then some (.wsOpt :: ss) else none
  | .wsOpt :: ss => if pyWS c then some (.wsOpt :: ss) else stepState c ss
  | .digit :: ss => if c.isDigit then some ss else none
  | .tok :: ss => if pyWS c then none else some (.tokOpt :: ss)
  | .tokOpt :: ss => if pyWS c then stepState c ss else some (.tokOpt :: ss)
  | .quote :: ss => if c = '"' then some ss else none
  | .content :: ss => if c = '"' then none else some (.contentOpt :: ss)
  | .contentOpt :: ss => if c = '"' then stepState c ss else some (.contentOpt :: ss)

/-- Advance a pipeline over a consumed string. -/
def stepStr : Str → List Stage → Option (List Stage)
  | [], ss => some ss
  | c :: u, ss =>
    match stepState c ss with
    | none => none
    | some ss1 => stepStr u ss1

/-- The five literal keywords of the sanitizer patterns. -/
def EPkw : Str := str "encrypted-password"
def PWkw : Str := str "password"
def SECkw : Str := str "secret"
def UNkw : Str := str "username"
def SNkw : Str := str "snmp-server community"

/-- Pipeline of pattern 1: `(encrypted-password\s+)"[^"]+"`. -/
def S1s : List Stage := [.lit EPkw, .ws, .quote, .content, .quote]

/-- Pipeline of pattern 2 for one keyword: `(kw)\s+(\d)\s+\S+`. -/
def S2s (kw : Str) : List Stage := [.lit kw, .ws, .digit, .ws, .tok]

/-- Pipeline of pattern 3: `(username\s+\S+\s+secret)\s+\d\s+\S+`. -/
def S3s : List Stage := [.lit UNkw, .ws, .tok, .ws, .lit SECkw, .ws, .digit, .ws, .tok]

/-- Pipeline of pattern 4: `(snmp-server community)\s+\S+`. -/
def S4s : List Stage := [.lit SNkw, .ws, .tok]

/-- Pipeline states reachable after the probe-2 keyword. -/
def tail2s : List (List Stage) :=
  [[.ws, .digit, .ws, .tok], [.wsOpt, .digit, .ws, .tok],
   [.ws, .tok], [.wsOpt, .tok], [.tokOpt], []]

/-- All pipeline states reachable while probing pattern 2 with keyword `kw`. -/
def Fam2 (kw : Str) (ss : List Stage) : Prop :=
  (∃ k, k ≠ [] ∧ k <:+ kw ∧ ss = S2s k) ∨ ss ∈ tail2s

/-- Pipeline states reachable after the probe-1 keyword. -/
def tail1s : List (List Stage) :=
  [[.ws, .quote, .content, .quote], [.wsOpt, .quote, .content, .quote],
   [.content, .quote], [.contentOpt, .quote], []]

/-- All pipeline states reachable while probing pattern 1. -/
def Fam1 (ss : List Stage) : Prop :=
  (∃ k, k ≠ [] ∧ k <:+ EPkw ∧ ss = [.lit k, .ws, .quote, .content, .quote]) ∨ ss ∈ tail1s

/-- Pipeline states reachable between the two probe-3 keywords. -/
def tail3s : List (List Stage) :=
  [[.ws, .tok, .ws, .lit SECkw, .ws, .digit, .ws, .tok],
   [.wsOpt, .tok, .ws, .lit SECkw, .ws, .digit, .ws, .tok],
   [.tokOpt, .ws, .lit SECkw, .ws, .digit, .ws, .tok],
   [.wsOpt, .lit SECkw, .ws, .digit, .ws, .tok]]

/-- All pipeline states reachable while probing pattern 3. -/
def Fam3 (ss : List Stage) : Prop :=
  (∃ k, k ≠ [] ∧ k <:+ UNkw ∧
    ss = [.lit k, .ws, .tok, .ws, .lit SECkw, .ws, .digit, .ws, .tok]) ∨
  ss ∈ tail3s ∨
  (∃ k, k ≠ [] ∧ k <:+ SECkw ∧ ss = S2s k) ∨ ss ∈ tail2s

/-- Pipeline states reachable after the probe-4 keyword. -/
def tail4s : List (List Stage) :=
  [[.ws, .tok], [.wsOpt, .tok], [.tokOpt], []]

/-- All pipeline states reachable while probing pattern 4. -/
def Fam4 (ss : List Stage) : Prop :=
  (∃ k, k ≠ [] ∧ k <:+ SNkw ∧ ss = [.lit k, .ws, .tok]) ∨ ss ∈ tail4s

/-!
Supporting lemmas about the association-list dictionaries, the suspect
injection and the result sort, used to settle the orchestrator-level claims.
-/

theorem mmLookup_mmAdd_self {β : Type} (m : List (Str × List β)) (k : Str) (v : β) :
    mmLookup (mmAdd m k v) k = some ((mmLookup m k).getD [] ++ [v]) := by
  induction m with
  | nil => simp [mmAdd, mmLookup]
  | cons e rest ih =>
    obtain ⟨k', vs⟩ := e
    by_cases h : k' = k
    · subst h
      simp [mmAdd, mmLookup]
    · simp [mmAdd, mmLookup, h, ih]

theorem mmLookup_mmAdd_other {β : Type} (m : List (Str × List β)) (k k' : Str) (v : β)
    (h : k' ≠ k) : mmLookup (mmAdd m k v) k' = mmLookup m k' := by
  have hkk : ¬ (k = k') := fun hh => h hh.symm
  induction m with
  | nil => simp [mmAdd, mmLookup, hkk]
  | cons e rest ih =>
    obtain ⟨k0, vs⟩ := e
    by_cases h0 : k0 = k
    · subst h0
      have h0k : ¬ (k0 = k') := hkk
      simp [mmAdd, mmLookup, h0k]
    · simp only [mmAdd, if_neg h0]
      by_cases h1 : k0 = k'
      · subst h1
        simp [mmLookup]
      · simp [mmLookup, h1, ih]

theorem mmLookup_eq_none_iff {β : Type} (m : List (Str × β)) (k : Str) :
    mmLookup m k = none ↔ k ∉ mmKeys m := by
  induction m with
  | nil =>
    simp only [mmLookup, mmKeys, List.map_nil, List.not_mem_nil, not_false_iff, iff_true]
  | cons e rest ih =>
    obtain ⟨k', v⟩ := e
    simp only [mmKeys, List.map_cons, List.mem_cons]
    by_cases h : k' = k
    · subst h
      simp only [mmLookup, if_pos rfl]
      constructor
      · intro hh
        exact Option.noConfusion hh
      · intro hh
        exact absurd (Or.inl trivial) hh
    · have hk : ¬ (k = k') := fun hh => h hh.symm
      simp only [mmLookup, if_neg h]
      rw [ih]
      constructor
      · intro hh h2
        rcases h2 with h2 | h2
        · exact hk h2
        · exact hh h2
      · intro hh h2
        exact hh (Or.inr h2)

theorem mmLookup_isSome_iff {β : Type} (m : List (Str × β)) (k : Str) :
    (mmLookup m k).isSome = true ↔ k ∈ mmKeys m := by
  rw [← Decidable.not_iff_not, ← mmLookup_eq_none_iff]
  cases mmLookup m k <;> simp

theorem mem_of_mmLookup {β : Type} {m : List (Str × β)} {k : Str} {v : β}
    (h : mmLookup m k = some v) : (k, v) ∈ m := by
  induction m with
  | nil => exact Option.noConfusion h
  | cons e rest ih =>
    obtain ⟨k', v'⟩ := e
    by_cases h0 : k' = k
    · subst h0
      simp only [mmLookup, if_pos rfl] at h
      cases h
      exact List.mem_cons_self _ _
    · simp only [mmLookup, if_neg h0] at h
      exact List.mem_cons_of_mem _ (ih h)

theorem mmLookup_of_mem {β : Type} {m : List (Str × β)} {k : Str} {v : β}
    (hnd : (mmKeys m).Nodup) (h : (k, v) ∈ m) : mmLookup m k = some v := by
  induction m with
  | nil => simp at h
  | cons e rest ih =>
    obtain ⟨k', v'⟩ := e
    simp only [mmKeys, List.map_cons, List.nodup_cons] at hnd
    rcases List.mem_cons.1 h with h0 | h0
    · cases h0
      simp [mmLookup]
    · have hk : k' ≠ k := by
        rintro rfl
        exact hnd.1 (List.mem_map.2 ⟨(k', v), h0, rfl⟩)
      simp only [mmLookup, if_neg hk]
      exact ih hnd.2 h0

theorem mmKeys_mmAdd_absent {β : Type} (m : List (Str × List β)) (k : Str) (v : β)
    (h : mmLookup m k = none) : mmKeys (mmAdd m k v) = mmKeys m ++ [k] := by
  induction m with
  | nil => simp [mmAdd, mmKeys]
  | cons e rest ih =>
    obtain ⟨k', vs⟩ := e
    by_cases h0 : k' = k
    · subst h0
      simp only [mmLookup, if_pos rfl] at h
      exact Option.noConfusion h
    · simp only [mmLookup, if_neg h0] at h
      have hrec := ih h
      simp only [mmKeys] at hrec ⊢
      simp [mmAdd, h0, hrec]

theorem mmKeys_mmAdd_present {β : Type} (m : List (Str × List β)) (k : Str) (v : β)
    (h : (mmLookup m k).isSome = true) : mmKeys (mmAdd m k v) = mmKeys m := by
  induction m with
  | nil => simp [mmLookup] at h
  | cons e rest ih =>
    obtain ⟨k', vs⟩ := e
    by_cases h0 : k' = k
    · subst h0
      simp [mmAdd, mmKeys]
    · simp only [mmLookup, if_neg h0] at h
      have hrec := ih h
      simp only [mmKeys] at hrec ⊢
      simp [mmAdd, h0, hrec]

theorem mmKeys_nodup_mmAdd {β : Type} (m : List (Str × List β)) (k : Str) (v : β)
    (hnd : (mmKeys m).Nodup) : (mmKeys (mmAdd m k v)).Nodup := by
  cases h : mmLookup m k with
  | none =>
    rw [mmKeys_mmAdd_absent m k v h]
    simp only [List.nodup_append, List.nodup_singleton]
    refine ⟨hnd, trivial, ?_⟩
    intro a ha hb
    simp only [List.mem_singleton] at hb
    subst hb
    exact (mmLookup_eq_none_iff m a).1 h ha
  | some vs =>
    rw [mmKeys_mmAdd_present m k v (by simp [h])]
    exact hnd

theorem foldl_mmAdd_keys_nodup {β : Type} (f : β → Str) (g : β → Str)
    (l : List β) (m : List (Str × List Str)) (hnd : (mmKeys m).Nodup) :
    (mmKeys (l.foldl (fun acc x => mmAdd acc (f x) (g x)) m)).Nodup := by
  induction l generalizing m with
  | nil => exact hnd
  | cons x rest ih => exact ih _ (mmKeys_nodup_mmAdd m (f x) (g x) hnd)

theorem build_msg_map_keys_nodup (alarms : List Alarm) :
    (mmKeys (build_msg_map alarms)).Nodup :=
  foldl_mmAdd_keys_nodup (fun a : Alarm => a.device_id) (fun a => a.message)
    alarms [] (by simp [mmKeys])

theorem mmAdd_values_ne_nil {β : Type} (k : Str) (v : β) :
    ∀ (m : List (Str × List β)), (∀ e ∈ m, e.2 ≠ ([] : List β)) →
      ∀ e ∈ mmAdd m k v, e.2 ≠ ([] : List β) := by
  intro m
  induction m with
  | nil =>
    intro _ e he
    simp only [mmAdd, List.mem_singleton] at he
    subst he
    simp
  | cons e0 m0 ihm =>
    obtain ⟨k0, vs0⟩ := e0
    intro hm e he
    by_cases h0 : k0 = k
    · subst h0
      simp only [mmAdd, if_pos rfl] at he
      cases he with
      | head => simp
      | tail _ hmem => exact hm _ (List.mem_cons_of_mem _ hmem)
    · simp only [mmAdd, if_neg h0] at he
      cases he with
      | head => exact hm _ (List.mem_cons_self _ _)
      | tail _ hmem => exact ihm (fun e2 he2 => hm e2 (List.mem_cons_of_mem _ he2)) e hmem

theorem build_msg_map_values_ne_nil (alarms : List Alarm) :
    ∀ e ∈ build_msg_map alarms, e.2 ≠ ([] : List Str) := by
  unfold build_msg_map
  have h : ∀ (l : List Alarm) (m : List (Str × List Str)),
      (∀ e ∈ m, e.2 ≠ ([] : List Str)) →
      ∀ e ∈ l.foldl (fun acc a => mmAdd acc a.device_id a.message) m, e.2 ≠ ([] : List Str) := by
    intro l
    induction l with
    | nil => intro m hm; exact hm
    | cons a rest ih =>
      intro m hm
      simp only [List.foldl_cons]
      exact ih _ (mmAdd_values_ne_nil a.device_id a.message m hm)
  exact h alarms [] (by simp)

theorem children_map_keys_nodup (topo : Topo) : (mmKeys (children_map topo)).Nodup := by
  unfold children_map
  have h : ∀ (l : List (Str × DeviceInfo)) (m : List (Str × List Str)),
      (mmKeys m).Nodup →
      (mmKeys (l.foldl (fun acc e =>
        match truthy e.2.parent_id with
        | some p => mmAdd acc p e.1
        | none => acc) m)).Nodup := by
    intro l
    induction l with
    | nil => intro m hm; exact hm
    | cons e rest ih =>
      intro m hm
      simp only [List.foldl_cons]
      cases htr : truthy e.2.parent_id with
      | none =>
        simp only [htr]
        exact ih m hm
      | some p =>
        simp only [htr]
        exact ih _ (mmKeys_nodup_mmAdd m p e.1 hm)
  exact h topo [] (by simp [mmKeys])

/-- A successful `detect_entry` keeps the parent key and implies the parent
was not alarmed. -/
theorem detect_entry_eq_some {mm : List (Str × List Str)} {e : Str × List Str}
    {p : Str} {ev : Evidence} (h : detect_entry mm e = some (p, ev)) :
    p = e.1 ∧ mmLookup mm e.1 = none := by
  unfold detect_entry at h
  by_cases h1 : e.2 = []
  · simp only [if_pos h1] at h
    exact Option.noConfusion h
  · simp only [if_neg h1] at h
    by_cases h2 : (mmLookup mm e.1).isSome = true
    · simp only [if_pos h2] at h
      exact Option.noConfusion h
    · simp only [if_neg h2] at h
      by_cases h3 : affected_children mm e.2 = []
      · simp only [if_pos h3] at h
        exact Option.noConfusion h
      · simp only [if_neg h3] at h
        by_cases h4 : SILENT_MIN_CHILDREN ≤ (affected_children mm e.2).length ∧
            silentRatioMin ≤ child_ratio (affected_children mm e.2).length e.2.length
        · simp only [if_pos h4, Option.some.injEq] at h
          refine ⟨(congrArg Prod.fst h).symm, ?_⟩
          simp only [Option.not_isSome_iff_eq_none] at h2
          exact h2
        · simp only [if_neg h4] at h
          exact Option.noConfusion h

/-- Every suspect's key appears among the children-map keys, in order. -/
theorem detect_keys_sublist (cm mm : List (Str × List Str)) :
    (mmKeys (detect_silent_failures cm mm)).Sublist (mmKeys cm) := by
  induction cm with
  | nil => simp [detect_silent_failures, mmKeys]
  | cons e rest ih =>
    simp only [detect_silent_failures, List.filterMap_cons] at *
    cases hde : detect_entry mm e with
    | none =>
      simp only [mmKeys, List.map_cons]
      exact ih.trans (List.sublist_cons_self _ _)
    | some pe =>
      obtain ⟨p, ev⟩ := pe
      have hp : p = e.1 := (detect_entry_eq_some hde).1
      subst hp
      simp only [mmKeys, List.map_cons]
      exact ih.cons₂ _

theorem detect_keys_nodup (topo : Topo) (mm : List (Str × List Str)) :
    (mmKeys (detect_silent_failures (children_map topo) mm)).Nodup :=
  (children_map_keys_nodup topo).sublist (detect_keys_sublist _ mm)

/-- Every suspect has no alert of its own in the aggregated message map. -/
theorem detect_not_alarmed {cm mm : List (Str × List Str)} {p : Str} {ev : Evidence}
    (h : (p, ev) ∈ detect_silent_failures cm mm) : mmLookup mm p = none := by
  unfold detect_silent_failures at h
  obtain ⟨e, _, hde⟩ := List.mem_filterMap.1 h
  obtain ⟨hp, hnone⟩ := detect_entry_eq_some hde
  rw [hp]
  exact hnone

/-- Suspect keys are disjoint from alarmed keys: a device with an entry in
the message map is never a suspect. -/
theorem detect_lookup_none_of_alarmed {cm mm : List (Str × List Str)} {d : Str}
    (h : (mmLookup mm d).isSome = true) :
    mmLookup (detect_silent_failures cm mm) d = none := by
  cases hs : mmLookup (detect_silent_failures cm mm) d with
  | none => rfl
  | some ev =>
    have hmem := mem_of_mmLookup hs
    have := detect_not_alarmed hmem
    rw [this] at h
    exact Bool.noConfusion h

/-- Looking up the injected message map: suspects carry exactly the synthetic
alert, everything else is unchanged. -/
theorem mmLookup_inject (suspects : List (Str × Evidence)) (m0 : List (Str × List Str))
    (hnd : (mmKeys suspects).Nodup)
    (habs : ∀ p ∈ mmKeys suspects, mmLookup m0 p = none) (d : Str) :
    mmLookup (inject_suspects suspects m0) d =
      if (mmLookup suspects d).isSome then some [silent_synthetic] else mmLookup m0 d := by
  induction suspects generalizing m0 with
  | nil => simp [inject_suspects, mmLookup]
  | cons e rest ih =>
    obtain ⟨p, ev⟩ := e
    simp only [mmKeys, List.map_cons, List.nodup_cons] at hnd
    have hp0 : mmLookup m0 p = none := habs p (by
      simp only [mmKeys, List.map_cons]
      exact List.mem_cons_self _ _)
    have hstep : inject_suspects ((p, ev) :: rest) m0 =
        inject_suspects rest (mmAdd m0 p silent_synthetic) := rfl
    rw [hstep, ih (mmAdd m0 p silent_synthetic) hnd.2 ?habs]
    case habs =>
      intro p2 hp2
      have hne : p2 ≠ p := by
        rintro rfl
        exact hnd.1 hp2
      rw [mmLookup_mmAdd_other m0 p p2 silent_synthetic hne]
      refine habs p2 ?_
      simp only [mmKeys, List.map_cons]
      exact List.mem_cons_of_mem _ hp2
    by_cases hd : p = d
    · subst hd
      have hrest : mmLookup rest p = none := (mmLookup_eq_none_iff rest p).2 hnd.1
      simp only [mmLookup, if_pos rfl, hrest, mmLookup_mmAdd_self m0 p silent_synthetic, hp0]
      simp
    · have hd2 : ¬ (p = d) := hd
      simp only [mmLookup, if_neg hd2]
      rw [mmLookup_mmAdd_other m0 p d silent_synthetic (fun hh => hd hh.symm)]

/-- Keys of the injected map are the original keys then the suspect keys. -/
theorem mmKeys_inject (suspects : List (Str × Evidence)) (m0 : List (Str × List Str))
    (hnd : (mmKeys suspects).Nodup)
    (habs : ∀ p ∈ mmKeys suspects, mmLookup m0 p = none) :
    mmKeys (inject_suspects suspects m0) = mmKeys m0 ++ mmKeys suspects := by
  induction suspects generalizing m0 with
  | nil => simp [inject_suspects, mmKeys]
  | cons e rest ih =>
    obtain ⟨p, ev⟩ := e
    simp only [mmKeys, List.map_cons, List.nodup_cons] at hnd
    have hp0 : mmLookup m0 p = none := habs p (by
      simp only [mmKeys, List.map_cons]
      exact List.mem_cons_self _ _)
    have hstep : inject_suspects ((p, ev) :: rest) m0 =
        inject_suspects rest (mmAdd m0 p silent_synthetic) := rfl
    rw [hstep, ih (mmAdd m0 p silent_synthetic) hnd.2 ?habs]
    case habs =>
      intro p2 hp2
      have hne : p2 ≠ p := by
        rintro rfl
        exact hnd.1 hp2
      rw [mmLookup_mmAdd_other m0 p p2 silent_synthetic hne]
      refine habs p2 ?_
      simp only [mmKeys, List.map_cons]
      exact List.mem_cons_of_mem _ hp2
    rw [mmKeys_mmAdd_absent m0 p silent_synthetic hp0]
    simp [mmKeys]

theorem mmKeys_nodup_inject (suspects : List (Str × Evidence)) (m0 : List (Str × List Str))
    (hnd0 : (mmKeys m0).Nodup) (hnd : (mmKeys suspects).Nodup)
    (habs : ∀ p ∈ mmKeys suspects, mmLookup m0 p = none) :
    (mmKeys (inject_suspects suspects m0)).Nodup := by
  rw [mmKeys_inject suspects m0 hnd habs]
  refine List.Nodup.append hnd0 hnd ?_
  intro a ha hb
  have := habs a hb
  exact (mmLookup_eq_none_iff m0 a).1 this ha

theorem mem_insertByProb (x a : RcaResult) (l : List RcaResult) :
    a ∈ insertByProb x l ↔ a = x ∨ a ∈ l := by
  induction l with
  | nil => simp [insertByProb]
  | cons y ys ih =>
    simp only [insertByProb]
    by_cases h : x.prob ≤ y.prob
    · simp only [if_pos h, List.mem_cons, ih]
      tauto
    · simp only [if_neg h, List.mem_cons]

theorem mem_sortByProbDesc (a : RcaResult) (l : List RcaResult) :
    a ∈ sortByProbDesc l ↔ a ∈ l := by
  unfold sortByProbDesc
  have h : ∀ (l : List RcaResult) (acc : List RcaResult),
      a ∈ l.foldl (fun acc x => insertByProb x acc) acc ↔ a ∈ acc ∨ a ∈ l := by
    intro l
    induction l with
    | nil => intro acc; simp
    | cons x xs ih =>
      intro acc
      simp only [List.foldl_cons, ih, mem_insertByProb, List.mem_cons]
      tauto
  rw [h l []]
  simp

theorem find_eq_of_unique {p : RcaResult → Bool} {l : List RcaResult} {r0 : RcaResult}
    (hp : p r0 = true) (hmem : r0 ∈ l)
    (huniq : ∀ r ∈ l, p r = true → r = r0) : l.find? p = some r0 := by
  induction l with
  | nil => simp at hmem
  | cons x rest ih =>
    by_cases hx : p x = true
    · have hx0 : x = r0 := huniq x (List.mem_cons_self _ _) hx
      subst hx0
      simp [List.find?, hx]
    · have hx0 : r0 ≠ x := by
        rintro rfl
        exact hx hp
      have hmem2 : r0 ∈ rest := by
        rcases List.mem_cons.1 hmem with h | h
        · exact absurd h hx0
        · exact h
      simp only [List.find?, hx]
      cases hpx : p x with
      | true => exact absurd hpx hx
      | false =>
        exact ih hmem2 (fun r hr hpr => huniq r (List.mem_cons_of_mem _ hr) hpr)

/-- Every branch of the classification loop body keeps the device id. -/
theorem classify_id (topo : Topo) (env : Env) (s : List (Str × Evidence))
    (m : List (Str × List Str)) (e : Str × List Str) :
    (classify_device topo env s m e).id = e.1 := by
  simp only [classify_device]
  repeat' split
  all_goals rfl

/-- No suspect key is alarmed in the original message map. -/
theorem suspects_keys_not_alarmed (topo : Topo) (alarms : List Alarm) :
    ∀ p ∈ mmKeys (suspects_of topo alarms), mmLookup (build_msg_map alarms) p = none := by
  intro p hp
  obtain ⟨e, he, hpe⟩ := List.mem_map.1 hp
  have : (p, e.2) ∈ suspects_of topo alarms := by
    have he2 : e = (p, e.2) := by
      rw [← hpe]
    rw [← he2]
    exact he
  exact detect_not_alarmed this

theorem suspects_keys_nodup (topo : Topo) (alarms : List Alarm) :
    (mmKeys (suspects_of topo alarms)).Nodup :=
  detect_keys_nodup topo (build_msg_map alarms)

/-- Lookup in the synthetically augmented message map. -/
theorem final_msg_map_lookup (topo : Topo) (alarms : List Alarm) (d : Str) :
    mmLookup (final_msg_map topo alarms) d =
      if (mmLookup (suspects_of topo alarms) d).isSome then some [silent_synthetic]
      else mmLookup (build_msg_map alarms) d :=
  mmLookup_inject _ _ (suspects_keys_nodup topo alarms) (suspects_keys_not_alarmed topo alarms) d

theorem final_msg_map_keys_nodup (topo : Topo) (alarms : List Alarm) :
    (mmKeys (final_msg_map topo alarms)).Nodup :=
  mmKeys_nodup_inject _ _ (build_msg_map_keys_nodup alarms)
    (suspects_keys_nodup topo alarms) (suspects_keys_not_alarmed topo alarms)

/-- The result `analyze` emits for a device is the classification of that
device's entry in the augmented message map. -/
theorem analyze_resultFor (topo : Topo) (env : Env) (alarms : List Alarm) (d : Str)
    (msgs : List Str) (halarms : alarms ≠ [])
    (hlook : mmLookup (final_msg_map topo alarms) d = some msgs) :
    resultFor (analyze topo env alarms) d =
      some (classify_device topo env (suspects_of topo alarms)
        (final_msg_map topo alarms) (d, msgs)) := by
  unfold analyze resultFor
  rw [if_neg halarms]
  apply find_eq_of_unique
  · rw [classify_id]
    exact beq_self_eq_true d
  · refine (mem_sortByProbDesc _ _).2 ?_
    exact List.mem_map.2 ⟨(d, msgs), mem_of_mmLookup hlook, rfl⟩
  · intro r hr hpr
    obtain ⟨e, he, hre⟩ := List.mem_map.1 ((mem_sortByProbDesc _ _).1 hr)
    have hid : e.1 = d := by
      have := classify_id topo env (suspects_of topo alarms) (final_msg_map topo alarms) e
      rw [hre] at this
      rw [← this]
      exact eq_of_beq hpr
    have hval : mmLookup (final_msg_map topo alarms) e.1 = some e.2 := by
      apply mmLookup_of_mem (final_msg_map_keys_nodup topo alarms)
      have he2 : e = (e.1, e.2) := rfl
      rw [← he2]
      exact he
    rw [hid, hlook] at hval
    have hmsgs : e.2 = msgs := by
      cases hval
      rfl
    rw [← hre]
    have he3 : e = (d, msgs) := by
      have : e = (e.1, e.2) := rfl
      rw [this, hid, hmsgs]
    rw [he3]

/-!
Claim C1.  As stated ("if any alert message contains the substring ...")
the claim is false: sanitization can destroy the stop-condition substring
before rule 0 sees it (`"password 1 Device Down"` sanitizes to
`"password 1 ******** Down"`).  The amended claim quantifies over the
sanitized aggregated text, which is what rule 0 matches.
-/

/-- Claim C1, counterexample: the raw message `"password 1 Device Down"`
contains the substring `"Device Down"`, yet with the API unconfigured
`analyze_redundancy_depth` returns WARNING (impact UNKNOWN), not CRITICAL,
because `_sanitize_text` redacts the token `Device` first. -/
theorem c1_counterexample :
    containsStr (str "password 1 Device Down") (str "Device Down") = true ∧
    analyze_redundancy_depth [] envOff (str "SW1") [str "password 1 Device Down"] =
      ⟨.WARNING, str "API key not configured. Manual analysis required.", str "UNKNOWN"⟩ := by
  constructor
  · decide
  · decide

/-- Claim C1 (amended): for every device and alert list, if the sanitized,
space-joined alert text contains `"Device Down"` or `"Thermal Shutdown"`,
`analyze_redundancy_depth` returns CRITICAL with impact Hardware/Physical,
regardless of the topology (hardware inventory) and of the external
environment (API configured or not, any oracle behaviour). -/
theorem c1_safety_critical (topo : Topo) (env : Env) (d : Str) (alerts : List Str)
    (h : containsStr (sanitizedJoined alerts) (str "Device Down") = true ∨
         containsStr (sanitizedJoined alerts) (str "Thermal Shutdown") = true) :
    analyze_redundancy_depth topo env d alerts =
      ⟨.CRITICAL,
       str "Device down / dual PSU loss / thermal shutdown detected (local safety rule).",
       str "Hardware/Physical"⟩ := by
  cases alerts with
  | nil =>
    exfalso
    rcases h with h | h
    · exact absurd h (by decide)
    · exact absurd h (by decide)
  | cons a as =>
    have hstop : stop_condition (sanitizedJoined (a :: as)) = true := by
      unfold stop_condition
      rcases h with h | h
      · rw [h]
        simp
      · rw [h]
        simp
    simp only [analyze_redundancy_depth]
    rw [if_neg (List.cons_ne_nil a as), if_pos hstop]

/-- Claim C1 witness: concrete instance with a configured environment whose
oracle would say NORMAL; the local rule still reports CRITICAL. -/
theorem c1_witness :
    (containsStr (sanitizedJoined [str "Device Down on PSU"]) (str "Device Down") = true ∨
     containsStr (sanitizedJoined [str "Device Down on PSU"]) (str "Thermal Shutdown") = true) ∧
    analyze_redundancy_depth [] ⟨true, fun _ _ => LLMOutcome.ok (some (str "NORMAL")) none none⟩
        (str "SW1") [str "Device Down on PSU"] =
      ⟨.CRITICAL,
       str "Device down / dual PSU loss / thermal shutdown detected (local safety rule).",
       str "Hardware/Physical"⟩ :=
  ⟨Or.inl (by decide),
   c1_safety_critical [] ⟨true, fun _ _ => LLMOutcome.ok (some (str "NORMAL")) none none⟩
     (str "SW1") [str "Device Down on PSU"] (Or.inl (by decide))⟩

/-- Claim C2 (confirmed): with a declared PSU count of at least 2, a
single-PSU-failure text (no "dual") that triggers no stop condition is
classified WARNING with impact Hardware/Redundancy — never CRITICAL —
regardless of the external environment. -/
theorem c2_redundancy_warning (topo : Topo) (env : Env) (d : Str) (alerts : List Str)
    (hstop : stop_condition (sanitizedJoined alerts) = false)
    (hpsf : psu_single_fail (pyLower (sanitizedJoined alerts)) = true)
    (hpsu : 2 ≤ get_psu_count topo d 1) :
    analyze_redundancy_depth topo env d alerts =
      ⟨.WARNING,
       str "Single PSU failure with redundancy (psu_count=" ++
         intToStr (get_psu_count topo d 1) ++ str ") (local safety rule).",
       str "Hardware/Redundancy"⟩ := by
  cases alerts with
  | nil => exact absurd hpsf (by decide)
  | cons a as =>
    simp only [analyze_redundancy_depth]
    rw [if_neg (List.cons_ne_nil a as), if_neg (by rw [hstop]; exact Bool.false_ne_true),
      if_pos hpsf, if_pos hpsu]

/-- Claim C2 witness: a firewall with `psu_count = 2` and the alert
`"Power supply 1 failed"`. -/
theorem c2_witness :
    stop_condition (sanitizedJoined [str "Power supply 1 failed"]) = false ∧
    psu_single_fail (pyLower (sanitizedJoined [str "Power supply 1 failed"])) = true ∧
    2 ≤ get_psu_count [(str "FW1", ⟨none, [], some 2, none⟩)] (str "FW1") 1 ∧
    analyze_redundancy_depth [(str "FW1", ⟨none, [], some 2, none⟩)] envOff (str "FW1")
        [str "Power supply 1 failed"] =
      ⟨.WARNING,
       str "Single PSU failure with redundancy (psu_count=" ++
         intToStr (get_psu_count [(str "FW1", ⟨none, [], some 2, none⟩)] (str "FW1") 1) ++
         str ") (local safety rule).",
       str "Hardware/Redundancy"⟩ :=
  ⟨by decide, by decide, by decide,
   c2_redundancy_warning [(str "FW1", ⟨none, [], some 2, none⟩)] envOff (str "FW1")
     [str "Power supply 1 failed"] (by decide) (by decide) (by decide)⟩

/-- Claim C8, counterexample: the all-lowercase text `"device down"` does
not fire rule 0 (which matches case-sensitively); with the API unconfigured
the result is WARNING/UNKNOWN, not CRITICAL. -/
theorem c8_counterexample :
    analyze_redundancy_depth [] envOff (str "SW1") [str "device down"] =
      ⟨.WARNING, str "API key not configured. Manual analysis required.", str "UNKNOWN"⟩ := by
  decide

/-- Claim C8 (amended): the stop conditions of rule 0 match
case-sensitively.  The exact-case phrases "Device Down", "Dual Loss" and
"Thermal Shutdown" classify CRITICAL/Hardware-Physical, while their
all-lowercase forms fall through every local rule and (with the API
unconfigured) yield WARNING/UNKNOWN.  Rules 1-3 operate on the lower-cased
text and are the only case-insensitive matches. -/
theorem c8_case_sensitivity :
    analyze_redundancy_depth [] envOff (str "SW1") [str "Device Down"] =
      ⟨.CRITICAL,
       str "Device down / dual PSU loss / thermal shutdown detected (local safety rule).",
       str "Hardware/Physical"⟩ ∧
    analyze_redundancy_depth [] envOff (str "SW1") [str "Dual Loss"] =
      ⟨.CRITICAL,
       str "Device down / dual PSU loss / thermal shutdown detected (local safety rule).",
       str "Hardware/Physical"⟩ ∧
    analyze_redundancy_depth [] envOff (str "SW1") [str "Thermal Shutdown"] =
      ⟨.CRITICAL,
       str "Device down / dual PSU loss / thermal shutdown detected (local safety rule).",
       str "Hardware/Physical"⟩ ∧
    analyze_redundancy_depth [] envOff (str "SW1") [str "device down"] ≠
      ⟨.CRITICAL,
       str "Device down / dual PSU loss / thermal shutdown detected (local safety rule).",
       str "Hardware/Physical"⟩ ∧
    analyze_redundancy_depth [] envOff (str "SW1") [str "dual loss"] ≠
      ⟨.CRITICAL,
       str "Device down / dual PSU loss / thermal shutdown detected (local safety rule).",
       str "Hardware/Physical"⟩ ∧
    analyze_redundancy_depth [] envOff (str "SW1") [str "thermal shutdown"] ≠
      ⟨.CRITICAL,
       str "Device down / dual PSU loss / thermal shutdown detected (local safety rule).",
       str "Hardware/Physical"⟩ := by
  refine ⟨by decide, by decide, by decide, by decide, by decide, by decide⟩

/-- Claim C7, counterexample: a response that is valid JSON but lacks the
`status` field (`{"reason": ..., "impact_type": ...}`) is not treated as an
error; the missing status defaults to "CRITICAL" and the device is
escalated to CRITICAL. -/
theorem c7_counterexample :
    analyze_redundancy_depth []
        ⟨true, fun _ _ => LLMOutcome.ok none (some (str "degraded link")) (some (str "NONE"))⟩
        (str "SRV1") [str "Strange anomaly detected"] =
      ⟨.CRITICAL, str "degraded link", str "NONE"⟩ := by
  decide

/-- Claim C7 (amended): raised errors (unreachable service, non-JSON text,
non-object JSON) do return the WARNING/AI_ERROR fallback; but a
successfully parsed object whose `status` field is missing or unrecognized
is mapped to CRITICAL via the `get("status", "CRITICAL")` default — absence
of information escalates rather than degrades. -/
theorem c7_response_handling (m : Str) (st rs it : Option Str) :
    llm_result (.err m) = ⟨.WARNING, str "AI Analysis Failed: " ++ m, str "AI_ERROR"⟩ ∧
    (status_recognized st = false → (llm_result (.ok st rs it)).status = .CRITICAL) := by
  constructor
  · rfl
  · intro h
    unfold status_recognized at h
    simp only [Bool.or_eq_false_iff, decide_eq_false_iff_not] at h
    obtain ⟨⟨⟨h1, h2⟩, h3⟩, h4⟩ := h
    simp only [llm_result]
    rw [if_neg (by rintro (hh | hh) <;> [exact h1 hh; exact h2 hh]),
      if_neg (by rintro (hh | hh) <;> [exact h3 hh; exact h4 hh])]

/-- Claim C7 witness: an exception message and a parsed object with no
status field. -/
theorem c7_witness :
    status_recognized none = false ∧
    llm_result (.err (str "timeout")) =
      ⟨.WARNING, str "AI Analysis Failed: timeout", str "AI_ERROR"⟩ ∧
    (llm_result (.ok none (some (str "r")) (some (str "NONE")))).status = .CRITICAL := by
  refine ⟨by decide, ?_, ?_⟩
  · have h := c7_response_handling (str "timeout") none (some (str "r")) (some (str "NONE"))
    have h1 := h.1
    rw [h1]
    decide
  · exact (c7_response_handling (str "timeout") none (some (str "r"))
      (some (str "NONE"))).2 (by decide)

/-- Helper: a parent absent from the children-map keys is absent from the
suspects. -/
theorem detect_lookup_none_of_not_key (cm mm : List (Str × List Str)) (p : Str)
    (h : p ∉ mmKeys cm) : mmLookup (detect_silent_failures cm mm) p = none := by
  rw [mmLookup_eq_none_iff]
  intro hmem
  exact h ((detect_keys_sublist cm mm).mem hmem)

/-- Claim C3 (confirmed): for a parent with children and no alert of its
own, the detector emits evidence exactly when at least
`SILENT_MIN_CHILDREN = 2` children show a connection-loss symptom and the
affected/total ratio reaches `silentRatioMin = 0.5`; the evidence records
the affected children, their count, the total child count, the ratio, and
the generated investigation report (all via `mkEvidence`). -/
theorem c3_silent_threshold (cm mm : List (Str × List Str)) (p : Str) (children : List Str)
    (hnd : (mmKeys cm).Nodup) (hmem : (p, children) ∈ cm) (hne : children ≠ [])
    (hquiet : mmLookup mm p = none) :
    mmLookup (detect_silent_failures cm mm) p =
      (if SILENT_MIN_CHILDREN ≤ (affected_children mm children).length ∧
          silentRatioMin ≤ child_ratio (affected_children mm children).length children.length
       then some (mkEvidence p (affected_children mm children) children.length)
       else none) := by
  induction cm with
  | nil => simp at hmem
  | cons e rest ih =>
    simp only [mmKeys, List.map_cons, List.nodup_cons] at hnd
    cases hmem with
    | head =>
      simp only [detect_silent_failures, List.filterMap_cons]
      have hrest : mmLookup (detect_silent_failures rest mm) p = none := by
        apply detect_lookup_none_of_not_key
        exact hnd.1
      have hentry : detect_entry mm (p, children) =
          (if SILENT_MIN_CHILDREN ≤ (affected_children mm children).length ∧
              silentRatioMin ≤ child_ratio (affected_children mm children).length children.length
           then some (p, mkEvidence p (affected_children mm children) children.length)
           else none) := by
        unfold detect_entry
        rw [if_neg hne, if_neg (by rw [hquiet]; exact Bool.false_ne_true)]
        by_cases haff : affected_children mm children = []
        · rw [if_pos haff]
          rw [if_neg]
          intro hcond
          rw [haff] at hcond
          exact absurd hcond.1 (by decide)
        · rw [if_neg haff]
      rw [hentry]
      by_cases hcond : SILENT_MIN_CHILDREN ≤ (affected_children mm children).length ∧
          silentRatioMin ≤ child_ratio (affected_children mm children).length children.length
      · rw [if_pos hcond, if_pos hcond]
        simp only [detect_silent_failures] at hrest
        simp [mmLookup, hrest]
      · rw [if_neg hcond, if_neg hcond]
        simp only [detect_silent_failures] at hrest
        exact hrest
    | tail _ hmem2 =>
      have hbp : e.1 ≠ p := by
        intro hh
        apply hnd.1
        exact List.mem_map.2 ⟨(p, children), hmem2, hh.symm⟩
      simp only [detect_silent_failures, List.filterMap_cons]
      have ihres := ih hnd.2 hmem2
      simp only [detect_silent_failures] at ihres
      cases hde : detect_entry mm e with
      | none =>
        simp only [hde]
        exact ihres
      | some v =>
        obtain ⟨pv, ev⟩ := v
        have hvp : ¬ (pv = p) := by
          have h1 : pv = e.1 := (detect_entry_eq_some hde).1
          rw [h1]
          exact hbp
        simp only [hde, mmLookup, if_neg hvp]
        exact ihres

/-- Claim C3 witness: a parent of four children.  With exactly two affected
children (ratio 0.5) evidence is emitted recording
`{affected: [A, B], total: 4, ratio: 1/2}`; with one affected child (ratio
0.25) the parent is not suspected. -/
theorem c3_witness :
    mmLookup (detect_silent_failures
        [(str "CORE", [str "A", str "B", str "C", str "D"])]
        [(str "A", [str "Connection Lost"]), (str "B", [str "Connection Lost"])])
      (str "CORE") =
      some (mkEvidence (str "CORE") [str "A", str "B"] 4) ∧
    mmLookup (detect_silent_failures
        [(str "CORE", [str "A", str "B", str "C", str "D"])]
        [(str "A", [str "Connection Lost"])])
      (str "CORE") = none := by
  constructor
  · have h := c3_silent_threshold
      [(str "CORE", [str "A", str "B", str "C", str "D"])]
      [(str "A", [str "Connection Lost"]), (str "B", [str "Connection Lost"])]
      (str "CORE") [str "A", str "B", str "C", str "D"]
      (by decide) (by decide) (by decide) (by decide)
    rw [if_pos (by decide)] at h
    rw [h]
    decide
  · have h := c3_silent_threshold
      [(str "CORE", [str "A", str "B", str "C", str "D"])]
      [(str "A", [str "Connection Lost"])]
      (str "CORE") [str "A", str "B", str "C", str "D"]
      (by decide) (by decide) (by decide) (by decide)
    rw [if_neg (by decide)] at h
    exact h

/-- With an empty alert batch there are no suspects. -/
theorem detect_entry_empty_msg_map (e : Str × List Str) : detect_entry [] e = none := by
  unfold detect_entry
  by_cases h1 : e.2 = []
  · rw [if_pos h1]
  · rw [if_neg h1]
    rw [if_neg (by simp [mmLookup])]
    have haff : affected_children [] e.2 = [] := by
      unfold affected_children
      apply List.filter_eq_nil_iff.2
      intro c _
      simp [mmLookupD, mmLookup]
    rw [if_pos haff]

theorem alarms_ne_nil_of_mm0 {alarms : List Alarm} {d : Str} {msgs : List Str}
    (h : mmLookup (build_msg_map alarms) d = some msgs) : alarms ≠ [] := by
  intro heq
  subst heq
  exact Option.noConfusion h

theorem alarms_ne_nil_of_suspect {topo : Topo} {alarms : List Alarm} {d : Str}
    {info : Evidence} (h : mmLookup (suspects_of topo alarms) d = some info) :
    alarms ≠ [] := by
  intro heq
  subst heq
  have hmm0 : build_msg_map ([] : List Alarm) = [] := rfl
  have hdet : suspects_of topo [] = [] := by
    unfold suspects_of detect_silent_failures
    rw [hmm0]
    apply List.filterMap_eq_nil_iff.2
    intro e _
    exact detect_entry_empty_msg_map e
  rw [hdet] at h
  exact Option.noConfusion h

/-- Python truthiness of a nonempty parent id. -/
theorem truthy_some_of_ne_nil {p : Str} (h : p ≠ []) : truthy (some p) = some p := by
  cases p with
  | nil => exact absurd rfl h
  | cons c cs => rfl

/-- Claim C4, counterexample: in the nested scenario both G and P are
silent suspects, but P — whose parent G is also a suspect — is demoted to
Tier 3 with confidence 0.4 (the injected synthetic message itself matches
the connection-loss check), not promoted to Tier 1 with confidence 0.8 as
the claim requires for every suspect. -/
theorem c4_counterexample :
    (mmLookup (suspects_of topoNested alNested) (str "P")).isSome = true ∧
    resultFor (analyze topoNested envOff alNested) (str "P") =
      some { id := str "P", label := silent_synthetic, prob := q04,
             type := str "Network/ConnectionLost", tier := 3,
             reason := str "Downstream symptom under suspected silent failure parent (parent=G).",
             analyst_report := none, auto_investigation := none } := by
  constructor
  · decide
  · decide

/-- Claim C4 (amended): every silent-failure suspect whose own parent is
not also a suspect is emitted as Tier 1, confidence 0.8, impact
Network/SilentFailure, with the affected/total counts in the reason and the
evidence report plus the fixed investigation checklist attached.  (A
suspect under a suspect parent is instead demoted to Tier 3/0.4, per the
counterexample.) -/
theorem c4_silent_promotion (topo : Topo) (env : Env) (alarms : List Alarm) (d : Str)
    (info : Evidence)
    (hsusp : mmLookup (suspects_of topo alarms) d = some info)
    (hparent : parent_is_silent_suspect topo (suspects_of topo alarms) d = false) :
    resultFor (analyze topo env alarms) d =
      some { id := d, label := silent_synthetic, prob := q08,
             type := str "Network/SilentFailure", tier := 1,
             reason := str "Silent failure suspected: " ++ natToStr info.evidence_count ++
               str "/" ++ natToStr info.total_children ++ str " children affected.",
             analyst_report := some info.report,
             auto_investigation := some auto_checklist } := by
  have halarms : alarms ≠ [] := alarms_ne_nil_of_suspect hsusp
  have hlook : mmLookup (final_msg_map topo alarms) d = some [silent_synthetic] := by
    rw [final_msg_map_lookup]
    rw [hsusp]
    rfl
  rw [analyze_resultFor topo env alarms d [silent_synthetic] halarms hlook]
  simp only [classify_device]
  rw [if_neg (by
    rw [hparent]
    simp)]
  rw [if_neg (by
    intro hcond
    rw [Bool.and_eq_true] at hcond
    exact absurd hcond.1 (by decide))]
  rw [hsusp]
  have hl : joinSlash [silent_synthetic] = silent_synthetic := by decide
  rw [hl]

/-- Claim C4 witness: CORE uplinks A, B and C; A and B lose connection;
CORE (whose parent is absent, hence not a suspect) is promoted Tier 1 with
confidence 0.8 and the 2/3 evidence attached. -/
theorem c4_witness :
    mmLookup (suspects_of
        [(str "CORE", ⟨none, [], none, none⟩),
         (str "A", ⟨some (str "CORE"), [], none, none⟩),
         (str "B", ⟨some (str "CORE"), [], none, none⟩),
         (str "C", ⟨some (str "CORE"), [], none, none⟩)]
        [⟨str "A", str "Connection Lost"⟩, ⟨str "B", str "Connection Lost"⟩])
      (str "CORE") = some (mkEvidence (str "CORE") [str "A", str "B"] 3) ∧
    resultFor (analyze
        [(str "CORE", ⟨none, [], none, none⟩),
         (str "A", ⟨some (str "CORE"), [], none, none⟩),
         (str "B", ⟨some (str "CORE"), [], none, none⟩),
         (str "C", ⟨some (str "CORE"), [], none, none⟩)]
        envOff
        [⟨str "A", str "Connection Lost"⟩, ⟨str "B", str "Connection Lost"⟩])
      (str "CORE") =
      some { id := str "CORE", label := silent_synthetic, prob := q08,
             type := str "Network/SilentFailure", tier := 1,
             reason := str "Silent failure suspected: " ++
               natToStr (mkEvidence (str "CORE") [str "A", str "B"] 3).evidence_count ++
               str "/" ++
               natToStr (mkEvidence (str "CORE") [str "A", str "B"] 3).total_children ++
               str " children affected.",
             analyst_report := some (mkEvidence (str "CORE") [str "A", str "B"] 3).report,
             auto_investigation := some auto_checklist } := by
  constructor
  · decide
  · exact c4_silent_promotion
      [(str "CORE", ⟨none, [], none, none⟩),
       (str "A", ⟨some (str "CORE"), [], none, none⟩),
       (str "B", ⟨some (str "CORE"), [], none, none⟩),
       (str "C", ⟨some (str "CORE"), [], none, none⟩)]
      envOff
      [⟨str "A", str "Connection Lost"⟩, ⟨str "B", str "Connection Lost"⟩]
      (str "CORE") (mkEvidence (str "CORE") [str "A", str "B"] 3)
      (by decide) (by decide)

/-- Claim C5 (confirmed): a device with an "unreachable" message whose
parent is not a silent suspect but has its own alert in the batch is
classified Tier 3, confidence 0.2, impact Network/Unreachable, with the
parent named in the reason. -/
theorem c5_cascade_suppression (topo : Topo) (env : Env) (alarms : List Alarm)
    (d : Str) (msgs : List Str) (p : Str)
    (hmm0 : mmLookup (build_msg_map alarms) d = some msgs)
    (hunr : msgs.any (fun m => containsStr (pyLower m) (str "unreachable")) = true)
    (hp : get_parent_id topo d = some p) (hpne : p ≠ [])
    (hpns : mmLookup (suspects_of topo alarms) p = none)
    (hpal : (mmLookup (build_msg_map alarms) p).isSome = true) :
    resultFor (analyze topo env alarms) d =
      some { id := d, label := joinSlash msgs, prob := q02,
             type := str "Network/Unreachable", tier := 3,
             reason := str "Downstream unreachable due to upstream alarm (parent=" ++ p ++
               str ").",
             analyst_report := none, auto_investigation := none } := by
  have halarms : alarms ≠ [] := alarms_ne_nil_of_mm0 hmm0
  have hdns : mmLookup (suspects_of topo alarms) d = none :=
    detect_lookup_none_of_alarmed (by rw [hmm0]; rfl)
  have hlook : mmLookup (final_msg_map topo alarms) d = some msgs := by
    rw [final_msg_map_lookup, hdns]
    simpa using hmm0
  rw [analyze_resultFor topo env alarms d msgs halarms hlook]
  simp only [classify_device]
  rw [if_neg (by
    intro hcond
    rw [Bool.and_eq_true] at hcond
    have h1 := hcond.1
    unfold parent_is_silent_suspect at h1
    simp only [hp, truthy_some_of_ne_nil hpne, hpns] at h1
    exact Bool.noConfusion h1)]
  have hpalf : (mmLookup (final_msg_map topo alarms) p).isSome = true := by
    rw [final_msg_map_lookup, hpns]
    simpa using hpal
  rw [if_pos (by
    rw [Bool.and_eq_true]
    refine ⟨hunr, ?_⟩
    unfold parent_is_alarmed
    simp only [hp, truthy_some_of_ne_nil hpne]
    exact hpalf)]
  rw [hp]
  rfl

/-- Claim C5 witness: SW1 (child of CORE) reports "Device Unreachable"
while CORE has a fan alert; SW1 is suppressed to Tier 3/0.2 with CORE named
in the reason. -/
theorem c5_witness :
    mmLookup (build_msg_map
        [⟨str "CORE", str "Fan Fail"⟩, ⟨str "SW1", str "Device Unreachable"⟩])
      (str "SW1") = some [str "Device Unreachable"] ∧
    resultFor (analyze
        [(str "CORE", ⟨none, [], none, none⟩),
         (str "SW1", ⟨some (str "CORE"), [], none, none⟩)]
        envOff
        [⟨str "CORE", str "Fan Fail"⟩, ⟨str "SW1", str "Device Unreachable"⟩])
      (str "SW1") =
      some { id := str "SW1", label := joinSlash [str "Device Unreachable"], prob := q02,
             type := str "Network/Unreachable", tier := 3,
             reason := str "Downstream unreachable due to upstream alarm (parent=" ++
               str "CORE" ++ str ").",
             analyst_report := none, auto_investigation := none } := by
  constructor
  · decide
  · exact c5_cascade_suppression
      [(str "CORE", ⟨none, [], none, none⟩),
       (str "SW1", ⟨some (str "CORE"), [], none, none⟩)]
      envOff
      [⟨str "CORE", str "Fan Fail"⟩, ⟨str "SW1", str "Device Unreachable"⟩]
      (str "SW1") [str "Device Unreachable"] (str "CORE")
      (by decide) (by decide) (by decide) (by decide) (by decide) (by decide)

/-- Claim C6, counterexample: with no matching local rule and no API key,
the orchestrator emits prob 0.5 / tier 3 (type UNKNOWN) for the device —
not the fixed WARNING mapping of tier 2 / confidence 0.7 that the claim
asserts.  The special case on "API key not configured" bypasses the status
mapping. -/
theorem c6_counterexample :
    resultFor (analyze [] envOff [⟨str "SRV1", str "Strange anomaly detected"⟩])
      (str "SRV1") =
      some { id := str "SRV1", label := str "Strange anomaly detected", prob := q05,
             type := str "UNKNOWN", tier := 3,
             reason := str "API key not configured. Manual analysis required.",
             analyst_report := none, auto_investigation := none } := by
  decide

/-- Claim C6 (amended): when no local severity rule matches and the API key
is missing, and no graph rule (silent-suspect demotion, cascade
suppression, suspect promotion) captures the device first, the orchestrator
emits a result tagged UNKNOWN with tier 3 and confidence 0.5 — the
"API key not configured" reason triggers a special mapping instead of the
WARNING tier-2/0.7 mapping. -/
theorem c6_unknown_mapping (topo : Topo) (env : Env) (alarms : List Alarm)
    (d : Str) (msgs : List Str)
    (hmm0 : mmLookup (build_msg_map alarms) d = some msgs)
    (hB1 : (parent_is_silent_suspect topo (suspects_of topo alarms) d &&
      msgs.any is_connection_loss) = false)
    (hB2 : (msgs.any (fun m => containsStr (pyLower m) (str "unreachable")) &&
      parent_is_alarmed topo (final_msg_map topo alarms) d) = false)
    (hstop : stop_condition (sanitizedJoined msgs) = false)
    (hpsf : psu_single_fail (pyLower (sanitizedJoined msgs)) = false)
    (hfan : fan_fail_cond (pyLower (sanitizedJoined msgs)) = false)
    (hmem : mem_symptom (pyLower (sanitizedJoined msgs)) = false)
    (happ : env.apiConfigured = false) :
    resultFor (analyze topo env alarms) d =
      some { id := d, label := joinSlash msgs, prob := q05,
             type := str "UNKNOWN", tier := 3,
             reason := str "API key not configured. Manual analysis required.",
             analyst_report := none, auto_investigation := none } := by
  have halarms : alarms ≠ [] := alarms_ne_nil_of_mm0 hmm0
  have hdns : mmLookup (suspects_of topo alarms) d = none :=
    detect_lookup_none_of_alarmed (by rw [hmm0]; rfl)
  have hlook : mmLookup (final_msg_map topo alarms) d = some msgs := by
    rw [final_msg_map_lookup, hdns]
    simpa using hmm0
  have hmsgs_ne : msgs ≠ [] := by
    have := build_msg_map_values_ne_nil alarms (d, msgs) (mem_of_mmLookup hmm0)
    exact this
  have hanalysis : analyze_redundancy_depth topo env d msgs =
      ⟨.WARNING, str "API key not configured. Manual analysis required.", str "UNKNOWN"⟩ := by
    cases msgs with
    | nil => exact absurd rfl hmsgs_ne
    | cons a as =>
      simp only [analyze_redundancy_depth]
      rw [if_neg (List.cons_ne_nil a as),
        if_neg (by rw [hstop]; exact Bool.false_ne_true),
        if_neg (by rw [hpsf]; exact Bool.false_ne_true),
        if_neg (by rw [hfan]; exact Bool.false_ne_true),
        if_neg (by rw [hmem]; exact Bool.false_ne_true),
        if_pos (by rw [happ]; rfl)]
  rw [analyze_resultFor topo env alarms d msgs halarms hlook]
  simp only [classify_device]
  rw [if_neg (by rw [hB1]; exact Bool.false_ne_true),
    if_neg (by rw [hB2]; exact Bool.false_ne_true), hdns]
  rw [hanalysis]
  rw [if_pos (by constructor <;> decide)]

/-- Claim C6 witness: the counterexample input satisfies every hypothesis
of the amended mapping. -/
theorem c6_witness :
    mmLookup (build_msg_map [⟨str "SRV1", str "Strange anomaly detected"⟩])
      (str "SRV1") = some [str "Strange anomaly detected"] ∧
    resultFor (analyze [] envOff [⟨str "SRV1", str "Strange anomaly detected"⟩])
      (str "SRV1") =
      some { id := str "SRV1", label := joinSlash [str "Strange anomaly detected"],
             prob := q05, type := str "UNKNOWN", tier := 3,
             reason := str "API key not configured. Manual analysis required.",
             analyst_report := none, auto_investigation := none } := by
  constructor
  · decide
  · exact c6_unknown_mapping [] envOff [⟨str "SRV1", str "Strange anomaly detected"⟩]
      (str "SRV1") [str "Strange anomaly detected"]
      (by decide) (by decide) (by decide) (by decide) (by decide) (by decide) (by decide) rfl

/-- Claim C10, counterexample: with uplinks declared only in `parent_ids`
(no scalar `parent_id`), the detector finds no suspects — the children's
"Connection Lost" symptoms do not count toward CORE — and a child reporting
"unreachable" under an alarmed listed parent is not cascade-suppressed (it
takes the UNKNOWN fallback path with prob 0.5, not Network/Unreachable with
prob 0.2). -/
theorem c10_counterexample :
    detect_silent_failures (children_map topoListOnly) (build_msg_map alListOnly) = [] ∧
    resultFor (analyze topoListOnly envOff alListOnly) (str "CORE") = none ∧
    resultFor (analyze topoListOnly2 envOff alListOnly2) (str "SW1") =
      some { id := str "SW1", label := str "Device Unreachable", prob := q05,
             type := str "UNKNOWN", tier := 3,
             reason := str "API key not configured. Manual analysis required.",
             analyst_report := none, auto_investigation := none } := by
  refine ⟨by decide, by decide, by decide⟩

theorem mmLookup_erase_parent_ids (topo : Topo) (d : Str) :
    mmLookup (erase_parent_ids topo) d =
      (mmLookup topo d).map (fun i => { i with parent_ids := [] }) := by
  induction topo with
  | nil => rfl
  | cons e rest ih =>
    obtain ⟨k, i⟩ := e
    by_cases h : k = d
    · subst h
      simp [erase_parent_ids, mmLookup]
    · simp only [erase_parent_ids, List.map_cons] at *
      simp only [mmLookup, if_neg h]
      exact ih

theorem get_parent_id_erase (topo : Topo) (d : Str) :
    get_parent_id (erase_parent_ids topo) d = get_parent_id topo d := by
  unfold get_parent_id
  rw [mmLookup_erase_parent_ids]
  cases mmLookup topo d <;> rfl

theorem get_psu_count_erase (topo : Topo) (d : Str) (dflt : Int) :
    get_psu_count (erase_parent_ids topo) d dflt = get_psu_count topo d dflt := by
  unfold get_psu_count
  rw [mmLookup_erase_parent_ids]
  cases mmLookup topo d <;> rfl

theorem children_map_erase (topo : Topo) :
    children_map (erase_parent_ids topo) = children_map topo := by
  unfold children_map
  have h : ∀ (l : List (Str × DeviceInfo)) (m : List (Str × List Str)),
      (erase_parent_ids l).foldl (fun acc e =>
        match truthy e.2.parent_id with
        | some p => mmAdd acc p e.1
        | none => acc) m =
      l.foldl (fun acc e =>
        match truthy e.2.parent_id with
        | some p => mmAdd acc p e.1
        | none => acc) m := by
    intro l
    induction l with
    | nil => intro m; rfl
    | cons e rest ih =>
      intro m
      simp only [erase_parent_ids, List.map_cons, List.foldl_cons]
      cases htr : truthy e.2.parent_id with
      | none =>
        simp only [htr]
        exact ih m
      | some p =>
        simp only [htr]
        exact ih _
  exact h topo []

theorem suspects_of_erase (topo : Topo) (alarms : List Alarm) :
    suspects_of (erase_parent_ids topo) alarms = suspects_of topo alarms := by
  unfold suspects_of
  rw [children_map_erase]

theorem final_msg_map_erase (topo : Topo) (alarms : List Alarm) :
    final_msg_map (erase_parent_ids topo) alarms = final_msg_map topo alarms := by
  unfold final_msg_map
  rw [suspects_of_erase]

theorem parent_is_silent_suspect_erase (topo : Topo) (s : List (Str × Evidence)) (d : Str) :
    parent_is_silent_suspect (erase_parent_ids topo) s d = parent_is_silent_suspect topo s d := by
  unfold parent_is_silent_suspect
  rw [get_parent_id_erase]

theorem parent_is_alarmed_erase (topo : Topo) (m : List (Str × List Str)) (d : Str) :
    parent_is_alarmed (erase_parent_ids topo) m d = parent_is_alarmed topo m d := by
  unfold parent_is_alarmed
  rw [get_parent_id_erase]

theorem analyze_redundancy_depth_erase (topo : Topo) (env : Env) (d : Str)
    (alerts : List Str) :
    analyze_redundancy_depth (erase_parent_ids topo) env d alerts =
      analyze_redundancy_depth topo env d alerts := by
  unfold analyze_redundancy_depth
  rw [get_psu_count_erase]

theorem classify_device_erase (topo : Topo) (env : Env) (s : List (Str × Evidence))
    (m : List (Str × List Str)) (e : Str × List Str) :
    classify_device (erase_parent_ids topo) env s m e = classify_device topo env s m e := by
  unfold classify_device
  simp only [parent_is_silent_suspect_erase, parent_is_alarmed_erase, get_parent_id_erase,
    analyze_redundancy_depth_erase]

/-- Claim C10 (amended): the engine reads only the scalar `parent_id`
attribute; `parent_ids` lists are ignored wholesale.  The full analysis
output is invariant under deleting every `parent_ids` field, so a device
declared with only `parent_ids` and no `parent_id` has no parent for
cascade suppression and contributes to no parent's silent-failure
detection. -/
theorem c10_parent_ids_ignored (topo : Topo) (env : Env) (alarms : List Alarm) :
    analyze (erase_parent_ids topo) env alarms = analyze topo env alarms := by
  unfold analyze
  by_cases h : alarms = []
  · rw [if_pos h, if_pos h]
  · rw [if_neg h, if_neg h, suspects_of_erase, final_msg_map_erase]
    have hf : ∀ s m, classify_device (erase_parent_ids topo) env s m =
        classify_device topo env s m :=
      fun s m => funext (classify_device_erase topo env s m)
    simp only [hf]

/-!
Scan toolkit: fuel irrelevance and the unfolding equations of `pySub`.
-/

theorem subLoopF_fuel_irrel (t : Str → Option (Nat × Str)) :
    ∀ (s : Str) (f1 f2 : Nat), s.length ≤ f1 → s.length ≤ f2 →
      subLoopF t f1 s = subLoopF t f2 s := by
  intro s
  generalize hn : s.length = n
  induction n using Nat.strong_induction_on generalizing s with
  | _ n ih =>
    intro f1 f2 h1 h2
    subst hn
    cases s with
    | nil => cases f1 <;> cases f2 <;> rfl
    | cons c rest =>
      cases f1 with
      | zero => simp at h1
      | succ f1 =>
        cases f2 with
        | zero => simp at h2
        | succ f2 =>
          simp only [subLoopF]
          cases t (c :: rest) with
          | none =>
            have hr : rest.length < (c :: rest).length := by simp
            show c :: subLoopF t f1 rest = c :: subLoopF t f2 rest
            congr 1
            exact ih rest.length hr rest rfl f1 f2 (by simp at h1; omega)
              (by simp at h2; omega)
          | some p =>
            obtain ⟨len, repl⟩ := p
            have hd : (rest.drop (len - 1)).length < (c :: rest).length := by
              have := List.length_drop (len - 1) rest
              simp [this]
              omega
            show repl ++ subLoopF t f1 (rest.drop (len - 1)) =
              repl ++ subLoopF t f2 (rest.drop (len - 1))
            congr 1
            exact ih (rest.drop (len - 1)).length hd (rest.drop (len - 1)) rfl f1 f2 (by
              have := List.length_drop (len - 1) rest
              simp at h1 ⊢
              omega) (by
              have := List.length_drop (len - 1) rest
              simp at h2 ⊢
              omega)

theorem pySub_nil (t : Str → Option (Nat × Str)) : pySub t [] = [] := rfl

theorem pySub_cons_none (t : Str → Option (Nat × Str)) (c : Char) (rest : Str)
    (h : t (c :: rest) = none) : pySub t (c :: rest) = c :: pySub t rest := by
  unfold pySub
  simp only [List.length_cons, subLoopF, h]

theorem pySub_match (t : Str → Option (Nat × Str)) (s : Str) (len : Nat) (repl : Str)
    (hs : s ≠ []) (h : t s = some (len, repl)) (h1 : 1 ≤ len) :
    pySub t s = repl ++ pySub t (s.drop len) := by
  cases s with
  | nil => exact absurd rfl hs
  | cons c rest =>
    unfold pySub
    simp only [List.length_cons, subLoopF, h]
    have hdrop : rest.drop (len - 1) = (c :: rest).drop len := by
      cases len with
      | zero => omega
      | succ n => simp
    rw [hdrop]
    congr 1
    apply subLoopF_fuel_irrel
    · have := List.length_drop len (c :: rest)
      simp at this ⊢
      omega
    · rfl

/-- A scan over a string all of whose suffixes admit only identity matches is
the identity, provided the matcher always consumes at least one character. -/
theorem pySub_eq_self_of_AllId (t : Str → Option (Nat × Str))
    (hb : ∀ s len r, t s = some (len, r) → 1 ≤ len)
    (w : Str) (hw : AllId t w) : pySub t w = w := by
  generalize hn : w.length = n
  induction n using Nat.strong_induction_on generalizing w with
  | _ n ih =>
    subst hn
    cases w with
    | nil => rfl
    | cons c rest =>
      cases ht : t (c :: rest) with
      | none =>
        rw [pySub_cons_none t c rest ht]
        have : pySub t rest = rest := by
          apply ih rest.length (by simp) rest ?_ rfl
          intro v hv len r h
          exact hw v (hv.trans (List.suffix_cons c rest)) len r h
        rw [this]
      | some p =>
        obtain ⟨len, repl⟩ := p
        have hid : repl = (c :: rest).take len :=
          hw (c :: rest) (List.suffix_refl _) len repl ht
        rw [pySub_match t (c :: rest) len repl (List.cons_ne_nil c rest) ht (hb _ _ _ ht), hid]
        have hdroplen : ((c :: rest).drop len).length < (c :: rest).length := by
          have h1 := hb _ _ _ ht
          have := List.length_drop len (c :: rest)
          simp at this ⊢
          omega
        have : pySub t ((c :: rest).drop len) = (c :: rest).drop len := by
          apply ih ((c :: rest).drop len).length hdroplen _ ?_ rfl
          intro v hv len2 r2 h2
          exact hw v (hv.trans (List.drop_suffix len (c :: rest))) len2 r2 h2
        rw [this, List.take_append_drop]

/-!
Span and literal toolkit for the matcher characterizations.
-/

theorem stripLit_self_append (lit rest : Str) : stripLit lit (lit ++ rest) = some rest := by
  induction lit with
  | nil => rfl
  | cons c cs ih => simp [stripLit, ih]

theorem stripLit_eq_some_iff (lit s s' : Str) :
    stripLit lit s = some s' ↔ s = lit ++ s' := by
  constructor
  · intro h
    induction lit generalizing s with
    | nil =>
      simp only [stripLit] at h
      cases h
      rfl
    | cons c cs ih =>
      cases s with
      | nil => exact Option.noConfusion h
      | cons b bs =>
        simp only [stripLit] at h
        by_cases hcb : c = b
        · subst hcb
          simp only [if_pos rfl] at h
          simp [ih bs h]
        · rw [if_neg hcb] at h
          exact Option.noConfusion h
  · intro h
    subst h
    exact stripLit_self_append lit s'

theorem all_takeWhile (p : Char → Bool) (s : Str) : (s.takeWhile p).all p = true := by
  induction s with
  | nil => rfl
  | cons c cs ih =>
    simp only [List.takeWhile]
    cases hp : p c with
    | false => rfl
    | true => simp [hp, ih]

theorem dropWhile_head_false (p : Char → Bool) (s : Str) (c : Char) (t : Str)
    (h : s.dropWhile p = c :: t) : p c = false := by
  induction s with
  | nil => exact List.noConfusion h
  | cons b bs ih =>
    simp only [List.dropWhile] at h
    cases hp : p b with
    | false =>
      rw [hp] at h
      cases h
      exact hp
    | true =>
      rw [hp] at h
      exact ih h

theorem takeWhile_append_of_all (p : Char → Bool) (a b : Str)
    (ha : a.all p = true) (hb : ∀ c t, b = c :: t → p c = false) :
    (a ++ b).takeWhile p = a := by
  induction a with
  | nil =>
    cases b with
    | nil => rfl
    | cons c t =>
      simp only [List.nil_append, List.takeWhile]
      rw [hb c t rfl]
  | cons x xs ih =>
    simp only [List.all_cons, Bool.and_eq_true] at ha
    simp only [List.cons_append, List.takeWhile, ha.1]
    congr 1
    exact ih ha.2

theorem dropWhile_append_of_all (p : Char → Bool) (a b : Str)
    (ha : a.all p = true) (hb : ∀ c t, b = c :: t → p c = false) :
    (a ++ b).dropWhile p = b := by
  induction a with
  | nil =>
    cases b with
    | nil => rfl
    | cons c t =>
      simp only [List.nil_append, List.dropWhile]
      rw [hb c t rfl]
  | cons x xs ih =>
    simp only [List.all_cons, Bool.and_eq_true] at ha
    simp only [List.cons_append, List.dropWhile, ha.1]
    exact ih ha.2

/-- ASCII digits are not whitespace. -/
theorem pyWS_false_of_isDigit (c : Char) (h : c.isDigit = true) : pyWS c = false := by
  unfold Char.isDigit at h
  unfold pyWS
  simp only [Bool.and_eq_true, decide_eq_true_eq] at h
  simp only [Bool.or_eq_false_iff, decide_eq_false_iff_not]
  have h0 : ('0' : Char).val.toNat = 48 := by decide
  refine ⟨⟨⟨⟨⟨?_, ?_⟩, ?_⟩, ?_⟩, ?_⟩, ?_⟩ <;>
    (rintro rfl; revert h; decide)

/-- Full characterization of an anchored match of pattern 2 for one keyword
alternative. -/
theorem try2kw_eq_some_iff (kw s : Str) (len : Nat) (r : Str) :
    try2kw kw s = some (len, r) ↔
      ∃ ws1 d ws2 tok rest,
        s = kw ++ (ws1 ++ (d :: (ws2 ++ (tok ++ rest)))) ∧
        ws1 ≠ [] ∧ ws1.all pyWS = true ∧
        d.isDigit = true ∧
        ws2 ≠ [] ∧ ws2.all pyWS = true ∧
        tok ≠ [] ∧ tok.all (fun c => !pyWS c) = true ∧
        headWsOrNil rest ∧
        len = kw.length + ws1.length + 1 + ws2.length + tok.length ∧
        r = kw ++ str " " ++ (d :: str " ") ++ stars8 := by
  constructor
  · intro h
    unfold try2kw at h
    cases hstrip : stripLit kw s with
    | none =>
      simp only [hstrip] at h
      exact Option.noConfusion h
    | some s1 =>
      simp only [hstrip] at h
      by_cases h1 : wsTake s1 = []
      · rw [if_pos h1] at h; exact Option.noConfusion h
      · rw [if_neg h1] at h
        cases hd : wsDrop s1 with
        | nil =>
          simp only [hd] at h
          exact Option.noConfusion h
        | cons d s2 =>
          simp only [hd] at h
          by_cases hdig : d.isDigit = true
          · rw [if_pos hdig] at h
            by_cases h2 : wsTake s2 = []
            · rw [if_pos h2] at h; exact Option.noConfusion h
            · rw [if_neg h2] at h
              by_cases h3 : tokTake (wsDrop s2) = []
              · rw [if_pos h3] at h; exact Option.noConfusion h
              · rw [if_neg h3] at h
                simp only [Option.some.injEq, Prod.mk.injEq] at h
                have hs : s = kw ++ s1 := (stripLit_eq_some_iff kw s s1).1 hstrip
                have hs1 : s1 = wsTake s1 ++ wsDrop s1 :=
                  (List.takeWhile_append_dropWhile _ _).symm
                have hs2 : s2 = wsTake s2 ++ wsDrop s2 :=
                  (List.takeWhile_append_dropWhile _ _).symm
                have hs3 : wsDrop s2 = tokTake (wsDrop s2) ++ tokDrop (wsDrop s2) :=
                  (List.takeWhile_append_dropWhile _ _).symm
                have hsfull : s = kw ++ (wsTake s1 ++ (d ::
                    (wsTake s2 ++ (tokTake (wsDrop s2) ++ tokDrop (wsDrop s2))))) := by
                  calc s = kw ++ s1 := hs
                    _ = kw ++ (wsTake s1 ++ wsDrop s1) := by rw [← hs1]
                    _ = kw ++ (wsTake s1 ++ (d :: s2)) := by rw [hd]
                    _ = kw ++ (wsTake s1 ++ (d :: (wsTake s2 ++ wsDrop s2))) := by rw [← hs2]
                    _ = kw ++ (wsTake s1 ++ (d :: (wsTake s2 ++
                        (tokTake (wsDrop s2) ++ tokDrop (wsDrop s2))))) := by
                          conv_lhs => rw [hs3]
                refine ⟨wsTake s1, d, wsTake s2, tokTake (wsDrop s2), tokDrop (wsDrop s2),
                  hsfull, h1, all_takeWhile _ _, hdig, h2, all_takeWhile _ _, h3,
                  all_takeWhile _ _, ?_, ?_, h.2.symm⟩
                · cases hrest : tokDrop (wsDrop s2) with
                  | nil => exact trivial
                  | cons c t =>
                    show pyWS c = true
                    have := dropWhile_head_false (fun c => !pyWS c) (wsDrop s2) c t hrest
                    simpa using this
                · have hlen : s.length = kw.length + (wsTake s1).length + 1 +
                      (wsTake s2).length + (tokTake (wsDrop s2)).length +
                      (tokDrop (wsDrop s2)).length := by
                    rw [hsfull]
                    simp [List.length_append]
                    omega
                  rw [← h.1]
                  omega
          · simp only [hdig, if_false] at h
            exact Option.noConfusion h
  · rintro ⟨ws1, d, ws2, tok, rest, hs, hw1, haw1, hdig, hw2, haw2, htok, hatok, hrest,
      hlen, hr⟩
    have hd_ws : pyWS d = false := pyWS_false_of_isDigit d hdig
    have htok_head : ∀ c t, tok ++ rest = c :: t → pyWS c = false := by
      intro c t hct
      cases tok with
      | nil => exact absurd rfl htok
      | cons x xs =>
        simp only [List.cons_append] at hct
        cases hct
        have := hatok
        simp only [List.all_cons, Bool.and_eq_true, Bool.not_eq_true'] at this
        exact this.1
    have hrest_head : ∀ c t, rest = c :: t → (fun c => !pyWS c) c = false := by
      intro c t hct
      subst hct
      unfold headWsOrNil at hrest
      simp only [hrest, Bool.not_true]
    unfold try2kw
    rw [hs]
    have h1 : wsTake (ws1 ++ (d :: (ws2 ++ (tok ++ rest)))) = ws1 := by
      unfold wsTake
      apply takeWhile_append_of_all pyWS ws1 _ haw1
      intro c t hct
      cases hct
      exact hd_ws
    have h2 : wsDrop (ws1 ++ (d :: (ws2 ++ (tok ++ rest)))) = d :: (ws2 ++ (tok ++ rest)) := by
      unfold wsDrop
      apply dropWhile_append_of_all pyWS ws1 _ haw1
      intro c t hct
      cases hct
      exact hd_ws
    simp only [stripLit_self_append, h1, if_neg hw1, h2]
    rw [if_pos hdig]
    have h3 : wsTake (ws2 ++ (tok ++ rest)) = ws2 := by
      unfold wsTake
      exact takeWhile_append_of_all pyWS ws2 _ haw2 htok_head
    have h4 : wsDrop (ws2 ++ (tok ++ rest)) = tok ++ rest := by
      unfold wsDrop
      exact dropWhile_append_of_all pyWS ws2 _ haw2 htok_head
    simp only [h3, if_neg hw2, h4]
    have h5 : tokTake (tok ++ rest) = tok := by
      unfold tokTake
      exact takeWhile_append_of_all _ tok rest hatok hrest_head
    have h6 : tokDrop (tok ++ rest) = rest := by
      unfold tokDrop
      exact dropWhile_append_of_all _ tok rest hatok hrest_head
    simp only [h5, if_neg htok, h6]
    congr 1
    refine Prod.ext ?_ ?_
    · show (kw ++ (ws1 ++ (d :: (ws2 ++ (tok ++ rest))))).length - rest.length = len
      simp [List.length_append]
      omega
    · exact hr.symm

/-- Full characterization of an anchored match of pattern 4. -/
theorem try4_eq_some_iff (s : Str) (len : Nat) (r : Str) :
    try4 s = some (len, r) ↔
      ∃ ws1 tok rest,
        s = str "snmp-server community" ++ (ws1 ++ (tok ++ rest)) ∧
        ws1 ≠ [] ∧ ws1.all pyWS = true ∧
        tok ≠ [] ∧ tok.all (fun c => !pyWS c) = true ∧
        headWsOrNil rest ∧
        len = (str "snmp-server community").length + ws1.length + tok.length ∧
        r = str "snmp-server community " ++ stars8 := by
  constructor
  · intro h
    unfold try4 at h
    cases hstrip : stripLit (str "snmp-server community") s with
    | none =>
      simp only [hstrip] at h
      exact Option.noConfusion h
    | some s1 =>
      simp only [hstrip] at h
      by_cases h1 : wsTake s1 = []
      · rw [if_pos h1] at h; exact Option.noConfusion h
      · rw [if_neg h1] at h
        by_cases h2 : tokTake (wsDrop s1) = []
        · rw [if_pos h2] at h; exact Option.noConfusion h
        · rw [if_neg h2] at h
          simp only [Option.some.injEq, Prod.mk.injEq] at h
          have hs : s = str "snmp-server community" ++ s1 :=
            (stripLit_eq_some_iff _ s s1).1 hstrip
          have hs1 : s1 = wsTake s1 ++ wsDrop s1 :=
            (List.takeWhile_append_dropWhile _ _).symm
          have hs2 : wsDrop s1 = tokTake (wsDrop s1) ++ tokDrop (wsDrop s1) :=
            (List.takeWhile_append_dropWhile _ _).symm
          have hsfull : s = str "snmp-server community" ++
              (wsTake s1 ++ (tokTake (wsDrop s1) ++ tokDrop (wsDrop s1))) := by
            calc s = str "snmp-server community" ++ s1 := hs
              _ = str "snmp-server community" ++ (wsTake s1 ++ wsDrop s1) := by rw [← hs1]
              _ = str "snmp-server community" ++
                  (wsTake s1 ++ (tokTake (wsDrop s1) ++ tokDrop (wsDrop s1))) := by
                    conv_lhs => rw [hs2]
          refine ⟨wsTake s1, tokTake (wsDrop s1), tokDrop (wsDrop s1), hsfull, h1,
            all_takeWhile _ _, h2, all_takeWhile _ _, ?_, ?_, h.2.symm⟩
          · cases hrest : tokDrop (wsDrop s1) with
            | nil => exact trivial
            | cons c t =>
              show pyWS c = true
              have := dropWhile_head_false (fun c => !pyWS c) (wsDrop s1) c t hrest
              simpa using this
          · have hlen : s.length = (str "snmp-server community").length +
                (wsTake s1).length + (tokTake (wsDrop s1)).length +
                (tokDrop (wsDrop s1)).length := by
              rw [hsfull]
              simp [List.length_append]
              omega
            rw [← h.1]
            omega
  · rintro ⟨ws1, tok, rest, hs, hw1, haw1, htok, hatok, hrest, hlen, hr⟩
    have htok_head : ∀ c t, tok ++ rest = c :: t → pyWS c = false := by
      intro c t hct
      cases tok with
      | nil => exact absurd rfl htok
      | cons x xs =>
        simp only [List.cons_append] at hct
        cases hct
        have := hatok
        simp only [List.all_cons, Bool.and_eq_true, Bool.not_eq_true'] at this
        exact this.1
    have hrest_head : ∀ c t, rest = c :: t → (fun c => !pyWS c) c = false := by
      intro c t hct
      subst hct
      show (!pyWS c) = false
      have : pyWS c = true := hrest
      simp [this]
    unfold try4
    rw [hs]
    have h1 : wsTake (ws1 ++ (tok ++ rest)) = ws1 := by
      unfold wsTake
      exact takeWhile_append_of_all pyWS ws1 _ haw1 htok_head
    have h2 : wsDrop (ws1 ++ (tok ++ rest)) = tok ++ rest := by
      unfold wsDrop
      exact dropWhile_append_of_all pyWS ws1 _ haw1 htok_head
    have h3 : tokTake (tok ++ rest) = tok := by
      unfold tokTake
      exact takeWhile_append_of_all _ tok rest hatok hrest_head
    have h4 : tokDrop (tok ++ rest) = rest := by
      unfold tokDrop
      exact dropWhile_append_of_all _ tok rest hatok hrest_head
    simp only [stripLit_self_append, h1, if_neg hw1, h2, h3, if_neg htok, h4]
    congr 1
    refine Prod.ext ?_ ?_
    · show (str "snmp-server community" ++ (ws1 ++ (tok ++ rest))).length - rest.length = len
      simp [List.length_append]
      omega
    · exact hr.symm

/-- Full characterization of an anchored match of pattern 1. -/
theorem try1_eq_some_iff (s : Str) (len : Nat) (r : Str) :
    try1 s = some (len, r) ↔
      ∃ ws1 content rest,
        s = str "encrypted-password" ++ (ws1 ++ ('"' :: (content ++ ('"' :: rest)))) ∧
        ws1 ≠ [] ∧ ws1.all pyWS = true ∧
        content ≠ [] ∧ content.all (fun c => c ≠ '"') = true ∧
        len = (str "encrypted-password").length + ws1.length + 1 + content.length + 1 ∧
        r = str "encrypted-password" ++ ws1 ++ str "\"********\"" := by
  constructor
  · intro h
    unfold try1 at h
    cases hstrip : stripLit (str "encrypted-password") s with
    | none =>
      simp only [hstrip] at h
      exact Option.noConfusion h
    | some s1 =>
      simp only [hstrip] at h
      by_cases h1 : wsTake s1 = []
      · rw [if_pos h1] at h; exact Option.noConfusion h
      · rw [if_neg h1] at h
        split at h
        · rename_i s2 hd
          by_cases h2 : s2.takeWhile (fun c => c ≠ '"') = []
          · rw [if_pos h2] at h; exact Option.noConfusion h
          · rw [if_neg h2] at h
            split at h
            · rename_i s3 hd2
              simp only [Option.some.injEq, Prod.mk.injEq] at h
              have hs : s = str "encrypted-password" ++ s1 :=
                (stripLit_eq_some_iff _ s s1).1 hstrip
              have hs1 : s1 = wsTake s1 ++ wsDrop s1 :=
                (List.takeWhile_append_dropWhile _ _).symm
              have hs2 : s2 = s2.takeWhile (fun c => c ≠ '"') ++
                  s2.dropWhile (fun c => c ≠ '"') :=
                (List.takeWhile_append_dropWhile _ _).symm
              have hsfull : s = str "encrypted-password" ++ (wsTake s1 ++
                  ('"' :: (s2.takeWhile (fun c => c ≠ '"') ++ ('"' :: s3)))) := by
                calc s = str "encrypted-password" ++ s1 := hs
                  _ = str "encrypted-password" ++ (wsTake s1 ++ wsDrop s1) := by rw [← hs1]
                  _ = str "encrypted-password" ++ (wsTake s1 ++ ('"' :: s2)) := by rw [hd]
                  _ = str "encrypted-password" ++ (wsTake s1 ++
                      ('"' :: (s2.takeWhile (fun c => c ≠ '"') ++
                        s2.dropWhile (fun c => c ≠ '"')))) := by conv_lhs => rw [hs2]
                  _ = str "encrypted-password" ++ (wsTake s1 ++
                      ('"' :: (s2.takeWhile (fun c => c ≠ '"') ++ ('"' :: s3)))) := by
                        rw [hd2]
              refine ⟨wsTake s1, s2.takeWhile (fun c => c ≠ '"'), s3, hsfull, h1,
                all_takeWhile _ _, h2, all_takeWhile _ _, ?_, h.2.symm⟩
              have hlen : s.length = (str "encrypted-password").length +
                  (wsTake s1).length + 1 + (s2.takeWhile (fun c => c ≠ '"')).length +
                  1 + s3.length := by
                rw [hsfull]
                simp [List.length_append]
                omega
              rw [← h.1]
              omega
            · exact Option.noConfusion h
        · exact Option.noConfusion h
  · rintro ⟨ws1, content, rest, hs, hw1, haw1, hcont, hacont, hlen, hr⟩
    have hq_head : ∀ c t, ('"' :: (content ++ ('"' :: rest))) = c :: t → pyWS c = false := by
      intro c t hct
      cases hct
      decide
    have hcont_head : ∀ c t, ('"' :: rest) = c :: t →
        (fun c => decide (c ≠ '"')) c = false := by
      intro c t hct
      cases hct
      simp
    unfold try1
    rw [hs]
    have h1 : wsTake (ws1 ++ ('"' :: (content ++ ('"' :: rest)))) = ws1 := by
      unfold wsTake
      exact takeWhile_append_of_all pyWS ws1 _ haw1 hq_head
    have h2 : wsDrop (ws1 ++ ('"' :: (content ++ ('"' :: rest)))) =
        '"' :: (content ++ ('"' :: rest)) := by
      unfold wsDrop
      exact dropWhile_append_of_all pyWS ws1 _ haw1 hq_head
    have h3 : (content ++ ('"' :: rest)).takeWhile (fun c => c ≠ '"') = content :=
      takeWhile_append_of_all _ content _ hacont hcont_head
    have h4 : (content ++ ('"' :: rest)).dropWhile (fun c => c ≠ '"') = '"' :: rest :=
      dropWhile_append_of_all _ content _ hacont hcont_head
    simp only [stripLit_self_append, h1, if_neg hw1, h2, h3, if_neg hcont, h4]
    congr 1
    refine Prod.ext ?_ ?_
    · show (str "encrypted-password" ++ (ws1 ++ ('"' :: (content ++ ('"' :: rest))))).length -
        rest.length = len
      simp [List.length_append]
      omega
    · exact hr.symm

/-- Full characterization of an anchored match of pattern 3. -/
theorem try3_eq_some_iff (s : Str) (len : Nat) (r : Str) :
    try3 s = some (len, r) ↔
      ∃ ws1 tok1 ws2 ws3 d ws4 tok2 rest,
        s = str "username" ++ (ws1 ++ (tok1 ++ (ws2 ++ (str "secret" ++
            (ws3 ++ (d :: (ws4 ++ (tok2 ++ rest)))))))) ∧
        ws1 ≠ [] ∧ ws1.all pyWS = true ∧
        tok1 ≠ [] ∧ tok1.all (fun c => !pyWS c) = true ∧
        ws2 ≠ [] ∧ ws2.all pyWS = true ∧
        ws3 ≠ [] ∧ ws3.all pyWS = true ∧
        d.isDigit = true ∧
        ws4 ≠ [] ∧ ws4.all pyWS = true ∧
        tok2 ≠ [] ∧ tok2.all (fun c => !pyWS c) = true ∧
        headWsOrNil rest ∧
        len = (str "username").length + ws1.length + tok1.length + ws2.length +
              (str "secret").length + ws3.length + 1 + ws4.length + tok2.length ∧
        r = str "username" ++ ws1 ++ tok1 ++ ws2 ++ str "secret 5 " ++ stars8 := by
  constructor
  · intro h
    unfold try3 at h
    cases hstrip : stripLit (str "username") s with
    | none =>
      simp only [hstrip] at h
      exact Option.noConfusion h
    | some s1 =>
      simp only [hstrip] at h
      by_cases h1 : wsTake s1 = []
      · rw [if_pos h1] at h; exact Option.noConfusion h
      · rw [if_neg h1] at h
        by_cases h2 : tokTake (wsDrop s1) = []
        · rw [if_pos h2] at h; exact Option.noConfusion h
        · rw [if_neg h2] at h
          by_cases h3 : wsTake (tokDrop (wsDrop s1)) = []
          · rw [if_pos h3] at h; exact Option.noConfusion h
          · rw [if_neg h3] at h
            cases hstrip2 : stripLit (str "secret") (wsDrop (tokDrop (wsDrop s1))) with
            | none =>
              simp only [hstrip2] at h
              exact Option.noConfusion h
            | some s5 =>
              simp only [hstrip2] at h
              by_cases h4 : wsTake s5 = []
              · rw [if_pos h4] at h; exact Option.noConfusion h
              · rw [if_neg h4] at h
                cases hd5 : wsDrop s5 with
                | nil =>
                  simp only [hd5] at h
                  exact Option.noConfusion h
                | cons d s6 =>
                  simp only [hd5] at h
                  by_cases hdig : d.isDigit = true
                  · rw [if_pos hdig] at h
                    by_cases h5 : wsTake s6 = []
                    · rw [if_pos h5] at h; exact Option.noConfusion h
                    · rw [if_neg h5] at h
                      by_cases h6 : tokTake (wsDrop s6) = []
                      · rw [if_pos h6] at h; exact Option.noConfusion h
                      · rw [if_neg h6] at h
                        simp only [Option.some.injEq, Prod.mk.injEq] at h
                        have hs : s = str "username" ++ s1 :=
                          (stripLit_eq_some_iff _ s s1).1 hstrip
                        have hs1 : s1 = wsTake s1 ++ wsDrop s1 :=
                          (List.takeWhile_append_dropWhile _ _).symm
                        have hs2 : wsDrop s1 = tokTake (wsDrop s1) ++ tokDrop (wsDrop s1) :=
                          (List.takeWhile_append_dropWhile _ _).symm
                        have hs3 : tokDrop (wsDrop s1) = wsTake (tokDrop (wsDrop s1)) ++
                            wsDrop (tokDrop (wsDrop s1)) :=
                          (List.takeWhile_append_dropWhile _ _).symm
                        have hs4 : wsDrop (tokDrop (wsDrop s1)) = str "secret" ++ s5 :=
                          (stripLit_eq_some_iff _ _ s5).1 hstrip2
                        have hs5 : s5 = wsTake s5 ++ wsDrop s5 :=
                          (List.takeWhile_append_dropWhile _ _).symm
                        have hs6 : s6 = wsTake s6 ++ wsDrop s6 :=
                          (List.takeWhile_append_dropWhile _ _).symm
                        have hs7 : wsDrop s6 = tokTake (wsDrop s6) ++ tokDrop (wsDrop s6) :=
                          (List.takeWhile_append_dropWhile _ _).symm
                        have hsfull : s = str "username" ++ (wsTake s1 ++
                            (tokTake (wsDrop s1) ++ (wsTake (tokDrop (wsDrop s1)) ++
                            (str "secret" ++ (wsTake s5 ++ (d :: (wsTake s6 ++
                            (tokTake (wsDrop s6) ++ tokDrop (wsDrop s6))))))))) := by
                          calc s = str "username" ++ s1 := hs
                            _ = str "username" ++ (wsTake s1 ++ wsDrop s1) := by rw [← hs1]
                            _ = str "username" ++ (wsTake s1 ++ (tokTake (wsDrop s1) ++
                                tokDrop (wsDrop s1))) := by conv_lhs => rw [hs2]
                            _ = str "username" ++ (wsTake s1 ++ (tokTake (wsDrop s1) ++
                                (wsTake (tokDrop (wsDrop s1)) ++
                                 wsDrop (tokDrop (wsDrop s1))))) := by
                                  conv_lhs => rw [hs3]
                            _ = str "username" ++ (wsTake s1 ++ (tokTake (wsDrop s1) ++
                                (wsTake (tokDrop (wsDrop s1)) ++ (str "secret" ++ s5)))) := by
                                  rw [hs4]
                            _ = str "username" ++ (wsTake s1 ++ (tokTake (wsDrop s1) ++
                                (wsTake (tokDrop (wsDrop s1)) ++ (str "secret" ++
                                 (wsTake s5 ++ wsDrop s5))))) := by conv_lhs => rw [hs5]
                            _ = str "username" ++ (wsTake s1 ++ (tokTake (wsDrop s1) ++
                                (wsTake (tokDrop (wsDrop s1)) ++ (str "secret" ++
                                 (wsTake s5 ++ (d :: s6)))))) := by rw [hd5]
                            _ = str "username" ++ (wsTake s1 ++ (tokTake (wsDrop s1) ++
                                (wsTake (tokDrop (wsDrop s1)) ++ (str "secret" ++
                                 (wsTake s5 ++ (d :: (wsTake s6 ++ wsDrop s6))))))) := by
                                  conv_lhs => rw [hs6]
                            _ = str "username" ++ (wsTake s1 ++ (tokTake (wsDrop s1) ++
                                (wsTake (tokDrop (wsDrop s1)) ++ (str "secret" ++
                                 (wsTake s5 ++ (d :: (wsTake s6 ++ (tokTake (wsDrop s6) ++
                                  tokDrop (wsDrop s6))))))))) := by conv_lhs => rw [hs7]
                        refine ⟨wsTake s1, tokTake (wsDrop s1), wsTake (tokDrop (wsDrop s1)),
                          wsTake s5, d, wsTake s6, tokTake (wsDrop s6), tokDrop (wsDrop s6),
                          hsfull, h1, all_takeWhile _ _, h2, all_takeWhile _ _, h3,
                          all_takeWhile _ _, h4, all_takeWhile _ _, hdig, h5,
                          all_takeWhile _ _, h6, all_takeWhile _ _, ?_, ?_, h.2.symm⟩
                        · cases hrest : tokDrop (wsDrop s6) with
                          | nil => exact trivial
                          | cons c t =>
                            show pyWS c = true
                            have := dropWhile_head_false (fun c => !pyWS c) (wsDrop s6) c t hrest
                            simpa using this
                        · have hlen : s.length = (str "username").length +
                              (wsTake s1).length + (tokTake (wsDrop s1)).length +
                              (wsTake (tokDrop (wsDrop s1))).length + (str "secret").length +
                              (wsTake s5).length + 1 + (wsTake s6).length +
                              (tokTake (wsDrop s6)).length + (tokDrop (wsDrop s6)).length := by
                            rw [hsfull]
                            simp [List.length_append]
                            omega
                          rw [← h.1]
                          omega
                  · simp only [hdig, if_false] at h
                    exact Option.noConfusion h
  · rintro ⟨ws1, tok1, ws2, ws3, d, ws4, tok2, rest, hs, hw1, haw1, htok1, hatok1, hw2, haw2,
      hw3, haw3, hdig, hw4, haw4, htok2, hatok2, hrest, hlen, hr⟩
    have hd_ws : pyWS d = false := pyWS_false_of_isDigit d hdig
    have htok1_head : ∀ c t, tok1 ++ (ws2 ++ (str "secret" ++ (ws3 ++ (d :: (ws4 ++
        (tok2 ++ rest)))))) = c :: t → pyWS c = false := by
      intro c t hct
      cases tok1 with
      | nil => exact absurd rfl htok1
      | cons x xs =>
        simp only [List.cons_append] at hct
        cases hct
        have := hatok1
        simp only [List.all_cons, Bool.and_eq_true, Bool.not_eq_true'] at this
        exact this.1
    have hws2_head : ∀ c t, ws2 ++ (str "secret" ++ (ws3 ++ (d :: (ws4 ++ (tok2 ++ rest)))))
        = c :: t → (fun c => !pyWS c) c = false := by
      intro c t hct
      cases ws2 with
      | nil => exact absurd rfl hw2
      | cons x xs =>
        simp only [List.cons_append] at hct
        cases hct
        have := haw2
        simp only [List.all_cons, Bool.and_eq_true] at this
        simp only [this.1, Bool.not_true]
    have hsec_head : ∀ c t, str "secret" ++ (ws3 ++ (d :: (ws4 ++ (tok2 ++ rest))))
        = c :: t → pyWS c = false := by
      intro c t hct
      cases hct
      decide
    have hd_head : ∀ c t, (d :: (ws4 ++ (tok2 ++ rest))) = c :: t → pyWS c = false := by
      intro c t hct
      cases hct
      exact hd_ws
    have htok2_head : ∀ c t, tok2 ++ rest = c :: t → pyWS c = false := by
      intro c t hct
      cases tok2 with
      | nil => exact absurd rfl htok2
      | cons x xs =>
        simp only [List.cons_append] at hct
        cases hct
        have := hatok2
        simp only [List.all_cons, Bool.and_eq_true, Bool.not_eq_true'] at this
        exact this.1
    have hrest_head : ∀ c t, rest = c :: t → (fun c => !pyWS c) c = false := by
      intro c t hct
      subst hct
      unfold headWsOrNil at hrest
      simp only [hrest, Bool.not_true]
    unfold try3
    rw [hs]
    have hA1 : wsTake (ws1 ++ (tok1 ++ (ws2 ++ (str "secret" ++ (ws3 ++ (d :: (ws4 ++
        (tok2 ++ rest)))))))) = ws1 := by
      unfold wsTake
      exact takeWhile_append_of_all pyWS ws1 _ haw1 htok1_head
    have hA2 : wsDrop (ws1 ++ (tok1 ++ (ws2 ++ (str "secret" ++ (ws3 ++ (d :: (ws4 ++
        (tok2 ++ rest)))))))) = tok1 ++ (ws2 ++ (str "secret" ++ (ws3 ++ (d :: (ws4 ++
        (tok2 ++ rest)))))) := by
      unfold wsDrop
      exact dropWhile_append_of_all pyWS ws1 _ haw1 htok1_head
    have hA3 : tokTake (tok1 ++ (ws2 ++ (str "secret" ++ (ws3 ++ (d :: (ws4 ++
        (tok2 ++ rest))))))) = tok1 := by
      unfold tokTake
      exact takeWhile_append_of_all _ tok1 _ hatok1 hws2_head
    have hA4 : tokDrop (tok1 ++ (ws2 ++ (str "secret" ++ (ws3 ++ (d :: (ws4 ++
        (tok2 ++ rest))))))) = ws2 ++ (str "secret" ++ (ws3 ++ (d :: (ws4 ++
        (tok2 ++ rest))))) := by
      unfold tokDrop
      exact dropWhile_append_of_all _ tok1 _ hatok1 hws2_head
    have hA5 : wsTake (ws2 ++ (str "secret" ++ (ws3 ++ (d :: (ws4 ++ (tok2 ++ rest))))))
        = ws2 := by
      unfold wsTake
      exact takeWhile_append_of_all pyWS ws2 _ haw2 hsec_head
    have hA6 : wsDrop (ws2 ++ (str "secret" ++ (ws3 ++ (d :: (ws4 ++ (tok2 ++ rest))))))
        = str "secret" ++ (ws3 ++ (d :: (ws4 ++ (tok2 ++ rest)))) := by
      unfold wsDrop
      exact dropWhile_append_of_all pyWS ws2 _ haw2 hsec_head
    have hA7 : wsTake (ws3 ++ (d :: (ws4 ++ (tok2 ++ rest)))) = ws3 := by
      unfold wsTake
      exact takeWhile_append_of_all pyWS ws3 _ haw3 hd_head
    have hA8 : wsDrop (ws3 ++ (d :: (ws4 ++ (tok2 ++ rest)))) = d :: (ws4 ++
        (tok2 ++ rest)) := by
      unfold wsDrop
      exact dropWhile_append_of_all pyWS ws3 _ haw3 hd_head
    have hA9 : wsTake (ws4 ++ (tok2 ++ rest)) = ws4 := by
      unfold wsTake
      exact takeWhile_append_of_all pyWS ws4 _ haw4 htok2_head
    have hA10 : wsDrop (ws4 ++ (tok2 ++ rest)) = tok2 ++ rest := by
      unfold wsDrop
      exact dropWhile_append_of_all pyWS ws4 _ haw4 htok2_head
    have hA11 : tokTake (tok2 ++ rest) = tok2 := by
      unfold tokTake
      exact takeWhile_append_of_all _ tok2 rest hatok2 hrest_head
    have hA12 : tokDrop (tok2 ++ rest) = rest := by
      unfold tokDrop
      exact dropWhile_append_of_all _ tok2 rest hatok2 hrest_head
    simp only [stripLit_self_append, hA1, if_neg hw1, hA2, hA3, if_neg htok1, hA4, hA5,
      if_neg hw2, hA6, hA7, if_neg hw3, hA8]
    rw [if_pos hdig]
    simp only [hA9, if_neg hw4, hA10, hA11, if_neg htok2, hA12]
    congr 1
    refine Prod.ext ?_ ?_
    · show (str "username" ++ (ws1 ++ (tok1 ++ (ws2 ++ (str "secret" ++ (ws3 ++ (d ::
        (ws4 ++ (tok2 ++ rest))))))))).length - rest.length = len
      simp [List.length_append]
      omega
    · exact hr.symm

/-!
Single-character stepping of the stage machine is sound and complete for
`runStages`.
-/

theorem stepRun_sound : ∀ (ss : List Stage) (c : Char) (v : Str),
    runStages ss (c :: v) = true →
    ∃ ss', stepState c ss = some ss' ∧ runStages ss' v = true := by
  intro ss
  induction ss with
  | nil => exact fun c v _ => ⟨[], rfl, rfl⟩
  | cons st ss ih =>
    intro c v h
    cases st with
    | lit l =>
      cases l with
      | nil =>
        have h' : runStages ss (c :: v) = true := h
        obtain ⟨ss', h1, h2⟩ := ih c v h'
        exact ⟨ss', h1, h2⟩
      | cons a l' =>
        by_cases hac : a = c
        · subst hac
          cases l' with
          | nil =>
            have h' : runStages ss v = true := by
              have hred : runStages (Stage.lit [a] :: ss) (a :: v) = runStages ss v := by
                show (match stripLit [a] (a :: v) with
                      | none => false
                      | some v1 => runStages ss v1) = runStages ss v
                simp [stripLit]
              rwa [hred] at h
            exact ⟨ss, by simp [stepState], h'⟩
          | cons b l'' =>
            have h' : runStages (Stage.lit (b :: l'') :: ss) v = true := by
              have hred : runStages (Stage.lit (a :: b :: l'') :: ss) (a :: v) =
                  runStages (Stage.lit (b :: l'') :: ss) v := by
                show (match stripLit (a :: b :: l'') (a :: v) with
                      | none => false
                      | some v1 => runStages ss v1) = _
                simp only [stripLit, if_pos rfl]
                rfl
              rwa [hred] at h
            exact ⟨Stage.lit (b :: l'') :: ss, by simp [stepState], h'⟩
        · exfalso
          have hred : runStages (Stage.lit (a :: l') :: ss) (c :: v) = false := by
            show (match stripLit (a :: l') (c :: v) with
                  | none => false
                  | some v1 => runStages ss v1) = false
            simp [stripLit, hac]
          rw [hred] at h
          exact Bool.noConfusion h
    | ws =>
      have h' : (decide (wsTake (c :: v) ≠ []) && runStages ss (wsDrop (c :: v))) = true := h
      simp only [Bool.and_eq_true, decide_eq_true_eq] at h'
      by_cases hc : pyWS c
      · have hd : wsDrop (c :: v) = wsDrop v := by
          simp [wsDrop, List.dropWhile, hc]
        refine ⟨Stage.wsOpt :: ss, by simp [stepState, hc], ?_⟩
        show runStages ss (wsDrop v) = true
        rw [← hd]; exact h'.2
      · exfalso
        apply h'.1
        simp [wsTake, List.takeWhile, hc]
    | wsOpt =>
      by_cases hc : pyWS c
      · have hd : wsDrop (c :: v) = wsDrop v := by
          simp [wsDrop, List.dropWhile, hc]
        refine ⟨Stage.wsOpt :: ss, by simp [stepState, hc], ?_⟩
        show runStages ss (wsDrop v) = true
        have h' : runStages ss (wsDrop (c :: v)) = true := h
        rwa [hd] at h'
      · have hd : wsDrop (c :: v) = c :: v := by
          simp [wsDrop, List.dropWhile, hc]
        have h' : runStages ss (c :: v) = true := by
          have h0 : runStages ss (wsDrop (c :: v)) = true := h
          rwa [hd] at h0
        obtain ⟨ss', h1, h2⟩ := ih c v h'
        exact ⟨ss', by simp [stepState, hc]; exact h1, h2⟩
    | digit =>
      have h' : (c.isDigit && runStages ss v) = true := h
      simp only [Bool.and_eq_true] at h'
      exact ⟨ss, by simp [stepState, h'.1], h'.2⟩
    | tok =>
      have h' : (decide (tokTake (c :: v) ≠ []) && runStages ss (tokDrop (c :: v))) = true := h
      simp only [Bool.and_eq_true, decide_eq_true_eq] at h'
      by_cases hc : pyWS c
      · exfalso
        apply h'.1
        simp [tokTake, List.takeWhile, hc]
      · have hd : tokDrop (c :: v) = tokDrop v := by
          simp [tokDrop, List.dropWhile, hc]
        refine ⟨Stage.tokOpt :: ss, by simp [stepState, hc], ?_⟩
        show runStages ss (tokDrop v) = true
        rw [← hd]; exact h'.2
    | tokOpt =>
      by_cases hc : pyWS c
      · have hd : tokDrop (c :: v) = c :: v := by
          simp [tokDrop, List.dropWhile, hc]
        have h' : runStages ss (c :: v) = true := by
          have h0 : runStages ss (tokDrop (c :: v)) = true := h
          rwa [hd] at h0
        obtain ⟨ss', h1, h2⟩ := ih c v h'
        exact ⟨ss', by simp [stepState, hc]; exact h1, h2⟩
      · have hd : tokDrop (c :: v) = tokDrop v := by
          simp [tokDrop, List.dropWhile, hc]
        refine ⟨Stage.tokOpt :: ss, by simp [stepState, hc], ?_⟩
        show runStages ss (tokDrop v) = true
        have h' : runStages ss (tokDrop (c :: v)) = true := h
        rwa [hd] at h'
    | quote =>
      have h' : (decide (c = '"') && runStages ss v) = true := h
      simp only [Bool.and_eq_true, decide_eq_true_eq] at h'
      exact ⟨ss, by simp [stepState, h'.1], h'.2⟩
    | content =>
      have h' : (decide ((c :: v).takeWhile (fun c => c ≠ '"') ≠ []) &&
          runStages ss ((c :: v).dropWhile (fun c => c ≠ '"'))) = true := h
      simp only [Bool.and_eq_true, decide_eq_true_eq] at h'
      by_cases hc : c = '"'
      · exfalso
        apply h'.1
        simp [List.takeWhile, hc]
      · have hd : (c :: v).dropWhile (fun c => c ≠ '"') =
            v.dropWhile (fun c => c ≠ '"') := by
          simp [List.dropWhile, hc]
        refine ⟨Stage.contentOpt :: ss, by simp [stepState, hc], ?_⟩
        show runStages ss (v.dropWhile (fun c => c ≠ '"')) = true
        rw [← hd]; exact h'.2
    | contentOpt =>
      by_cases hc : c = '"'
      · have hd : (c :: v).dropWhile (fun c => c ≠ '"') = c :: v := by
          simp [List.dropWhile, hc]
        have h' : runStages ss (c :: v) = true := by
          have h0 : runStages ss ((c :: v).dropWhile (fun c => c ≠ '"')) = true := h
          rwa [hd] at h0
        obtain ⟨ss', h1, h2⟩ := ih c v h'
        refine ⟨ss', ?_, h2⟩
        have he : stepState c (Stage.contentOpt :: ss) = stepState c ss := by
          simp [stepState, hc]
        rw [he]; exact h1
      · have hd : (c :: v).dropWhile (fun c => c ≠ '"') =
            v.dropWhile (fun c => c ≠ '"') := by
          simp [List.dropWhile, hc]
        refine ⟨Stage.contentOpt :: ss, by simp [stepState, hc], ?_⟩
        show runStages ss (v.dropWhile (fun c => c ≠ '"')) = true
        have h' : runStages ss ((c :: v).dropWhile (fun c => c ≠ '"')) = true := h
        rwa [hd] at h'

theorem stepRun_complete : ∀ (ss : List Stage) (c : Char) (u : Str) (ss' : List Stage),
    stepState c ss = some ss' → runStages ss' u = true → runStages ss (c :: u) = true := by
  intro ss
  induction ss with
  | nil =>
    intro c u ss' h1 h2
    cases h1
    rfl
  | cons st ss ih =>
    intro c u ss' h1 h2
    cases st with
    | lit l =>
      cases l with
      | nil => exact ih c u ss' h1 h2
      | cons a l' =>
        by_cases hac : a = c
        · subst hac
          cases l' with
          | nil =>
            simp only [stepState, if_pos rfl] at h1
            cases h1
            show (match stripLit [a] (a :: u) with
                  | none => false
                  | some v1 => runStages ss v1) = true
            simpa [stripLit] using h2
          | cons b l'' =>
            simp only [stepState, if_pos rfl] at h1
            cases h1
            show (match stripLit (a :: b :: l'') (a :: u) with
                  | none => false
                  | some v1 => runStages ss v1) = true
            simp only [stripLit, if_pos rfl]
            exact h2
        · simp only [stepState, if_neg hac] at h1
          exact Option.noConfusion h1
    | ws =>
      by_cases hc : pyWS c
      · simp only [stepState, if_pos hc] at h1
        cases h1
        show (decide (wsTake (c :: u) ≠ []) && runStages ss (wsDrop (c :: u))) = true
        have ht : wsTake (c :: u) = c :: wsTake u := by
          simp [wsTake, List.takeWhile, hc]
        have hd : wsDrop (c :: u) = wsDrop u := by
          simp [wsDrop, List.dropWhile, hc]
        rw [ht, hd]
        simp only [Bool.and_eq_true, decide_eq_true_eq]
        exact ⟨List.cons_ne_nil _ _, h2⟩
      · simp only [stepState, if_neg hc] at h1
        exact Option.noConfusion h1
    | wsOpt =>
      by_cases hc : pyWS c
      · simp only [stepState, if_pos hc] at h1
        cases h1
        show runStages ss (wsDrop (c :: u)) = true
        have hd : wsDrop (c :: u) = wsDrop u := by
          simp [wsDrop, List.dropWhile, hc]
        rw [hd]
        exact h2
      · have he : stepState c (Stage.wsOpt :: ss) = stepState c ss := by
          simp [stepState, hc]
        rw [he] at h1
        have h3 : runStages ss (c :: u) = true := ih c u ss' h1 h2
        show runStages ss (wsDrop (c :: u)) = true
        have hd : wsDrop (c :: u) = c :: u := by
          simp [wsDrop, List.dropWhile, hc]
        rw [hd]
        exact h3
    | digit =>
      by_cases hc : c.isDigit
      · simp only [stepState, if_pos hc] at h1
        cases h1
        show (c.isDigit && runStages ss u) = true
        simp [hc, h2]
      · simp only [stepState, if_neg hc] at h1
        exact Option.noConfusion h1
    | tok =>
      by_cases hc : pyWS c
      · simp only [stepState, if_pos hc] at h1
        exact Option.noConfusion h1
      · simp only [stepState, if_neg hc] at h1
        cases h1
        show (decide (tokTake (c :: u) ≠ []) && runStages ss (tokDrop (c :: u))) = true
        have ht : tokTake (c :: u) = c :: tokTake u := by
          simp [tokTake, List.takeWhile, hc]
        have hd : tokDrop (c :: u) = tokDrop u := by
          simp [tokDrop, List.dropWhile, hc]
        rw [ht, hd]
        simp only [Bool.and_eq_true, decide_eq_true_eq]
        exact ⟨List.cons_ne_nil _ _, h2⟩
    | tokOpt =>
      by_cases hc : pyWS c
      · have he : stepState c (Stage.tokOpt :: ss) = stepState c ss := by
          simp [stepState, hc]
        rw [he] at h1
        have h3 : runStages ss (c :: u) = true := ih c u ss' h1 h2
        show runStages ss (tokDrop (c :: u)) = true
        have hd : tokDrop (c :: u) = c :: u := by
          simp [tokDrop, List.dropWhile, hc]
        rw [hd]
        exact h3
      · simp only [stepState, if_neg hc] at h1
        cases h1
        show runStages ss (tokDrop (c :: u)) = true
        have hd : tokDrop (c :: u) = tokDrop u := by
          simp [tokDrop, List.dropWhile, hc]
        rw [hd]
        exact h2
    | quote =>
      by_cases hc : c = '"'
      · simp only [stepState, if_pos hc] at h1
        cases h1
        show (decide (c = '"') && runStages ss u) = true
        simp [hc, h2]
      · simp only [stepState, if_neg hc] at h1
        exact Option.noConfusion h1
    | content =>
      by_cases hc : c = '"'
      · simp only [stepState, if_pos hc] at h1
        exact Option.noConfusion h1
      · simp only [stepState, if_neg hc] at h1
        cases h1
        show (decide ((c :: u).takeWhile (fun c => c ≠ '"') ≠ []) &&
            runStages ss ((c :: u).dropWhile (fun c => c ≠ '"'))) = true
        have ht : (c :: u).takeWhile (fun c => c ≠ '"') =
            c :: u.takeWhile (fun c => c ≠ '"') := by
          simp [List.takeWhile, hc]
        have hd : (c :: u).dropWhile (fun c => c ≠ '"') =
            u.dropWhile (fun c => c ≠ '"') := by
          simp [List.dropWhile, hc]
        rw [ht, hd]
        simp only [Bool.and_eq_true, decide_eq_true_eq]
        exact ⟨List.cons_ne_nil _ _, h2⟩
    | contentOpt =>
      by_cases hc : c = '"'
      · have he : stepState c (Stage.contentOpt :: ss) = stepState c ss := by
          simp [stepState, hc]
        rw [he] at h1
        have h3 : runStages ss (c :: u) = true := ih c u ss' h1 h2
        show runStages ss ((c :: u).dropWhile (fun c => c ≠ '"')) = true
        have hd : (c :: u).dropWhile (fun c => c ≠ '"') = c :: u := by
          simp [List.dropWhile, hc]
        rw [hd]
        exact h3
      · simp only [stepState, if_neg hc] at h1
        cases h1
        show runStages ss ((c :: u).dropWhile (fun c => c ≠ '"')) = true
        have hd : (c :: u).dropWhile (fun c => c ≠ '"') =
            u.dropWhile (fun c => c ≠ '"') := by
          simp [List.dropWhile, hc]
        rw [hd]
        exact h2

theorem stepStr_cons (c : Char) (u : Str) (ss : List Stage) :
    stepStr (c :: u) ss =
      match stepState c ss with
      | none => none
      | some s1 => stepStr u s1 := rfl

theorem stepStr_append (a b : Str) (ss : List Stage) :
    stepStr (a ++ b) ss =
      match stepStr a ss with
      | none => none
      | some s1 => stepStr b s1 := by
  induction a generalizing ss with
  | nil => rfl
  | cons c a' ih =>
    rw [List.cons_append, stepStr_cons, stepStr_cons]
    cases h : stepState c ss with
    | none => rfl
    | some s1 => exact ih s1

theorem runStages_append_iff (a : Str) (ss : List Stage) (X : Str) :
    runStages ss (a ++ X) = true ↔
      ∃ ssA, stepStr a ss = some ssA ∧ runStages ssA X = true := by
  induction a generalizing ss with
  | nil =>
    constructor
    · intro h
      exact ⟨ss, rfl, h⟩
    · rintro ⟨ssA, h1, h2⟩
      cases h1
      exact h2
  | cons c a' ih =>
    constructor
    · intro h
      obtain ⟨ss1, h1, h2⟩ := stepRun_sound ss c (a' ++ X) h
      obtain ⟨ssA, h3, h4⟩ := (ih ss1).1 h2
      refine ⟨ssA, ?_, h4⟩
      rw [stepStr_cons, h1]
      exact h3
    · rintro ⟨ssA, h1, h2⟩
      rw [stepStr_cons] at h1
      cases hs : stepState c ss with
      | none =>
        rw [hs] at h1
        exact Option.noConfusion h1
      | some ss1 =>
        rw [hs] at h1
        have h3 := (ih ss1).2 ⟨ssA, h1, h2⟩
        exact stepRun_complete ss c (a' ++ X) ss1 hs h3

theorem litPre_iff (a b : Str) : litPre a b = true ↔ ∃ t, b = a ++ t := by
  induction a generalizing b with
  | nil => simp [litPre]
  | cons x a' ih =>
    cases b with
    | nil =>
      simp [litPre]
    | cons y b' =>
      simp only [litPre, Bool.and_eq_true, decide_eq_true_eq]
      constructor
      · rintro ⟨h1, h⟩
        subst h1
        obtain ⟨t, ht⟩ := (ih b').1 h
        exact ⟨t, by rw [ht]; rfl⟩
      · rintro ⟨t, ht⟩
        injection ht with h1 h2
        exact ⟨h1.symm, (ih b').2 ⟨t, h2⟩⟩

theorem stepStr_lit_mismatch (a : Str) : ∀ (k : Str) (R : List Stage) (X : Str),
    litPre k a = false → litPre a k = false →
    stepStr (a ++ X) (Stage.lit k :: R) = none := by
  induction a with
  | nil =>
    intro k R X h1 h2
    rw [show litPre [] k = true from rfl] at h2
    exact Bool.noConfusion h2
  | cons x a' ih =>
    intro k R X h1 h2
    cases k with
    | nil =>
      rw [show litPre [] (x :: a') = true from rfl] at h1
      exact Bool.noConfusion h1
    | cons y k' =>
      simp only [litPre, Bool.and_eq_false_iff, decide_eq_false_iff_not] at h1 h2
      by_cases hxy : y = x
      · have h1' : litPre k' a' = false := by
          rcases h1 with h | h
          · exact absurd hxy h
          · exact h
        have h2' : litPre a' k' = false := by
          rcases h2 with h | h
          · exact absurd hxy.symm h
          · exact h
        subst hxy
        rw [List.cons_append, stepStr_cons]
        cases k' with
        | nil =>
          rw [show litPre [] a' = true from rfl] at h1'
          exact Bool.noConfusion h1'
        | cons z k'' =>
          have hs : stepState y (Stage.lit (y :: z :: k'') :: R) =
              some (Stage.lit (z :: k'') :: R) := by
            simp [stepState]
          rw [hs]
          exact ih (z :: k'') R X h1' h2'
      · rw [List.cons_append, stepStr_cons]
        have hs : stepState x (Stage.lit (y :: k') :: R) = none := by
          simp [stepState, hxy]
        rw [hs]

theorem stepStr_lit_consume : ∀ (a : Char) (k : Str) (R : List Stage),
    stepStr (a :: k) (Stage.lit (a :: k) :: R) = some R := by
  intro a k
  induction k generalizing a with
  | nil =>
    intro R
    simp [stepStr, stepState]
  | cons b k' ih =>
    intro R
    rw [stepStr_cons]
    have hs : stepState a (Stage.lit (a :: b :: k') :: R) =
        some (Stage.lit (b :: k') :: R) := by
      simp [stepState]
    rw [hs]
    exact ih b R

theorem stepStr_tokOpt_all (u : Str) (hu : u.all (fun c => !pyWS c) = true)
    (R : List Stage) : stepStr u (Stage.tokOpt :: R) = some (Stage.tokOpt :: R) := by
  induction u with
  | nil => rfl
  | cons c u' ih =>
    simp only [List.all_cons, Bool.and_eq_true, Bool.not_eq_true'] at hu
    rw [stepStr_cons]
    have hs : stepState c (Stage.tokOpt :: R) = some (Stage.tokOpt :: R) := by
      simp [stepState, hu.1]
    rw [hs]
    exact ih hu.2

theorem stepStr_wsOpt_all (u : Str) (hu : u.all pyWS = true)
    (R : List Stage) : stepStr u (Stage.wsOpt :: R) = some (Stage.wsOpt :: R) := by
  induction u with
  | nil => rfl
  | cons c u' ih =>
    simp only [List.all_cons, Bool.and_eq_true] at hu
    rw [stepStr_cons]
    have hs : stepState c (Stage.wsOpt :: R) = some (Stage.wsOpt :: R) := by
      simp [stepState, hu.1]
    rw [hs]
    exact ih hu.2

theorem stepStr_contentOpt_all (u : Str) (hu : u.all (fun c => c ≠ '"') = true)
    (R : List Stage) : stepStr u (Stage.contentOpt :: R) = some (Stage.contentOpt :: R) := by
  induction u with
  | nil => rfl
  | cons c u' ih =>
    simp only [List.all_cons, Bool.and_eq_true, decide_eq_true_eq] at hu
    rw [stepStr_cons]
    have hs : stepState c (Stage.contentOpt :: R) = some (Stage.contentOpt :: R) := by
      simp [stepState, hu.1]
    rw [hs]
    exact ih hu.2

theorem runStages_lit (l : Str) (ss : List Stage) (v : Str) :
    runStages (Stage.lit l :: ss) v =
      match stripLit l v with
      | none => false
      | some v1 => runStages ss v1 := rfl

theorem runStages_ws (ss : List Stage) (v : Str) :
    runStages (Stage.ws :: ss) v =
      (decide (wsTake v ≠ []) && runStages ss (wsDrop v)) := rfl

theorem runStages_wsOpt (ss : List Stage) (v : Str) :
    runStages (Stage.wsOpt :: ss) v = runStages ss (wsDrop v) := rfl

theorem runStages_digit (ss : List Stage) (v : Str) :
    runStages (Stage.digit :: ss) v =
      match v with
      | c :: v1 => c.isDigit && runStages ss v1
      | [] => false := rfl

theorem runStages_tok (ss : List Stage) (v : Str) :
    runStages (Stage.tok :: ss) v =
      (decide (tokTake v ≠ []) && runStages ss (tokDrop v)) := rfl

theorem runStages_tokOpt (ss : List Stage) (v : Str) :
    runStages (Stage.tokOpt :: ss) v = runStages ss (tokDrop v) := rfl

theorem runStages_quote (ss : List Stage) (v : Str) :
    runStages (Stage.quote :: ss) v =
      match v with
      | c :: v1 => decide (c = '"') && runStages ss v1
      | [] => false := rfl

theorem runStages_content (ss : List Stage) (v : Str) :
    runStages (Stage.content :: ss) v =
      (decide (v.takeWhile (fun c => c ≠ '"') ≠ []) &&
        runStages ss (v.dropWhile (fun c => c ≠ '"'))) := rfl

theorem runStages_contentOpt (ss : List Stage) (v : Str) :
    runStages (Stage.contentOpt :: ss) v =
      runStages ss (v.dropWhile (fun c => c ≠ '"')) := rfl

theorem runStages_nil_s (v : Str) : runStages [] v = true := rfl

/-- The pattern-2 pipeline accepts exactly when the pattern-2 matcher fires. -/
theorem runS2_isSome (kw v : Str) :
    runStages (S2s kw) v = (try2kw kw v).isSome := by
  unfold S2s try2kw
  rw [runStages_lit]
  cases hstrip : stripLit kw v with
  | none => rfl
  | some s1 =>
    simp only []
    rw [runStages_ws]
    by_cases h1 : wsTake s1 = []
    · simp [h1]
    · rw [if_neg h1]
      simp only [ne_eq, h1, not_false_iff, decide_True, Bool.true_and]
      rw [runStages_digit]
      cases hd : wsDrop s1 with
      | nil => rfl
      | cons d s2 =>
        simp only []
        by_cases hdig : d.isDigit
        · rw [if_pos hdig]
          simp only [hdig, Bool.true_and]
          rw [runStages_ws]
          by_cases h2 : wsTake s2 = []
          · simp [h2]
          · rw [if_neg h2]
            simp only [ne_eq, h2, not_false_iff, decide_True, Bool.true_and]
            rw [runStages_tok]
            by_cases h3 : tokTake (wsDrop s2) = []
            · simp [h3]
            · rw [if_neg h3]
              simp [h3, runStages_nil_s]
        · simp [hdig]

/-- The pattern-4 pipeline accepts exactly when the pattern-4 matcher fires. -/
theorem runS4_isSome (v : Str) :
    runStages S4s v = (try4 v).isSome := by
  unfold S4s try4
  rw [runStages_lit]
  simp only [SNkw]
  cases hstrip : stripLit (str "snmp-server community") v with
  | none => rfl
  | some s1 =>
    simp only []
    rw [runStages_ws]
    by_cases h1 : wsTake s1 = []
    · simp [h1]
    · rw [if_neg h1]
      simp only [ne_eq, h1, not_false_iff, decide_True, Bool.true_and]
      rw [runStages_tok]
      by_cases h2 : tokTake (wsDrop s1) = []
      · simp [h2]
      · rw [if_neg h2]
        simp [h2, runStages_nil_s]

/-- The pattern-1 pipeline accepts exactly when the pattern-1 matcher fires. -/
theorem runS1_isSome (v : Str) :
    runStages S1s v = (try1 v).isSome := by
  unfold S1s try1
  rw [runStages_lit]
  simp only [EPkw]
  cases hstrip : stripLit (str "encrypted-password") v with
  | none => rfl
  | some s1 =>
    simp only []
    rw [runStages_ws]
    by_cases h1 : wsTake s1 = []
    · simp [h1]
    · rw [if_neg h1]
      simp only [ne_eq, h1, not_false_iff, decide_True, Bool.true_and]
      rw [runStages_quote]
      cases hd : wsDrop s1 with
      | nil => rfl
      | cons c s2 =>
        by_cases hc : c = '"'
        · subst hc
          simp only [decide_True, Bool.true_and]
          rw [runStages_content]
          by_cases h2 : s2.takeWhile (fun c => c ≠ '"') = []
          · rw [if_pos h2, h2]
            simp
          · rw [if_neg h2]
            simp only [ne_eq, h2, not_false_iff, decide_True, Bool.true_and]
            rw [runStages_quote]
            cases hdw : s2.dropWhile (fun c => c ≠ '"') with
            | nil => rfl
            | cons c2 s3 =>
              simp only []
              have hc2 : c2 = '"' := by
                have := dropWhile_head_false (fun c => decide (c ≠ '"')) s2 c2 s3 hdw
                simpa using this
              subst hc2
              simp [runStages_nil_s]
        · simp only [hc, decide_False, Bool.false_and]
          split
          · rename_i s3 heq
            injection heq with heq1 heq2
            exact absurd heq1 hc
          · rfl

/-- The pattern-3 pipeline accepts exactly when the pattern-3 matcher fires. -/
theorem runS3_isSome (v : Str) :
    runStages S3s v = (try3 v).isSome := by
  unfold S3s try3
  rw [runStages_lit]
  simp only [UNkw]
  cases hstrip : stripLit (str "username") v with
  | none => rfl
  | some s1 =>
    simp only []
    rw [runStages_ws]
    by_cases h1 : wsTake s1 = []
    · simp [h1]
    · rw [if_neg h1]
      simp only [ne_eq, h1, not_false_iff, decide_True, Bool.true_and]
      rw [runStages_tok]
      by_cases h2 : tokTake (wsDrop s1) = []
      · simp [h2]
      · rw [if_neg h2]
        simp only [ne_eq, h2, not_false_iff, decide_True, Bool.true_and]
        rw [runStages_ws]
        by_cases h3 : wsTake (tokDrop (wsDrop s1)) = []
        · simp [h3]
        · rw [if_neg h3]
          simp only [ne_eq, h3, not_false_iff, decide_True, Bool.true_and]
          rw [runStages_lit]
          simp only [SECkw]
          cases hstrip2 : stripLit (str "secret") (wsDrop (tokDrop (wsDrop s1))) with
          | none => rfl
          | some s5 =>
            simp only []
            rw [runStages_ws]
            by_cases h4 : wsTake s5 = []
            · simp [h4]
            · rw [if_neg h4]
              simp only [ne_eq, h4, not_false_iff, decide_True, Bool.true_and]
              rw [runStages_digit]
              cases hd5 : wsDrop s5 with
              | nil => rfl
              | cons d s6 =>
                simp only []
                by_cases hdig : d.isDigit
                · rw [if_pos hdig]
                  simp only [hdig, Bool.true_and]
                  rw [runStages_ws]
                  by_cases h5 : wsTake s6 = []
                  · simp [h5]
                  · rw [if_neg h5]
                    simp only [ne_eq, h5, not_false_iff, decide_True, Bool.true_and]
                    rw [runStages_tok]
                    by_cases h6 : tokTake (wsDrop s6) = []
                    · simp [h6]
                    · rw [if_neg h6]
                      simp [h6, runStages_nil_s]
                · simp [hdig]

theorem try2_isSome_of_kw (kw z : Str) (hkw : kw = PWkw ∨ kw = SECkw)
    (h : runStages (S2s kw) z = true) : (try2 z).isSome = true := by
  rw [runS2_isSome] at h
  unfold try2
  rcases hkw with rfl | rfl
  · cases hpw : try2kw PWkw z with
    | none =>
      rw [hpw] at h
      exact Bool.noConfusion h
    | some r =>
      simp only [PWkw] at hpw
      rw [hpw]
      rfl
  · cases hpw : try2kw (str "password") z with
    | none =>
      simp only []
      simpa [SECkw] using h
    | some r =>
      rfl

theorem tail2s_closed (ss ss' : List Stage) (c : Char)
    (hss : ss ∈ tail2s) (hstep : stepState c ss = some ss') : ss' ∈ tail2s := by
  simp only [tail2s, List.mem_cons, List.not_mem_nil, or_false] at hss
  rcases hss with rfl | rfl | rfl | rfl | rfl | rfl
  · by_cases hc : pyWS c
    · simp only [stepState, if_pos hc] at hstep
      cases hstep
      simp [tail2s]
    · simp only [stepState, if_neg hc] at hstep
      exact Option.noConfusion hstep
  · by_cases hc : pyWS c
    · simp only [stepState, if_pos hc] at hstep
      cases hstep
      simp [tail2s]
    · simp only [stepState, if_neg hc] at hstep
      by_cases hd : c.isDigit
      · simp only [stepState, if_pos hd] at hstep
        cases hstep
        simp [tail2s]
      · simp only [stepState, if_neg hd] at hstep
        exact Option.noConfusion hstep
  · by_cases hc : pyWS c
    · simp only [stepState, if_pos hc] at hstep
      cases hstep
      simp [tail2s]
    · simp only [stepState, if_neg hc] at hstep
      exact Option.noConfusion hstep
  · by_cases hc : pyWS c
    · simp only [stepState, if_pos hc] at hstep
      cases hstep
      simp [tail2s]
    · simp only [stepState, if_neg hc] at hstep
      cases hstep
      simp [tail2s]
  · by_cases hc : pyWS c
    · simp only [stepState, if_pos hc] at hstep
      cases hstep
      simp [tail2s]
    · simp only [stepState, if_neg hc] at hstep
      cases hstep
      simp [tail2s]
  · simp only [stepState] at hstep
    cases hstep
    simp [tail2s]

theorem fam2_closed (kw : Str) (ss ss' : List Stage) (c : Char)
    (hss : Fam2 kw ss) (hstep : stepState c ss = some ss') : Fam2 kw ss' := by
  rcases hss with ⟨k, hk, hksuf, rfl⟩ | hmem
  · cases k with
    | nil => exact absurd rfl hk
    | cons a k' =>
      by_cases hac : a = c
      · simp only [S2s, stepState, if_pos hac] at hstep
        cases k' with
        | nil =>
          cases hstep
          right
          simp [tail2s]
        | cons b k'' =>
          cases hstep
          left
          exact ⟨b :: k'', List.cons_ne_nil _ _,
            (List.suffix_cons a (b :: k'')).trans hksuf, rfl⟩
      · simp only [S2s, stepState, if_neg hac] at hstep
        exact Option.noConfusion hstep
  · exact Or.inr (tail2s_closed ss ss' c hmem hstep)

theorem fam1_closed (ss ss' : List Stage) (c : Char)
    (hss : Fam1 ss) (hstep : stepState c ss = some ss') : Fam1 ss' := by
  rcases hss with ⟨k, hk, hksuf, rfl⟩ | hmem
  · cases k with
    | nil => exact absurd rfl hk
    | cons a k' =>
      by_cases hac : a = c
      · simp only [stepState, if_pos hac] at hstep
        cases k' with
        | nil =>
          cases hstep
          right
          simp [tail1s]
        | cons b k'' =>
          cases hstep
          left
          exact ⟨b :: k'', List.cons_ne_nil _ _,
            (List.suffix_cons a (b :: k'')).trans hksuf, rfl⟩
      · simp only [stepState, if_neg hac] at hstep
        exact Option.noConfusion hstep
  · simp only [tail1s, List.mem_cons, List.not_mem_nil, or_false] at hmem
    rcases hmem with rfl | rfl | rfl | rfl | rfl
    · by_cases hc : pyWS c
      · simp only [stepState, if_pos hc] at hstep
        cases hstep
        right
        simp [tail1s]
      · simp only [stepState, if_neg hc] at hstep
        exact Option.noConfusion hstep
    · by_cases hc : pyWS c
      · simp only [stepState, if_pos hc] at hstep
        cases hstep
        right
        simp [tail1s]
      · simp only [stepState, if_neg hc] at hstep
        by_cases hq : c = '"'
        · simp only [stepState, if_pos hq] at hstep
          cases hstep
          right
          simp [tail1s]
        · simp only [stepState, if_neg hq] at hstep
          exact Option.noConfusion hstep
    · by_cases hq : c = '"'
      · simp only [stepState, if_pos hq] at hstep
        exact Option.noConfusion hstep
      · simp only [stepState, if_neg hq] at hstep
        cases hstep
        right
        simp [tail1s]
    · by_cases hq : c = '"'
      · simp only [stepState, if_pos hq] at hstep
        cases hstep
        right
        simp [tail1s]
      · simp only [stepState, if_neg hq] at hstep
        cases hstep
        right
        simp [tail1s]
    · simp only [stepState] at hstep
      cases hstep
      right
      simp [tail1s]

theorem fam4_closed (ss ss' : List Stage) (c : Char)
    (hss : Fam4 ss) (hstep : stepState c ss = some ss') : Fam4 ss' := by
  rcases hss with ⟨k, hk, hksuf, rfl⟩ | hmem
  · cases k with
    | nil => exact absurd rfl hk
    | cons a k' =>
      by_cases hac : a = c
      · simp only [stepState, if_pos hac] at hstep
        cases k' with
        | nil =>
          cases hstep
          right
          simp [tail4s]
        | cons b k'' =>
          cases hstep
          left
          exact ⟨b :: k'', List.cons_ne_nil _ _,
            (List.suffix_cons a (b :: k'')).trans hksuf, rfl⟩
      · simp only [stepState, if_neg hac] at hstep
        exact Option.noConfusion hstep
  · simp only [tail4s, List.mem_cons, List.not_mem_nil, or_false] at hmem
    rcases hmem with rfl | rfl | rfl | rfl
    · by_cases hc : pyWS c
      · simp only [stepState, if_pos hc] at hstep
        cases hstep
        right
        simp [tail4s]
      · simp only [stepState, if_neg hc] at hstep
        exact Option.noConfusion hstep
    · by_cases hc : pyWS c
      · simp only [stepState, if_pos hc] at hstep
        cases hstep
        right
        simp [tail4s]
      · simp only [stepState, if_neg hc] at hstep
        cases hstep
        right
        simp [tail4s]
    · by_cases hc : pyWS c
      · simp only [stepState, if_pos hc] at hstep
        cases hstep
        right
        simp [tail4s]
      · simp only [stepState, if_neg hc] at hstep
        cases hstep
        right
        simp [tail4s]
    · simp only [stepState] at hstep
      cases hstep
      right
      simp [tail4s]

theorem fam3_closed (ss ss' : List Stage) (c : Char)
    (hss : Fam3 ss) (hstep : stepState c ss = some ss') : Fam3 ss' := by
  rcases hss with ⟨k, hk, hksuf, rfl⟩ | hmem | ⟨k, hk, hksuf, rfl⟩ | hmem
  · cases k with
    | nil => exact absurd rfl hk
    | cons a k' =>
      by_cases hac : a = c
      · simp only [stepState, if_pos hac] at hstep
        cases k' with
        | nil =>
          cases hstep
          right
          left
          simp [tail3s]
        | cons b k'' =>
          cases hstep
          left
          exact ⟨b :: k'', List.cons_ne_nil _ _,
            (List.suffix_cons a (b :: k'')).trans hksuf, rfl⟩
      · simp only [stepState, if_neg hac] at hstep
        exact Option.noConfusion hstep
  · simp only [tail3s, List.mem_cons, List.not_mem_nil, or_false] at hmem
    rcases hmem with rfl | rfl | rfl | rfl
    · by_cases hc : pyWS c
      · simp only [stepState, if_pos hc] at hstep
        cases hstep
        right
        left
        simp [tail3s]
      · simp only [stepState, if_neg hc] at hstep
        exact Option.noConfusion hstep
    · by_cases hc : pyWS c
      · simp only [stepState, if_pos hc] at hstep
        cases hstep
        right
        left
        simp [tail3s]
      · simp only [stepState, if_neg hc] at hstep
        cases hstep
        right
        left
        simp [tail3s]
    · by_cases hc : pyWS c
      · simp only [stepState, if_pos hc] at hstep
        cases hstep
        right
        left
        simp [tail3s]
      · simp only [stepState, if_neg hc] at hstep
        cases hstep
        right
        left
        simp [tail3s]
    · by_cases hc : pyWS c
      · simp only [stepState, if_pos hc] at hstep
        cases hstep
        right
        left
        simp [tail3s]
      · have hsec : SECkw = 's' :: str "ecret" := rfl
        rw [hsec] at hstep
        simp only [stepState, if_neg hc] at hstep
        by_cases hs : 's' = c
        · simp only [if_pos hs] at hstep
          cases hstep
          right
          right
          left
          refine ⟨str "ecret", by simp [str], ?_, rfl⟩
          rw [hsec]
          exact List.suffix_cons 's' (str "ecret")
        · simp only [if_neg hs] at hstep
          exact Option.noConfusion hstep
  · cases k with
    | nil => exact absurd rfl hk
    | cons a k' =>
      by_cases hac : a = c
      · simp only [S2s, stepState, if_pos hac] at hstep
        cases k' with
        | nil =>
          cases hstep
          right
          right
          right
          simp [tail2s]
        | cons b k'' =>
          cases hstep
          right
          right
          left
          exact ⟨b :: k'', List.cons_ne_nil _ _,
            (List.suffix_cons a (b :: k'')).trans hksuf, rfl⟩
      · simp only [S2s, stepState, if_neg hac] at hstep
        exact Option.noConfusion hstep
  · exact Or.inr (Or.inr (Or.inr (tail2s_closed ss ss' c hmem hstep)))

theorem try2_shape (z : Str) (len : Nat) (r : Str) (h : try2 z = some (len, r)) :
    ∃ K w1 d w2 tk, (K = PWkw ∨ K = SECkw) ∧
      z = K ++ (w1 ++ (d :: (w2 ++ (tk ++ z.drop len)))) ∧
      w1 ≠ [] ∧ w1.all pyWS = true ∧ d.isDigit = true ∧
      w2 ≠ [] ∧ w2.all pyWS = true ∧
      tk ≠ [] ∧ tk.all (fun c => !pyWS c) = true ∧
      headWsOrNil (z.drop len) ∧
      len = K.length + w1.length + 1 + w2.length + tk.length ∧
      r = K ++ ' ' :: d :: ' ' :: stars8 := by
  have h2 : try2kw (str "password") z = some (len, r) ∨
      try2kw (str "secret") z = some (len, r) := by
    unfold try2 at h
    cases hpw : try2kw (str "password") z with
    | none =>
      rw [hpw] at h
      exact Or.inr h
    | some r0 =>
      rw [hpw] at h
      simp only [Option.some.injEq] at h
      exact Or.inl (congrArg some h)
  have hmain : ∀ kw : Str, try2kw kw z = some (len, r) →
      ∃ w1 d w2 tk,
        z = kw ++ (w1 ++ (d :: (w2 ++ (tk ++ z.drop len)))) ∧
        w1 ≠ [] ∧ w1.all pyWS = true ∧ d.isDigit = true ∧
        w2 ≠ [] ∧ w2.all pyWS = true ∧
        tk ≠ [] ∧ tk.all (fun c => !pyWS c) = true ∧
        headWsOrNil (z.drop len) ∧
        len = kw.length + w1.length + 1 + w2.length + tk.length ∧
        r = kw ++ ' ' :: d :: ' ' :: stars8 := by
    intro kw hkw
    obtain ⟨w1, d, w2, tk, rest, hz, hw1, haw1, hd, hw2, haw2, htk, hatk, hrest, hlen, hr⟩ :=
      (try2kw_eq_some_iff kw z len r).1 hkw
    have hzflat : z = (kw ++ w1 ++ d :: w2 ++ tk) ++ rest := by
      rw [hz]
      simp [List.append_assoc]
    have hplen : (kw ++ w1 ++ d :: w2 ++ tk).length = len := by
      simp [List.length_append]
      omega
    have hdrop : z.drop len = rest := by
      rw [hzflat, ← hplen]
      exact List.drop_left _ _
    refine ⟨w1, d, w2, tk, ?_, hw1, haw1, hd, hw2, haw2, htk, hatk, ?_, hlen, ?_⟩
    · rw [hdrop]
      exact hz
    · rw [hdrop]
      exact hrest
    · rw [hr]
      simp [stars8, str]
  rcases h2 with hkw | hkw
  · obtain ⟨w1, d, w2, tk, hrest⟩ := hmain _ hkw
    exact ⟨str "password", w1, d, w2, tk, Or.inl rfl, hrest⟩
  · obtain ⟨w1, d, w2, tk, hrest⟩ := hmain _ hkw
    exact ⟨str "secret", w1, d, w2, tk, Or.inr rfl, hrest⟩

theorem try4_shape (z : Str) (len : Nat) (r : Str) (h : try4 z = some (len, r)) :
    ∃ w1 tk,
      z = SNkw ++ (w1 ++ (tk ++ z.drop len)) ∧
      w1 ≠ [] ∧ w1.all pyWS = true ∧
      tk ≠ [] ∧ tk.all (fun c => !pyWS c) = true ∧
      headWsOrNil (z.drop len) ∧
      len = SNkw.length + w1.length + tk.length ∧
      r = SNkw ++ ' ' :: stars8 := by
  obtain ⟨w1, tk, rest, hz, hw1, haw1, htk, hatk, hrest, hlen, hr⟩ :=
    (try4_eq_some_iff z len r).1 h
  have hzflat : z = (str "snmp-server community" ++ w1 ++ tk) ++ rest := by
    rw [hz]
    simp [List.append_assoc]
  have hplen : (str "snmp-server community" ++ w1 ++ tk).length = len := by
    simp [List.length_append]
    omega
  have hdrop : z.drop len = rest := by
    rw [hzflat, ← hplen]
    exact List.drop_left _ _
  refine ⟨w1, tk, ?_, hw1, haw1, htk, hatk, ?_, ?_, ?_⟩
  · rw [hdrop]
    exact hz
  · rw [hdrop]
    exact hrest
  · simpa [SNkw] using hlen
  · rw [hr]
    simp [SNkw, stars8, str]

theorem try1_shape (z : Str) (len : Nat) (r : Str) (h : try1 z = some (len, r)) :
    ∃ w1 ct,
      z = EPkw ++ (w1 ++ ('"' :: (ct ++ ('"' :: z.drop len)))) ∧
      w1 ≠ [] ∧ w1.all pyWS = true ∧
      ct ≠ [] ∧ ct.all (fun c => c ≠ '"') = true ∧
      len = EPkw.length + w1.length + 1 + ct.length + 1 ∧
      r = EPkw ++ (w1 ++ ('"' :: (stars8 ++ ['"']))) := by
  obtain ⟨w1, ct, rest, hz, hw1, haw1, hct, hact, hlen, hr⟩ :=
    (try1_eq_some_iff z len r).1 h
  have hzflat : z = (str "encrypted-password" ++ w1 ++ '"' :: ct ++ ['"']) ++ rest := by
    rw [hz]
    simp [List.append_assoc]
  have hplen : (str "encrypted-password" ++ w1 ++ '"' :: ct ++ ['"']).length = len := by
    simp [List.length_append]
    omega
  have hdrop : z.drop len = rest := by
    rw [hzflat, ← hplen]
    exact List.drop_left _ _
  refine ⟨w1, ct, ?_, hw1, haw1, hct, hact, ?_, ?_⟩
  · rw [hdrop]
    exact hz
  · simpa [EPkw] using hlen
  · rw [hr]
    have : str "\"********\"" = '"' :: (stars8 ++ ['"']) := by decide
    rw [this]
    simp [EPkw, List.append_assoc]

theorem try3_shape (z : Str) (len : Nat) (r : Str) (h : try3 z = some (len, r)) :
    ∃ w1 t1 w2 w3 d w4 tk,
      z = UNkw ++ (w1 ++ (t1 ++ (w2 ++ (SECkw ++ (w3 ++ (d :: (w4 ++
          (tk ++ z.drop len)))))))) ∧
      w1 ≠ [] ∧ w1.all pyWS = true ∧
      t1 ≠ [] ∧ t1.all (fun c => !pyWS c) = true ∧
      w2 ≠ [] ∧ w2.all pyWS = true ∧
      w3 ≠ [] ∧ w3.all pyWS = true ∧ d.isDigit = true ∧
      w4 ≠ [] ∧ w4.all pyWS = true ∧
      tk ≠ [] ∧ tk.all (fun c => !pyWS c) = true ∧
      headWsOrNil (z.drop len) ∧
      len = UNkw.length + w1.length + t1.length + w2.length + SECkw.length +
        w3.length + 1 + w4.length + tk.length ∧
      r = UNkw ++ w1 ++ t1 ++ w2 ++ (SECkw ++ ' ' :: '5' :: ' ' :: stars8) := by
  obtain ⟨w1, t1, w2, w3, d, w4, tk, rest, hz, hw1, haw1, ht1, hat1, hw2, haw2,
    hw3, haw3, hd, hw4, haw4, htk, hatk, hrest, hlen, hr⟩ :=
    (try3_eq_some_iff z len r).1 h
  have hzflat : z = (str "username" ++ w1 ++ t1 ++ w2 ++ str "secret" ++ w3 ++
      d :: w4 ++ tk) ++ rest := by
    rw [hz]
    simp [List.append_assoc]
  have hplen : (str "username" ++ w1 ++ t1 ++ w2 ++ str "secret" ++ w3 ++
      d :: w4 ++ tk).length = len := by
    simp [List.length_append]
    omega
  have hdrop : z.drop len = rest := by
    rw [hzflat, ← hplen]
    exact List.drop_left _ _
  refine ⟨w1, t1, w2, w3, d, w4, tk, ?_, hw1, haw1, ht1, hat1, hw2, haw2, hw3, haw3,
    hd, hw4, haw4, htk, hatk, ?_, ?_, ?_⟩
  · rw [hdrop]
    exact hz
  · rw [hdrop]
    exact hrest
  · simpa [UNkw, SECkw] using hlen
  · rw [hr]
    have : str "secret 5 " ++ stars8 = SECkw ++ ' ' :: '5' :: ' ' :: stars8 := by decide
    rw [← this]
    simp [UNkw, List.append_assoc]

theorem stripLit_append_none (k a : Str) (X : Str)
    (h1 : litPre k a = false) (h2 : litPre a k = false) :
    stripLit k (a ++ X) = none := by
  induction a generalizing k with
  | nil =>
    rw [show litPre [] k = true from rfl] at h2
    exact Bool.noConfusion h2
  | cons x a' ih =>
    cases k with
    | nil =>
      rw [show litPre [] (x :: a') = true from rfl] at h1
      exact Bool.noConfusion h1
    | cons y k' =>
      simp only [litPre, Bool.and_eq_false_iff, decide_eq_false_iff_not] at h1 h2
      by_cases hxy : y = x
      · have h1' : litPre k' a' = false := by
          rcases h1 with h | h
          · exact absurd hxy h
          · exact h
        have h2' : litPre a' k' = false := by
          rcases h2 with h | h
          · exact absurd hxy.symm h
          · exact h
        subst hxy
        show (if y = y then stripLit k' (a' ++ X) else none) = none
        rw [if_pos rfl]
        exact ih k' h1' h2'
      · show (if y = x then stripLit k' (a' ++ X) else none) = none
        rw [if_neg hxy]

theorem takeWhile_append_all (p : Char → Bool) (a b : Str) (ha : a.all p = true) :
    (a ++ b).takeWhile p = a ++ b.takeWhile p := by
  induction a with
  | nil => rfl
  | cons x a' ih =>
    simp only [List.all_cons, Bool.and_eq_true] at ha
    simp [List.takeWhile, ha.1, ih ha.2]

theorem dropWhile_append_all (p : Char → Bool) (a b : Str) (ha : a.all p = true) :
    (a ++ b).dropWhile p = b.dropWhile p := by
  induction a with
  | nil => rfl
  | cons x a' ih =>
    simp only [List.all_cons, Bool.and_eq_true] at ha
    simp [List.dropWhile, ha.1, ih ha.2]

theorem dropWhile_cons_false (p : Char → Bool) (x : Char) (a : Str) (hx : p x = false) :
    (x :: a).dropWhile p = x :: a := by
  simp [List.dropWhile, hx]

theorem takeWhile_cons_false (p : Char → Bool) (x : Char) (a : Str) (hx : p x = false) :
    (x :: a).takeWhile p = [] := by
  simp [List.takeWhile, hx]

theorem decide_eq_quote_false (d : Char) (hd : d.isDigit = true) :
    decide (d = '"') = false := by
  have hne : d ≠ '"' := by
    intro he
    subst he
    exact Bool.noConfusion hd
  simp [hne]

/-!
Finite border facts: no nonempty strict suffix of a pattern keyword is a
prefix of any keyword that can start a replacement, and vice versa.
-/

theorem factEP_EP : ∀ k ∈ EPkw.tails, k = [] ∨ k = EPkw ∨
    (litPre k EPkw = false ∧ litPre EPkw k = false) := by decide

theorem factEP_PW : ∀ k ∈ EPkw.tails, k = [] ∨ k = PWkw ∨
    (litPre k PWkw = false ∧ litPre PWkw k = false) := by decide

theorem factEP_SEC : ∀ k ∈ EPkw.tails, k = [] ∨
    (litPre k SECkw = false ∧ litPre SECkw k = false) := by decide

theorem factEP_UN : ∀ k ∈ EPkw.tails, k = [] ∨
    (litPre k UNkw = false ∧ litPre UNkw k = false) := by decide

theorem factEP_SN : ∀ k ∈ EPkw.tails, k = [] ∨
    (litPre k SNkw = false ∧ litPre SNkw k = false) := by decide

theorem factPW_PW : ∀ k ∈ PWkw.tails, k = [] ∨ k = PWkw ∨
    (litPre k PWkw = false ∧ litPre PWkw k = false) := by decide

theorem factPW_SEC : ∀ k ∈ PWkw.tails, k = [] ∨
    (litPre k SECkw = false ∧ litPre SECkw k = false) := by decide

theorem factSEC_PW : ∀ k ∈ SECkw.tails, k = [] ∨
    (litPre k PWkw = false ∧ litPre PWkw k = false) := by decide

theorem factSEC_SEC : ∀ k ∈ SECkw.tails, k = [] ∨ k = SECkw ∨
    (litPre k SECkw = false ∧ litPre SECkw k = false) := by decide

theorem factPW_UN : ∀ k ∈ PWkw.tails, k = [] ∨
    (litPre k UNkw = false ∧ litPre UNkw k = false) := by decide

theorem factSEC_UN : ∀ k ∈ SECkw.tails, k = [] ∨
    (litPre k UNkw = false ∧ litPre UNkw k = false) := by decide

theorem factPW_SN : ∀ k ∈ PWkw.tails, k = [] ∨
    (litPre k SNkw = false ∧ litPre SNkw k = false) := by decide

theorem factSEC_SN : ∀ k ∈ SECkw.tails, k = [] ∨
    (litPre k SNkw = false ∧ litPre SNkw k = false) := by decide

theorem factUN_UN : ∀ k ∈ UNkw.tails, k = [] ∨ k = UNkw ∨
    (litPre k UNkw = false ∧ litPre UNkw k = false) := by decide

theorem factUN_SN : ∀ k ∈ UNkw.tails, k = [] ∨
    (litPre k SNkw = false ∧ litPre SNkw k = false) := by decide

theorem factSN_SN : ∀ k ∈ SNkw.tails, k = [] ∨ k = SNkw ∨
    (litPre k SNkw = false ∧ litPre SNkw k = false) := by decide

theorem factSEC_SNb : litPre SECkw (str "community") = false ∧
    litPre (str "community") SECkw = false := by decide

theorem factSEC_SNkw : litPre SECkw SNkw = false ∧ litPre SNkw SECkw = false := by decide

theorem pyws_head_false (tk Z : Str) (htk : tk ≠ [])
    (hatk : tk.all (fun c => !pyWS c) = true) :
    ∀ c t, tk ++ Z = c :: t → pyWS c = false := by
  intro c t h
  cases tk with
  | nil => exact absurd rfl htk
  | cons x tk' =>
    rw [List.cons_append] at h
    injection h with h1 h2
    subst h1
    simp only [List.all_cons, Bool.and_eq_true, Bool.not_eq_true'] at hatk
    exact hatk.1

theorem tok_head_false (w Z : Str) (hw : w ≠ []) (haw : w.all pyWS = true) :
    ∀ c t, w ++ Z = c :: t → (fun c => !pyWS c) c = false := by
  intro c t h
  cases w with
  | nil => exact absurd rfl hw
  | cons x w' =>
    rw [List.cons_append] at h
    injection h with h1 h2
    subst h1
    simp only [List.all_cons, Bool.and_eq_true] at haw
    simp [haw.1]

theorem runStages_ws_head_false (R : List Stage) (c : Char) (rest : Str)
    (hc : pyWS c = false) : runStages (Stage.ws :: R) (c :: rest) = false := by
  rw [runStages_ws]
  have : wsTake (c :: rest) = [] := takeWhile_cons_false pyWS c rest hc
  simp [this]

theorem runStages_tok_head_ws (R : List Stage) (c : Char) (rest : Str)
    (hc : pyWS c = true) : runStages (Stage.tok :: R) (c :: rest) = false := by
  rw [runStages_tok]
  have : tokTake (c :: rest) = [] := takeWhile_cons_false _ c rest (by simp [hc])
  simp [this]

theorem runStages_digit_head_false (R : List Stage) (c : Char) (rest : Str)
    (hc : c.isDigit = false) : runStages (Stage.digit :: R) (c :: rest) = false := by
  rw [runStages_digit]
  simp [hc]

theorem runStages_quote_head_false (R : List Stage) (c : Char) (rest : Str)
    (hc : decide (c = '"') = false) :
    runStages (Stage.quote :: R) (c :: rest) = false := by
  rw [runStages_quote]
  simp only [hc, Bool.false_and]

theorem runStages_wsOpt_head_false (R : List Stage) (c : Char) (rest : Str)
    (hc : pyWS c = false) :
    runStages (Stage.wsOpt :: R) (c :: rest) = runStages R (c :: rest) := by
  rw [runStages_wsOpt]
  rw [show wsDrop (c :: rest) = c :: rest from dropWhile_cons_false pyWS c rest hc]

theorem runStages_tokOpt_head_ws (R : List Stage) (c : Char) (rest : Str)
    (hc : pyWS c = true) :
    runStages (Stage.tokOpt :: R) (c :: rest) = runStages R (c :: rest) := by
  rw [runStages_tokOpt]
  rw [show tokDrop (c :: rest) = c :: rest from
    dropWhile_cons_false _ c rest (by simp [hc])]

theorem runStages_tok_head_true (R : List Stage) (c : Char) (rest : Str)
    (hc : pyWS c = false) :
    runStages (Stage.tok :: R) (c :: rest) = runStages R (tokDrop rest) := by
  rw [runStages_tok]
  have ht : tokTake (c :: rest) = c :: tokTake rest := by
    simp [tokTake, List.takeWhile, hc]
  have hd : tokDrop (c :: rest) = tokDrop rest := by
    simp [tokDrop, List.dropWhile, hc]
  simp [ht, hd]

/-- Transfer for the pattern-4 probe over a pattern-4 scan: a probe state
accepting the scan output at an aligned position also accepts the source. -/
theorem trans44 : ∀ (z : Str) (f : Nat) (ss : List Stage), Fam4 ss →
    runStages ss (subLoopF try4 f z) = true → runStages ss z = true := by
  intro z
  generalize hn : z.length = n
  induction n using Nat.strong_induction_on generalizing z with
  | _ n ih =>
    intro f ss hss hrun
    subst hn
    cases z with
    | nil =>
      cases f with
      | zero => exact hrun
      | succ f' => exact hrun
    | cons c zrest =>
      cases f with
      | zero => exact hrun
      | succ f' =>
        cases hm : try4 (c :: zrest) with
        | none =>
          rw [show subLoopF try4 (f' + 1) (c :: zrest) =
              c :: subLoopF try4 f' zrest from by simp only [subLoopF, hm]] at hrun
          obtain ⟨ss1, hstep, hrun1⟩ := stepRun_sound ss c _ hrun
          have hss1 : Fam4 ss1 := fam4_closed ss ss1 c hss hstep
          have hz1 : runStages ss1 zrest = true :=
            ih zrest.length (by simp) zrest rfl f' ss1 hss1 hrun1
          exact stepRun_complete ss c zrest ss1 hstep hz1
        | some lr =>
          obtain ⟨len, r⟩ := lr
          obtain ⟨w1, tk, hdec, hw1, haw1, htk, hatk, hZh, hlen, hr⟩ :=
            try4_shape (c :: zrest) len r hm
          have hsnlen : SNkw.length = 21 := by decide
          have h1len : 1 ≤ len := by omega
          rw [show subLoopF try4 (f' + 1) (c :: zrest) =
              r ++ subLoopF try4 f' (zrest.drop (len - 1)) from by
                simp only [subLoopF, hm]] at hrun
          have hdropeq : zrest.drop (len - 1) = (c :: zrest).drop len := by
            cases len with
            | zero => omega
            | succ m => simp
          rw [hdropeq, hr] at hrun
          have hlt : ((c :: zrest).drop len).length < (c :: zrest).length := by
            conv_rhs => rw [hdec]
            simp only [List.length_append]
            have : 0 < tk.length := List.length_pos.2 htk
            omega
          have htr : ∀ ss2, Fam4 ss2 →
              runStages ss2 (subLoopF try4 f' ((c :: zrest).drop len)) = true →
              runStages ss2 ((c :: zrest).drop len) = true :=
            fun ss2 h2 hr2 => ih ((c :: zrest).drop len).length hlt _ rfl f' ss2 h2 hr2
          rw [hdec]
          rcases hss with ⟨k, hk, hksuf, rfl⟩ | hmem
          · rcases factSN_SN k ((List.mem_tails k SNkw).2 hksuf) with rfl | rfl | ⟨hm1, hm2⟩
            · exact absurd rfl hk
            · simp only [S4s, runStages_lit, stripLit_self_append]
              rw [runStages_ws]
              have hwt : wsTake (w1 ++ (tk ++ (c :: zrest).drop len)) = w1 :=
                takeWhile_append_of_all pyWS w1 _ haw1 (pyws_head_false tk _ htk hatk)
              have hwd : wsDrop (w1 ++ (tk ++ (c :: zrest).drop len)) =
                  tk ++ (c :: zrest).drop len :=
                dropWhile_append_of_all pyWS w1 _ haw1 (pyws_head_false tk _ htk hatk)
              rw [hwt, hwd]
              simp only [ne_eq, hw1, not_false_iff, decide_True, Bool.true_and]
              cases tk with
              | nil => exact absurd rfl htk
              | cons x tk' =>
                have hx : pyWS x = false := by
                  simp only [List.all_cons, Bool.and_eq_true, Bool.not_eq_true'] at hatk
                  exact hatk.1
                rw [List.cons_append, runStages_tok_head_true _ x _ hx]
                exact runStages_nil_s _
            · exfalso
              simp only [S4s, List.append_assoc, runStages_lit,
                stripLit_append_none k SNkw _ hm1 hm2] at hrun
              exact Bool.noConfusion hrun
          · simp only [tail4s, List.mem_cons, List.not_mem_nil, or_false] at hmem
            rcases hmem with rfl | rfl | rfl | rfl
            · exfalso
              rw [show (SNkw ++ ' ' :: stars8) ++
                  subLoopF try4 f' ((c :: zrest).drop len) =
                  's' :: ((str "nmp-server community" ++ ' ' :: stars8) ++
                    subLoopF try4 f' ((c :: zrest).drop len)) from by
                    rw [show SNkw = 's' :: str "nmp-server community" from rfl]
                    simp] at hrun
              rw [runStages_ws_head_false _ 's' _ (by decide)] at hrun
              exact Bool.noConfusion hrun
            · rw [show SNkw ++ (w1 ++ (tk ++ (c :: zrest).drop len)) =
                  's' :: (str "nmp-server community" ++
                    (w1 ++ (tk ++ (c :: zrest).drop len))) from by
                    rw [show SNkw = 's' :: str "nmp-server community" from rfl]
                    simp]
              rw [runStages_wsOpt_head_false _ 's' _ (by decide)]
              rw [runStages_tok_head_true _ 's' _ (by decide)]
              exact runStages_nil_s _
            · rw [runStages_tokOpt]
              exact runStages_nil_s _
            · exact runStages_nil_s _

theorem runS2_accept (K w1 : Str) (d : Char) (w2 tk Z : Str)
    (hw1 : w1 ≠ []) (haw1 : w1.all pyWS = true) (hd : d.isDigit = true)
    (hw2 : w2 ≠ []) (haw2 : w2.all pyWS = true) (htk : tk ≠ [])
    (hatk : tk.all (fun c => !pyWS c) = true) :
    runStages (S2s K) (K ++ (w1 ++ (d :: (w2 ++ (tk ++ Z))))) = true := by
  simp only [S2s, runStages_lit, stripLit_self_append]
  rw [runStages_ws]
  have hdh : ∀ c t, d :: (w2 ++ (tk ++ Z)) = c :: t → pyWS c = false := by
    intro c t h
    injection h with h1 h2
    subst h1
    exact pyWS_false_of_isDigit d hd
  have hwt : wsTake (w1 ++ d :: (w2 ++ (tk ++ Z))) = w1 :=
    takeWhile_append_of_all pyWS w1 _ haw1 hdh
  have hwd : wsDrop (w1 ++ d :: (w2 ++ (tk ++ Z))) = d :: (w2 ++ (tk ++ Z)) :=
    dropWhile_append_of_all pyWS w1 _ haw1 hdh
  rw [hwt, hwd]
  simp only [ne_eq, hw1, not_false_iff, decide_True, Bool.true_and]
  rw [runStages_digit]
  simp only [hd, Bool.true_and]
  rw [runStages_ws]
  have hwt2 : wsTake (w2 ++ (tk ++ Z)) = w2 :=
    takeWhile_append_of_all pyWS w2 _ haw2 (pyws_head_false tk _ htk hatk)
  have hwd2 : wsDrop (w2 ++ (tk ++ Z)) = tk ++ Z :=
    dropWhile_append_of_all pyWS w2 _ haw2 (pyws_head_false tk _ htk hatk)
  rw [hwt2, hwd2]
  simp only [ne_eq, hw2, not_false_iff, decide_True, Bool.true_and]
  cases tk with
  | nil => exact absurd rfl htk
  | cons x tk' =>
    have hx : pyWS x = false := by
      simp only [List.all_cons, Bool.and_eq_true, Bool.not_eq_true'] at hatk
      exact hatk.1
    rw [List.cons_append, runStages_tok_head_true _ x _ hx]
    exact runStages_nil_s _

theorem scan2_r0_cons (K : Str) (hK : K = PWkw ∨ K = SECkw) :
    ∃ k0 Kt, K = k0 :: Kt ∧ pyWS k0 = false ∧ k0.isDigit = false ∧
      decide (k0 = '"') = false := by
  rcases hK with rfl | rfl
  · exact ⟨'p', str "assword", rfl, by decide, by decide, by decide⟩
  · exact ⟨'s', str "ecret", rfl, by decide, by decide, by decide⟩

theorem fact2_2 (kwp K k : Str) (hp : kwp = PWkw ∨ kwp = SECkw)
    (hK : K = PWkw ∨ K = SECkw) (hks : k <:+ kwp) :
    k = [] ∨ k = K ∨ (litPre k K = false ∧ litPre K k = false) := by
  rcases hp with rfl | rfl <;> rcases hK with rfl | rfl
  · exact factPW_PW k ((List.mem_tails _ _).2 hks)
  · rcases factPW_SEC k ((List.mem_tails _ _).2 hks) with h | h
    · exact Or.inl h
    · exact Or.inr (Or.inr h)
  · rcases factSEC_PW k ((List.mem_tails _ _).2 hks) with h | h
    · exact Or.inl h
    · exact Or.inr (Or.inr h)
  · exact factSEC_SEC k ((List.mem_tails _ _).2 hks)

/-- Transfer for a pattern-2 probe over a pattern-2 scan. -/
theorem trans22 (kwp : Str) (hp : kwp = PWkw ∨ kwp = SECkw) :
    ∀ (z : Str) (f : Nat) (ss : List Stage), Fam2 kwp ss →
    runStages ss (subLoopF try2 f z) = true → runStages ss z = true := by
  intro z
  generalize hn : z.length = n
  induction n using Nat.strong_induction_on generalizing z with
  | _ n ih =>
    intro f ss hss hrun
    subst hn
    cases z with
    | nil =>
      cases f with
      | zero => exact hrun
      | succ f' => exact hrun
    | cons c zrest =>
      cases f with
      | zero => exact hrun
      | succ f' =>
        cases hm : try2 (c :: zrest) with
        | none =>
          rw [show subLoopF try2 (f' + 1) (c :: zrest) =
              c :: subLoopF try2 f' zrest from by simp only [subLoopF, hm]] at hrun
          obtain ⟨ss1, hstep, hrun1⟩ := stepRun_sound ss c _ hrun
          have hss1 : Fam2 kwp ss1 := fam2_closed kwp ss ss1 c hss hstep
          have hz1 : runStages ss1 zrest = true :=
            ih zrest.length (by simp) zrest rfl f' ss1 hss1 hrun1
          exact stepRun_complete ss c zrest ss1 hstep hz1
        | some lr =>
          obtain ⟨len, r⟩ := lr
          obtain ⟨K, w1, d, w2, tk, hK, hdec, hw1, haw1, hd, hw2, haw2, htk, hatk,
            hZh, hlen, hr⟩ := try2_shape (c :: zrest) len r hm
          have h1len : 1 ≤ len := by omega
          rw [show subLoopF try2 (f' + 1) (c :: zrest) =
              r ++ subLoopF try2 f' (zrest.drop (len - 1)) from by
                simp only [subLoopF, hm]] at hrun
          have hdropeq : zrest.drop (len - 1) = (c :: zrest).drop len := by
            cases len with
            | zero => omega
            | succ m => simp
          rw [hdropeq, hr] at hrun
          have hlt : ((c :: zrest).drop len).length < (c :: zrest).length := by
            conv_rhs => rw [hdec]
            simp only [List.length_append, List.length_cons]
            have : 0 < tk.length := List.length_pos.2 htk
            omega
          have htr : ∀ ss2, Fam2 kwp ss2 →
              runStages ss2 (subLoopF try2 f' ((c :: zrest).drop len)) = true →
              runStages ss2 ((c :: zrest).drop len) = true :=
            fun ss2 h2 hr2 => ih ((c :: zrest).drop len).length hlt _ rfl f' ss2 h2 hr2
          obtain ⟨k0, Kt, hKc, hk0ws, hk0d, hk0q⟩ := scan2_r0_cons K hK
          rw [hdec]
          rcases hss with ⟨k, hk, hksuf, rfl⟩ | hmem
          · rcases fact2_2 kwp K k hp hK hksuf with rfl | rfl | ⟨hm1, hm2⟩
            · exact absurd rfl hk
            · exact runS2_accept _ w1 d w2 tk _ hw1 haw1 hd hw2 haw2 htk hatk
            · exfalso
              simp only [S2s, List.append_assoc, runStages_lit,
                stripLit_append_none k K _ hm1 hm2] at hrun
              exact Bool.noConfusion hrun
          · simp only [tail2s, List.mem_cons, List.not_mem_nil, or_false] at hmem
            rcases hmem with rfl | rfl | rfl | rfl | rfl | rfl
            · exfalso
              rw [hKc] at hrun
              simp only [List.cons_append] at hrun
              rw [runStages_ws_head_false _ k0 _ hk0ws] at hrun
              exact Bool.noConfusion hrun
            · exfalso
              rw [hKc] at hrun
              simp only [List.cons_append] at hrun
              rw [runStages_wsOpt_head_false _ k0 _ hk0ws,
                runStages_digit_head_false _ k0 _ hk0d] at hrun
              exact Bool.noConfusion hrun
            · exfalso
              rw [hKc] at hrun
              simp only [List.cons_append] at hrun
              rw [runStages_ws_head_false _ k0 _ hk0ws] at hrun
              exact Bool.noConfusion hrun
            · rw [hKc]
              simp only [List.cons_append]
              rw [runStages_wsOpt_head_false _ k0 _ hk0ws,
                runStages_tok_head_true _ k0 _ hk0ws]
              exact runStages_nil_s _
            · rw [runStages_tokOpt]
              exact runStages_nil_s _
            · exact runStages_nil_s _

theorem ws_all_ne_quote (w : Str) (hw : w.all pyWS = true) :
    w.all (fun c => c ≠ '"') = true := by
  induction w with
  | nil => rfl
  | cons x w' ih =>
    simp only [List.all_cons, Bool.and_eq_true] at hw ⊢
    refine ⟨?_, ih hw.2⟩
    have : x ≠ '"' := by
      intro he
      subst he
      exact Bool.noConfusion hw.1
    simp [this]

theorem digit_ne_quote_all (d : Char) (hd : d.isDigit = true) :
    (fun c => decide (c ≠ '"')) d = true := by
  have : d ≠ '"' := by
    intro he
    subst he
    exact Bool.noConfusion hd
  simp [this]

theorem ws_head_true (w X : Str) (hw : w ≠ []) (haw : w.all pyWS = true) :
    ∀ c t, w ++ X = c :: t → pyWS c = true := by
  intro c t h
  cases w with
  | nil => exact absurd rfl hw
  | cons x w' =>
    rw [List.cons_append] at h
    injection h with h1 h2
    subst h1
    simp only [List.all_cons, Bool.and_eq_true] at haw
    exact haw.1

theorem append_eq_lit_split (t1 b L v1 : Str)
    (hL : L.all (fun c => !pyWS c) = true)
    (hbhead : ∀ c t, b = c :: t → pyWS c = true)
    (h : t1 ++ b = L ++ v1) :
    ∃ t1', t1 = L ++ t1' ∧ v1 = t1' ++ b := by
  rcases List.append_eq_append_iff.1 h with ⟨a', ha1, ha2⟩ | ⟨c', hc1, hc2⟩
  · cases a' with
    | nil =>
      refine ⟨[], by simpa using ha1.symm, by simpa using ha2.symm⟩
    | cons x a'' =>
      exfalso
      rw [ha1, List.all_append] at hL
      simp only [Bool.and_eq_true, List.all_cons, Bool.not_eq_true'] at hL
      have hx : pyWS x = true := hbhead x (a'' ++ v1) ha2
      rw [hx] at hL
      exact Bool.noConfusion hL.2.1
  · exact ⟨c', hc1, hc2⟩

theorem runS1_accept (w1 ct Z : Str)
    (hw1 : w1 ≠ []) (haw1 : w1.all pyWS = true)
    (hct : ct ≠ []) (hact : ct.all (fun c => c ≠ '"') = true) :
    runStages S1s (EPkw ++ (w1 ++ ('"' :: (ct ++ ('"' :: Z))))) = true := by
  simp only [S1s, runStages_lit, stripLit_self_append]
  rw [runStages_ws]
  have hqh : ∀ c t, '"' :: (ct ++ ('"' :: Z)) = c :: t → pyWS c = false := by
    intro c t h
    injection h with h1 h2
    subst h1
    decide
  have hwt : wsTake (w1 ++ ('"' :: (ct ++ ('"' :: Z)))) = w1 :=
    takeWhile_append_of_all pyWS w1 _ haw1 hqh
  have hwd : wsDrop (w1 ++ ('"' :: (ct ++ ('"' :: Z)))) = '"' :: (ct ++ ('"' :: Z)) :=
    dropWhile_append_of_all pyWS w1 _ haw1 hqh
  rw [hwt, hwd]
  simp only [ne_eq, hw1, not_false_iff, decide_True, Bool.true_and]
  rw [runStages_quote]
  simp only [decide_True, Bool.true_and]
  rw [runStages_content]
  have hqh2 : ∀ c t, ('"' : Char) :: Z = c :: t → (fun c => decide (c ≠ '"')) c = false := by
    intro c t h
    injection h with h1 h2
    subst h1
    simp
  have hct' : ct.all (fun c => decide (c ≠ '"')) = true := hact
  have htw : (ct ++ ('"' :: Z)).takeWhile (fun c => c ≠ '"') = ct :=
    takeWhile_append_of_all _ ct _ hct' hqh2
  have hdw : (ct ++ ('"' :: Z)).dropWhile (fun c => c ≠ '"') = '"' :: Z :=
    dropWhile_append_of_all _ ct _ hct' hqh2
  rw [htw, hdw]
  simp only [ne_eq, hct, not_false_iff, decide_True, Bool.true_and]
  rw [runStages_quote]
  simp [runStages_nil_s]

theorem runS3_accept (w1 t1 w2 w3 : Str) (d : Char) (w4 tk Z : Str)
    (hw1 : w1 ≠ []) (haw1 : w1.all pyWS = true)
    (ht1 : t1 ≠ []) (hat1 : t1.all (fun c => !pyWS c) = true)
    (hw2 : w2 ≠ []) (haw2 : w2.all pyWS = true)
    (hw3 : w3 ≠ []) (haw3 : w3.all pyWS = true) (hd : d.isDigit = true)
    (hw4 : w4 ≠ []) (haw4 : w4.all pyWS = true)
    (htk : tk ≠ []) (hatk : tk.all (fun c => !pyWS c) = true) :
    runStages S3s (UNkw ++ (w1 ++ (t1 ++ (w2 ++ (SECkw ++ (w3 ++ (d :: (w4 ++
      (tk ++ Z))))))))) = true := by
  simp only [S3s, runStages_lit, stripLit_self_append]
  rw [runStages_ws]
  have hwt : wsTake (w1 ++ (t1 ++ (w2 ++ (SECkw ++ (w3 ++ (d :: (w4 ++ (tk ++ Z)))))))) =
      w1 := takeWhile_append_of_all pyWS w1 _ haw1 (pyws_head_false t1 _ ht1 hat1)
  have hwd : wsDrop (w1 ++ (t1 ++ (w2 ++ (SECkw ++ (w3 ++ (d :: (w4 ++ (tk ++ Z)))))))) =
      t1 ++ (w2 ++ (SECkw ++ (w3 ++ (d :: (w4 ++ (tk ++ Z)))))) :=
    dropWhile_append_of_all pyWS w1 _ haw1 (pyws_head_false t1 _ ht1 hat1)
  rw [hwt, hwd]
  simp only [ne_eq, hw1, not_false_iff, decide_True, Bool.true_and]
  rw [runStages_tok]
  have htt : tokTake (t1 ++ (w2 ++ (SECkw ++ (w3 ++ (d :: (w4 ++ (tk ++ Z))))))) = t1 :=
    takeWhile_append_of_all _ t1 _ hat1 (tok_head_false w2 _ hw2 haw2)
  have htd : tokDrop (t1 ++ (w2 ++ (SECkw ++ (w3 ++ (d :: (w4 ++ (tk ++ Z))))))) =
      w2 ++ (SECkw ++ (w3 ++ (d :: (w4 ++ (tk ++ Z))))) :=
    dropWhile_append_of_all _ t1 _ hat1 (tok_head_false w2 _ hw2 haw2)
  rw [htt, htd]
  simp only [ne_eq, ht1, not_false_iff, decide_True, Bool.true_and]
  rw [runStages_ws]
  have hsech : ∀ c t, SECkw ++ (w3 ++ (d :: (w4 ++ (tk ++ Z)))) = c :: t →
      pyWS c = false := by
    intro c t h
    rw [show SECkw = 's' :: str "ecret" from rfl, List.cons_append] at h
    injection h with h1 h2
    subst h1
    decide
  have hwt2 : wsTake (w2 ++ (SECkw ++ (w3 ++ (d :: (w4 ++ (tk ++ Z)))))) = w2 :=
    takeWhile_append_of_all pyWS w2 _ haw2 hsech
  have hwd2 : wsDrop (w2 ++ (SECkw ++ (w3 ++ (d :: (w4 ++ (tk ++ Z)))))) =
      SECkw ++ (w3 ++ (d :: (w4 ++ (tk ++ Z)))) :=
    dropWhile_append_of_all pyWS w2 _ haw2 hsech
  rw [hwt2, hwd2]
  simp only [ne_eq, hw2, not_false_iff, decide_True, Bool.true_and]
  rw [runStages_lit]
  simp only [stripLit_self_append]
  rw [runStages_ws]
  have hdh : ∀ c t, d :: (w4 ++ (tk ++ Z)) = c :: t → pyWS c = false := by
    intro c t h
    injection h with h1 h2
    subst h1
    exact pyWS_false_of_isDigit d hd
  have hwt3 : wsTake (w3 ++ (d :: (w4 ++ (tk ++ Z)))) = w3 :=
    takeWhile_append_of_all pyWS w3 _ haw3 hdh
  have hwd3 : wsDrop (w3 ++ (d :: (w4 ++ (tk ++ Z)))) = d :: (w4 ++ (tk ++ Z)) :=
    dropWhile_append_of_all pyWS w3 _ haw3 hdh
  rw [hwt3, hwd3]
  simp only [ne_eq, hw3, not_false_iff, decide_True, Bool.true_and]
  rw [runStages_digit]
  simp only [hd, Bool.true_and]
  rw [runStages_ws]
  have hwt4 : wsTake (w4 ++ (tk ++ Z)) = w4 :=
    takeWhile_append_of_all pyWS w4 _ haw4 (pyws_head_false tk _ htk hatk)
  have hwd4 : wsDrop (w4 ++ (tk ++ Z)) = tk ++ Z :=
    dropWhile_append_of_all pyWS w4 _ haw4 (pyws_head_false tk _ htk hatk)
  rw [hwt4, hwd4]
  simp only [ne_eq, hw4, not_false_iff, decide_True, Bool.true_and]
  cases tk with
  | nil => exact absurd rfl htk
  | cons x tk' =>
    have hx : pyWS x = false := by
      simp only [List.all_cons, Bool.and_eq_true, Bool.not_eq_true'] at hatk
      exact hatk.1
    rw [List.cons_append, runStages_tok_head_true _ x _ hx]
    exact runStages_nil_s _

theorem scan3_mid_contra (t1 w2 Y : Str) (hat1 : t1.all (fun c => !pyWS c) = true)
    (hw2 : w2 ≠ []) (haw2 : w2.all pyWS = true) :
    runStages [Stage.lit SECkw, Stage.ws, Stage.digit, Stage.ws, Stage.tok]
      (t1 ++ (w2 ++ ((SECkw ++ ' ' :: '5' :: ' ' :: stars8) ++ Y))) = false := by
  rw [runStages_lit]
  cases hstrip : stripLit SECkw (t1 ++ (w2 ++ ((SECkw ++ ' ' :: '5' :: ' ' :: stars8) ++ Y))) with
  | none => rfl
  | some v1 =>
    simp only []
    have heq := (stripLit_eq_some_iff _ _ _).1 hstrip
    obtain ⟨t1', ht1eq, hv1⟩ := append_eq_lit_split t1 _ SECkw v1 (by decide)
      (ws_head_true w2 _ hw2 haw2) heq
    subst hv1
    cases t1' with
    | nil =>
      rw [List.nil_append]
      rw [runStages_ws]
      have hsh : ∀ c t, (SECkw ++ ' ' :: '5' :: ' ' :: stars8) ++ Y = c :: t →
          pyWS c = false := by
        intro c t h
        rw [show SECkw = 's' :: str "ecret" from rfl] at h
        simp only [List.cons_append] at h
        injection h with h1 h2
        subst h1
        decide
      have hwt : wsTake (w2 ++ ((SECkw ++ ' ' :: '5' :: ' ' :: stars8) ++ Y)) = w2 :=
        takeWhile_append_of_all pyWS w2 _ haw2 hsh
      have hwd : wsDrop (w2 ++ ((SECkw ++ ' ' :: '5' :: ' ' :: stars8) ++ Y)) =
          (SECkw ++ ' ' :: '5' :: ' ' :: stars8) ++ Y :=
        dropWhile_append_of_all pyWS w2 _ haw2 hsh
      rw [hwt, hwd]
      simp only [ne_eq, hw2, not_false_iff, decide_True, Bool.true_and]
      rw [show (SECkw ++ ' ' :: '5' :: ' ' :: stars8) ++ Y =
          's' :: ((str "ecret" ++ ' ' :: '5' :: ' ' :: stars8) ++ Y) from by
            rw [show SECkw = 's' :: str "ecret" from rfl]
            simp]
      exact runStages_digit_head_false _ 's' _ (by decide)
    | cons x t1'' =>
      have hx : pyWS x = false := by
        rw [ht1eq, List.all_append] at hat1
        simp only [Bool.and_eq_true, List.all_cons, Bool.not_eq_true'] at hat1
        exact hat1.2.1
      rw [List.cons_append]
      exact runStages_ws_head_false _ x _ hx

/-- Generic transfer skeleton: a probe-state family closed under stepping
transfers acceptance from scan output to scan source, given the per-match
obligation. -/
theorem transfer_skeleton (t : Str → Option (Nat × Str)) (Fam : List Stage → Prop)
    (hclosed : ∀ ss ss' c, Fam ss → stepState c ss = some ss' → Fam ss')
    (hob : ∀ (z : Str) (len : Nat) (r : Str), t z = some (len, r) →
      1 ≤ len ∧ ((z.drop len).length < z.length ∨ z = []) ∧
      ∀ ss Y, Fam ss →
        (∀ ss2, Fam ss2 → runStages ss2 Y = true → runStages ss2 (z.drop len) = true) →
        runStages ss (r ++ Y) = true → runStages ss z = true) :
    ∀ (z : Str) (f : Nat) (ss : List Stage), Fam ss →
      runStages ss (subLoopF t f z) = true → runStages ss z = true := by
  intro z
  generalize hn : z.length = n
  induction n using Nat.strong_induction_on generalizing z with
  | _ n ih =>
    intro f ss hss hrun
    subst hn
    cases z with
    | nil =>
      cases f with
      | zero => exact hrun
      | succ f' => exact hrun
    | cons c zrest =>
      cases f with
      | zero => exact hrun
      | succ f' =>
        cases hm : t (c :: zrest) with
        | none =>
          rw [show subLoopF t (f' + 1) (c :: zrest) =
              c :: subLoopF t f' zrest from by simp only [subLoopF, hm]] at hrun
          obtain ⟨ss1, hstep, hrun1⟩ := stepRun_sound ss c _ hrun
          have hss1 : Fam ss1 := hclosed ss ss1 c hss hstep
          have hz1 : runStages ss1 zrest = true :=
            ih zrest.length (by simp) zrest rfl f' ss1 hss1 hrun1
          exact stepRun_complete ss c zrest ss1 hstep hz1
        | some lr =>
          obtain ⟨len, r⟩ := lr
          obtain ⟨h1len, hlt0, hob'⟩ := hob (c :: zrest) len r hm
          have hlt : ((c :: zrest).drop len).length < (c :: zrest).length := by
            rcases hlt0 with h | h
            · exact h
            · exact List.noConfusion h
          rw [show subLoopF t (f' + 1) (c :: zrest) =
              r ++ subLoopF t f' (zrest.drop (len - 1)) from by
                simp only [subLoopF, hm]] at hrun
          have hdropeq : zrest.drop (len - 1) = (c :: zrest).drop len := by
            cases len with
            | zero => omega
            | succ m => simp
          rw [hdropeq] at hrun
          exact hob' ss (subLoopF t f' ((c :: zrest).drop len)) hss
            (fun ss2 h2 hr2 => ih ((c :: zrest).drop len).length hlt _ rfl f' ss2 h2 hr2)
            hrun

theorem fact2_SN (kwp k : Str) (hp : kwp = PWkw ∨ kwp = SECkw) (hks : k <:+ kwp) :
    k = [] ∨ (litPre k SNkw = false ∧ litPre SNkw k = false) := by
  rcases hp with rfl | rfl
  · exact factPW_SN k ((List.mem_tails _ _).2 hks)
  · exact factSEC_SN k ((List.mem_tails _ _).2 hks)

theorem fact2_UN (kwp k : Str) (hp : kwp = PWkw ∨ kwp = SECkw) (hks : k <:+ kwp) :
    k = [] ∨ (litPre k UNkw = false ∧ litPre UNkw k = false) := by
  rcases hp with rfl | rfl
  · exact factPW_UN k ((List.mem_tails _ _).2 hks)
  · exact factSEC_UN k ((List.mem_tails _ _).2 hks)

theorem ob24 (kwp : Str) (hp : kwp = PWkw ∨ kwp = SECkw) :
    ∀ (z : Str) (len : Nat) (r : Str), try4 z = some (len, r) →
    1 ≤ len ∧ ((z.drop len).length < z.length ∨ z = []) ∧
    ∀ ss Y, Fam2 kwp ss →
      (∀ ss2, Fam2 kwp ss2 → runStages ss2 Y = true → runStages ss2 (z.drop len) = true) →
      runStages ss (r ++ Y) = true → runStages ss z = true := by
  intro z len r hm
  obtain ⟨w1, tk, hdec, hw1, haw1, htk, hatk, hZh, hlen, hr⟩ := try4_shape z len r hm
  have hsnlen : SNkw.length = 21 := by decide
  refine ⟨by omega, Or.inl ?_, ?_⟩
  · conv_rhs => rw [hdec]
    simp only [List.length_append]
    have : 0 < tk.length := List.length_pos.2 htk
    omega
  · intro ss Y hss htr hrun
    rw [hr] at hrun
    rw [hdec]
    rcases hss with ⟨k, hk, hksuf, rfl⟩ | hmem
    · rcases fact2_SN kwp k hp hksuf with rfl | ⟨hm1, hm2⟩
      · exact absurd rfl hk
      · exfalso
        simp only [S2s, List.append_assoc, runStages_lit,
          stripLit_append_none k SNkw _ hm1 hm2] at hrun
        exact Bool.noConfusion hrun
    · simp only [tail2s, List.mem_cons, List.not_mem_nil, or_false] at hmem
      rcases hmem with rfl | rfl | rfl | rfl | rfl | rfl
      · exfalso
        rw [show (SNkw ++ ' ' :: stars8) ++ Y =
            's' :: ((str "nmp-server community" ++ ' ' :: stars8) ++ Y) from by
              rw [show SNkw = 's' :: str "nmp-server community" from rfl]; simp] at hrun
        rw [runStages_ws_head_false _ 's' _ (by decide)] at hrun
        exact Bool.noConfusion hrun
      · exfalso
        rw [show (SNkw ++ ' ' :: stars8) ++ Y =
            's' :: ((str "nmp-server community" ++ ' ' :: stars8) ++ Y) from by
              rw [show SNkw = 's' :: str "nmp-server community" from rfl]; simp] at hrun
        rw [runStages_wsOpt_head_false _ 's' _ (by decide),
          runStages_digit_head_false _ 's' _ (by decide)] at hrun
        exact Bool.noConfusion hrun
      · exfalso
        rw [show (SNkw ++ ' ' :: stars8) ++ Y =
            's' :: ((str "nmp-server community" ++ ' ' :: stars8) ++ Y) from by
              rw [show SNkw = 's' :: str "nmp-server community" from rfl]; simp] at hrun
        rw [runStages_ws_head_false _ 's' _ (by decide)] at hrun
        exact Bool.noConfusion hrun
      · rw [show SNkw ++ (w1 ++ (tk ++ z.drop len)) =
            's' :: (str "nmp-server community" ++ (w1 ++ (tk ++ z.drop len))) from by
              rw [show SNkw = 's' :: str "nmp-server community" from rfl]; simp]
        rw [runStages_wsOpt_head_false _ 's' _ (by decide),
          runStages_tok_head_true _ 's' _ (by decide)]
        exact runStages_nil_s _
      · rw [runStages_tokOpt]
        exact runStages_nil_s _
      · exact runStages_nil_s _

/-- Transfer for a pattern-2 probe over a pattern-4 scan. -/
theorem trans24 (kwp : Str) (hp : kwp = PWkw ∨ kwp = SECkw) :
    ∀ (z : Str) (f : Nat) (ss : List Stage), Fam2 kwp ss →
    runStages ss (subLoopF try4 f z) = true → runStages ss z = true :=
  transfer_skeleton try4 (Fam2 kwp)
    (fun ss ss' c hss hstep => fam2_closed kwp ss ss' c hss hstep) (ob24 kwp hp)

theorem ob23 (kwp : Str) (hp : kwp = PWkw ∨ kwp = SECkw) :
    ∀ (z : Str) (len : Nat) (r : Str), try3 z = some (len, r) →
    1 ≤ len ∧ ((z.drop len).length < z.length ∨ z = []) ∧
    ∀ ss Y, Fam2 kwp ss →
      (∀ ss2, Fam2 kwp ss2 → runStages ss2 Y = true → runStages ss2 (z.drop len) = true) →
      runStages ss (r ++ Y) = true → runStages ss z = true := by
  intro z len r hm
  obtain ⟨w1, t1, w2, w3, d, w4, tk, hdec, hw1, haw1, ht1, hat1, hw2, haw2, hw3, haw3,
    hd, hw4, haw4, htk, hatk, hZh, hlen, hr⟩ := try3_shape z len r hm
  have hunlen : UNkw.length = 8 := by decide
  have hseclen : SECkw.length = 6 := by decide
  refine ⟨by omega, Or.inl ?_, ?_⟩
  · conv_rhs => rw [hdec]
    simp only [List.length_append, List.length_cons]
    have : 0 < tk.length := List.length_pos.2 htk
    omega
  · intro ss Y hss htr hrun
    rw [hr] at hrun
    have hshape : (UNkw ++ w1 ++ t1 ++ w2 ++ (SECkw ++ ' ' :: '5' :: ' ' :: stars8)) ++ Y =
        'u' :: (str "sername" ++ (w1 ++ (t1 ++ (w2 ++
          ((SECkw ++ ' ' :: '5' :: ' ' :: stars8) ++ Y))))) := by
      rw [show UNkw = 'u' :: str "sername" from rfl]
      simp
    rw [hdec]
    rcases hss with ⟨k, hk, hksuf, rfl⟩ | hmem
    · rcases fact2_UN kwp k hp hksuf with rfl | ⟨hm1, hm2⟩
      · exact absurd rfl hk
      · exfalso
        simp only [S2s, List.append_assoc, runStages_lit,
          stripLit_append_none k UNkw _ hm1 hm2] at hrun
        exact Bool.noConfusion hrun
    · simp only [tail2s, List.mem_cons, List.not_mem_nil, or_false] at hmem
      rcases hmem with rfl | rfl | rfl | rfl | rfl | rfl
      · exfalso
        rw [hshape, runStages_ws_head_false _ 'u' _ (by decide)] at hrun
        exact Bool.noConfusion hrun
      · exfalso
        rw [hshape, runStages_wsOpt_head_false _ 'u' _ (by decide),
          runStages_digit_head_false _ 'u' _ (by decide)] at hrun
        exact Bool.noConfusion hrun
      · exfalso
        rw [hshape, runStages_ws_head_false _ 'u' _ (by decide)] at hrun
        exact Bool.noConfusion hrun
      · rw [show UNkw ++ (w1 ++ (t1 ++ (w2 ++ (SECkw ++ (w3 ++ (d :: (w4 ++
            (tk ++ z.drop len)))))))) =
            'u' :: (str "sername" ++ (w1 ++ (t1 ++ (w2 ++ (SECkw ++ (w3 ++ (d :: (w4 ++
              (tk ++ z.drop len))))))))) from by
              rw [show UNkw = 'u' :: str "sername" from rfl]; simp]
        rw [runStages_wsOpt_head_false _ 'u' _ (by decide),
          runStages_tok_head_true _ 'u' _ (by decide)]
        exact runStages_nil_s _
      · rw [runStages_tokOpt]
        exact runStages_nil_s _
      · exact runStages_nil_s _

/-- Transfer for a pattern-2 probe over a pattern-3 scan. -/
theorem trans23 (kwp : Str) (hp : kwp = PWkw ∨ kwp = SECkw) :
    ∀ (z : Str) (f : Nat) (ss : List Stage), Fam2 kwp ss →
    runStages ss (subLoopF try3 f z) = true → runStages ss z = true :=
  transfer_skeleton try3 (Fam2 kwp)
    (fun ss ss' c hss hstep => fam2_closed kwp ss ss' c hss hstep) (ob23 kwp hp)

theorem stripLit_cons_ne (a c : Char) (h : a ≠ c) (l v : Str) :
    stripLit (a :: l) (c :: v) = none := by
  simp [stripLit, h]

theorem tokDrop_kw_ws (kw w T : Str) (hkw : kw.all (fun c => !pyWS c) = true)
    (hw : w ≠ []) (haw : w.all pyWS = true) :
    tokDrop (kw ++ (w ++ T)) = w ++ T := by
  show (kw ++ (w ++ T)).dropWhile (fun c => !pyWS c) = w ++ T
  rw [dropWhile_append_all _ kw _ hkw]
  cases w with
  | nil => exact absurd rfl hw
  | cons x w' =>
    rw [List.cons_append]
    apply dropWhile_cons_false
    simp only [List.all_cons, Bool.and_eq_true] at haw
    simp [haw.1]

theorem ob33 : ∀ (z : Str) (len : Nat) (r : Str), try3 z = some (len, r) →
    1 ≤ len ∧ ((z.drop len).length < z.length ∨ z = []) ∧
    ∀ ss Y, Fam3 ss →
      (∀ ss2, Fam3 ss2 → runStages ss2 Y = true → runStages ss2 (z.drop len) = true) →
      runStages ss (r ++ Y) = true → runStages ss z = true := by
  intro z len r hm
  obtain ⟨w1, t1, w2, w3, d, w4, tk, hdec, hw1, haw1, ht1, hat1, hw2, haw2, hw3, haw3,
    hd, hw4, haw4, htk, hatk, hZh, hlen, hr⟩ := try3_shape z len r hm
  have hunlen : UNkw.length = 8 := by decide
  have hseclen : SECkw.length = 6 := by decide
  refine ⟨by omega, Or.inl ?_, ?_⟩
  · conv_rhs => rw [hdec]
    simp only [List.length_append, List.length_cons]
    have : 0 < tk.length := List.length_pos.2 htk
    omega
  · intro ss Y hss htr hrun
    rw [hr] at hrun
    have hshape2 : (UNkw ++ w1 ++ t1 ++ w2 ++ (SECkw ++ ' ' :: '5' :: ' ' :: stars8)) ++ Y =
        UNkw ++ (w1 ++ (t1 ++ (w2 ++ ((SECkw ++ ' ' :: '5' :: ' ' :: stars8) ++ Y)))) := by
      simp [List.append_assoc]
    have hshape : (UNkw ++ w1 ++ t1 ++ w2 ++ (SECkw ++ ' ' :: '5' :: ' ' :: stars8)) ++ Y =
        'u' :: (str "sername" ++ (w1 ++ (t1 ++ (w2 ++
          ((SECkw ++ ' ' :: '5' :: ' ' :: stars8) ++ Y))))) := by
      rw [show UNkw = 'u' :: str "sername" from rfl]
      simp
    have hafter : runStages [Stage.ws, Stage.lit SECkw, Stage.ws, Stage.digit,
        Stage.ws, Stage.tok]
        (w1 ++ (t1 ++ (w2 ++ ((SECkw ++ ' ' :: '5' :: ' ' :: stars8) ++ Y)))) = false := by
      rw [runStages_ws]
      have hwt : wsTake (w1 ++ (t1 ++ (w2 ++ ((SECkw ++ ' ' :: '5' :: ' ' :: stars8) ++
          Y)))) = w1 :=
        takeWhile_append_of_all pyWS w1 _ haw1 (pyws_head_false t1 _ ht1 hat1)
      have hwd : wsDrop (w1 ++ (t1 ++ (w2 ++ ((SECkw ++ ' ' :: '5' :: ' ' :: stars8) ++
          Y)))) = t1 ++ (w2 ++ ((SECkw ++ ' ' :: '5' :: ' ' :: stars8) ++ Y)) :=
        dropWhile_append_of_all pyWS w1 _ haw1 (pyws_head_false t1 _ ht1 hat1)
      rw [hwt, hwd]
      simp only [ne_eq, hw1, not_false_iff, decide_True, Bool.true_and]
      exact scan3_mid_contra t1 w2 Y hat1 hw2 haw2
    rw [hdec]
    rcases hss with ⟨k, hk, hksuf, rfl⟩ | hmem | ⟨k, hk, hksuf, rfl⟩ | hmem
    · rcases factUN_UN k ((List.mem_tails _ _).2 hksuf) with rfl | rfl | ⟨hm1, hm2⟩
      · exact absurd rfl hk
      · exact runS3_accept w1 t1 w2 w3 d w4 tk _ hw1 haw1 ht1 hat1 hw2 haw2 hw3 haw3
          hd hw4 haw4 htk hatk
      · exfalso
        simp only [List.append_assoc, runStages_lit,
          stripLit_append_none k UNkw _ hm1 hm2] at hrun
        exact Bool.noConfusion hrun
    · simp only [tail3s, List.mem_cons, List.not_mem_nil, or_false] at hmem
      rcases hmem with rfl | rfl | rfl | rfl
      · exfalso
        rw [hshape, runStages_ws_head_false _ 'u' _ (by decide)] at hrun
        exact Bool.noConfusion hrun
      · exfalso
        rw [hshape, runStages_wsOpt_head_false _ 'u' _ (by decide),
          runStages_tok_head_true _ 'u' _ (by decide)] at hrun
        rw [tokDrop_kw_ws (str "sername") w1 _ (by decide) hw1 haw1] at hrun
        rw [hafter] at hrun
        exact Bool.noConfusion hrun
      · exfalso
        rw [hshape2, runStages_tokOpt] at hrun
        rw [tokDrop_kw_ws UNkw w1 _ (by decide) hw1 haw1] at hrun
        rw [hafter] at hrun
        exact Bool.noConfusion hrun
      · exfalso
        rw [hshape, runStages_wsOpt_head_false _ 'u' _ (by decide)] at hrun
        rw [show SECkw = 's' :: str "ecret" from rfl] at hrun
        simp only [runStages_lit, stripLit_cons_ne 's' 'u' (by decide)] at hrun
        exact Bool.noConfusion hrun
    · rcases factSEC_UN k ((List.mem_tails _ _).2 hksuf) with rfl | ⟨hm1, hm2⟩
      · exact absurd rfl hk
      · exfalso
        simp only [S2s, List.append_assoc, runStages_lit,
          stripLit_append_none k UNkw _ hm1 hm2] at hrun
        exact Bool.noConfusion hrun
    · simp only [tail2s, List.mem_cons, List.not_mem_nil, or_false] at hmem
      rcases hmem with rfl | rfl | rfl | rfl | rfl | rfl
      · exfalso
        rw [hshape, runStages_ws_head_false _ 'u' _ (by decide)] at hrun
        exact Bool.noConfusion hrun
      · exfalso
        rw [hshape, runStages_wsOpt_head_false _ 'u' _ (by decide),
          runStages_digit_head_false _ 'u' _ (by decide)] at hrun
        exact Bool.noConfusion hrun
      · exfalso
        rw [hshape, runStages_ws_head_false _ 'u' _ (by decide)] at hrun
        exact Bool.noConfusion hrun
      · rw [show UNkw ++ (w1 ++ (t1 ++ (w2 ++ (SECkw ++ (w3 ++ (d :: (w4 ++
            (tk ++ z.drop len)))))))) =
            'u' :: (str "sername" ++ (w1 ++ (t1 ++ (w2 ++ (SECkw ++ (w3 ++ (d :: (w4 ++
              (tk ++ z.drop len))))))))) from by
              rw [show UNkw = 'u' :: str "sername" from rfl]; simp]
        rw [runStages_wsOpt_head_false _ 'u' _ (by decide),
          runStages_tok_head_true _ 'u' _ (by decide)]
        exact runStages_nil_s _
      · rw [runStages_tokOpt]
        exact runStages_nil_s _
      · exact runStages_nil_s _

/-- Transfer for the pattern-3 probe over a pattern-3 scan. -/
theorem trans33 : ∀ (z : Str) (f : Nat) (ss : List Stage), Fam3 ss →
    runStages ss (subLoopF try3 f z) = true → runStages ss z = true :=
  transfer_skeleton try3 Fam3 (fun ss ss' c hss hstep => fam3_closed ss ss' c hss hstep) ob33

theorem tokDrop_kw_wschar (kw : Str) (c : Char) (T : Str)
    (hkw : kw.all (fun c => !pyWS c) = true) (hc : pyWS c = true) :
    tokDrop (kw ++ (c :: T)) = c :: T := by
  show (kw ++ (c :: T)).dropWhile (fun c => !pyWS c) = c :: T
  rw [dropWhile_append_all _ kw _ hkw]
  exact dropWhile_cons_false _ c T (by simp [hc])

theorem runStages_ws_char (R : List Stage) (c : Char) (hc : pyWS c = true)
    (x : Char) (hx : pyWS x = false) (T : Str) :
    runStages (Stage.ws :: R) (c :: (x :: T)) = runStages R (x :: T) := by
  rw [runStages_ws]
  have hwt : wsTake (c :: (x :: T)) = [c] := by
    show (c :: (x :: T)).takeWhile pyWS = [c]
    rw [List.takeWhile_cons_of_pos (by simp [hc])]
    rw [takeWhile_cons_false pyWS x T hx]
  have hwd : wsDrop (c :: (x :: T)) = x :: T := by
    show (c :: (x :: T)).dropWhile pyWS = x :: T
    rw [List.dropWhile_cons_of_pos (by simp [hc])]
    exact dropWhile_cons_false pyWS x T hx
  rw [hwt, hwd]
  simp

theorem ob34 : ∀ (z : Str) (len : Nat) (r : Str), try4 z = some (len, r) →
    1 ≤ len ∧ ((z.drop len).length < z.length ∨ z = []) ∧
    ∀ ss Y, Fam3 ss →
      (∀ ss2, Fam3 ss2 → runStages ss2 Y = true → runStages ss2 (z.drop len) = true) →
      runStages ss (r ++ Y) = true → runStages ss z = true := by
  intro z len r hm
  obtain ⟨w1, tk, hdec, hw1, haw1, htk, hatk, hZh, hlen, hr⟩ := try4_shape z len r hm
  have hsnlen : SNkw.length = 21 := by decide
  refine ⟨by omega, Or.inl ?_, ?_⟩
  · conv_rhs => rw [hdec]
    simp only [List.length_append]
    have : 0 < tk.length := List.length_pos.2 htk
    omega
  · intro ss Y hss htr hrun
    rw [hr] at hrun
    have hsp : (SNkw ++ ' ' :: stars8) ++ Y =
        str "snmp-server" ++ (' ' :: ('c' :: (str "ommunity" ++
          (' ' :: (stars8 ++ Y))))) := by
      show (SNkw ++ ' ' :: stars8) ++ Y = _
      rw [show SNkw = str "snmp-server" ++ (' ' :: ('c' :: str "ommunity")) from rfl]
      simp
    have hsp2 : (SNkw ++ ' ' :: stars8) ++ Y =
        's' :: (str "nmp-server" ++ (' ' :: ('c' :: (str "ommunity" ++
          (' ' :: (stars8 ++ Y)))))) := by
      rw [hsp]
      rfl
    have hassoc : (SNkw ++ ' ' :: stars8) ++ Y = SNkw ++ ((' ' :: stars8) ++ Y) := by
      simp [List.append_assoc]
    rw [hdec]
    rcases hss with ⟨k, hk, hksuf, rfl⟩ | hmem | ⟨k, hk, hksuf, rfl⟩ | hmem
    · rcases factUN_SN k ((List.mem_tails _ _).2 hksuf) with rfl | ⟨hm1, hm2⟩
      · exact absurd rfl hk
      · exfalso
        simp only [List.append_assoc, runStages_lit,
          stripLit_append_none k SNkw _ hm1 hm2] at hrun
        exact Bool.noConfusion hrun
    · simp only [tail3s, List.mem_cons, List.not_mem_nil, or_false] at hmem
      rcases hmem with rfl | rfl | rfl | rfl
      · exfalso
        rw [hsp2, runStages_ws_head_false _ 's' _ (by decide)] at hrun
        exact Bool.noConfusion hrun
      · exfalso
        rw [hsp2, runStages_wsOpt_head_false _ 's' _ (by decide),
          runStages_tok_head_true _ 's' _ (by decide)] at hrun
        rw [tokDrop_kw_wschar (str "nmp-server") ' ' _ (by decide) (by decide)] at hrun
        rw [runStages_ws_char _ ' ' (by decide) 'c' (by decide)] at hrun
        rw [show SECkw = 's' :: str "ecret" from rfl] at hrun
        simp only [runStages_lit, stripLit_cons_ne 's' 'c' (by decide)] at hrun
        exact Bool.noConfusion hrun
      · exfalso
        rw [hsp, runStages_tokOpt] at hrun
        rw [tokDrop_kw_wschar (str "snmp-server") ' ' _ (by decide) (by decide)] at hrun
        rw [runStages_ws_char _ ' ' (by decide) 'c' (by decide)] at hrun
        rw [show SECkw = 's' :: str "ecret" from rfl] at hrun
        simp only [runStages_lit, stripLit_cons_ne 's' 'c' (by decide)] at hrun
        exact Bool.noConfusion hrun
      · exfalso
        rw [hsp2, runStages_wsOpt_head_false _ 's' _ (by decide)] at hrun
        rw [show 's' :: (str "nmp-server" ++ (' ' :: ('c' :: (str "ommunity" ++
            (' ' :: (stars8 ++ Y)))))) = SNkw ++ ((' ' :: stars8) ++ Y) from by
              rw [show SNkw = str "snmp-server" ++ (' ' :: ('c' :: str "ommunity"))
                from rfl]
              simp
              rfl] at hrun
        simp only [runStages_lit,
          stripLit_append_none SECkw SNkw _ factSEC_SNkw.1 factSEC_SNkw.2] at hrun
        exact Bool.noConfusion hrun
    · rcases factSEC_SN k ((List.mem_tails _ _).2 hksuf) with rfl | ⟨hm1, hm2⟩
      · exact absurd rfl hk
      · exfalso
        simp only [S2s, List.append_assoc, runStages_lit,
          stripLit_append_none k SNkw _ hm1 hm2] at hrun
        exact Bool.noConfusion hrun
    · simp only [tail2s, List.mem_cons, List.not_mem_nil, or_false] at hmem
      rcases hmem with rfl | rfl | rfl | rfl | rfl | rfl
      · exfalso
        rw [hsp2, runStages_ws_head_false _ 's' _ (by decide)] at hrun
        exact Bool.noConfusion hrun
      · exfalso
        rw [hsp2, runStages_wsOpt_head_false _ 's' _ (by decide),
          runStages_digit_head_false _ 's' _ (by decide)] at hrun
        exact Bool.noConfusion hrun
      · exfalso
        rw [hsp2, runStages_ws_head_false _ 's' _ (by decide)] at hrun
        exact Bool.noConfusion hrun
      · rw [show SNkw ++ (w1 ++ (tk ++ z.drop len)) =
            's' :: (str "nmp-server community" ++ (w1 ++ (tk ++ z.drop len))) from by
              rw [show SNkw = 's' :: str "nmp-server community" from rfl]; simp]
        rw [runStages_wsOpt_head_false _ 's' _ (by decide),
          runStages_tok_head_true _ 's' _ (by decide)]
        exact runStages_nil_s _
      · rw [runStages_tokOpt]
        exact runStages_nil_s _
      · exact runStages_nil_s _

/-- Transfer for the pattern-3 probe over a pattern-4 scan. -/
theorem trans34 : ∀ (z : Str) (f : Nat) (ss : List Stage), Fam3 ss →
    runStages ss (subLoopF try4 f z) = true → runStages ss z = true :=
  transfer_skeleton try4 Fam3 (fun ss ss' c hss hstep => fam3_closed ss ss' c hss hstep) ob34

theorem content_accept_of_quote (P T : Str) (hP : P ≠ [])
    (hPq : P.all (fun c => c ≠ '"') = true) :
    runStages [Stage.content, Stage.quote] (P ++ ('"' :: T)) = true := by
  rw [runStages_content]
  have hqh : ∀ c t, ('"' : Char) :: T = c :: t → (fun c => decide (c ≠ '"')) c = false := by
    intro c t h
    injection h with h1 h2
    subst h1
    simp
  have htw : (P ++ ('"' :: T)).takeWhile (fun c => c ≠ '"') = P :=
    takeWhile_append_of_all _ P _ hPq hqh
  have hdw : (P ++ ('"' :: T)).dropWhile (fun c => c ≠ '"') = '"' :: T :=
    dropWhile_append_of_all _ P _ hPq hqh
  rw [htw, hdw]
  simp only [ne_eq, hP, not_false_iff, decide_True, Bool.true_and]
  rw [runStages_quote]
  simp [runStages_nil_s]

theorem contentOpt_accept_of_quote (P T : Str)
    (hPq : P.all (fun c => c ≠ '"') = true) :
    runStages [Stage.contentOpt, Stage.quote] (P ++ ('"' :: T)) = true := by
  rw [runStages_contentOpt]
  have hqh : ∀ c t, ('"' : Char) :: T = c :: t → (fun c => decide (c ≠ '"')) c = false := by
    intro c t h
    injection h with h1 h2
    subst h1
    simp
  have hdw : (P ++ ('"' :: T)).dropWhile (fun c => c ≠ '"') = '"' :: T :=
    dropWhile_append_of_all _ P _ hPq hqh
  rw [hdw]
  rw [runStages_quote]
  simp [runStages_nil_s]

theorem content_reduce (P X : Str) (hP : P ≠ [])
    (hPq : P.all (fun c => c ≠ '"') = true) :
    runStages [Stage.content, Stage.quote] (P ++ X) =
      runStages [Stage.quote] (X.dropWhile (fun c => c ≠ '"')) := by
  rw [runStages_content]
  rw [takeWhile_append_all _ P X hPq, dropWhile_append_all _ P X hPq]
  have hne : P ++ X.takeWhile (fun c => c ≠ '"') ≠ [] := by
    cases P with
    | nil => exact absurd rfl hP
    | cons x P' => simp
  simp only [ne_eq, hne, not_false_iff, decide_True, Bool.true_and]

theorem contentOpt_reduce (P X : Str)
    (hPq : P.all (fun c => c ≠ '"') = true) :
    runStages [Stage.contentOpt, Stage.quote] (P ++ X) =
      runStages [Stage.quote] (X.dropWhile (fun c => c ≠ '"')) := by
  rw [runStages_contentOpt, dropWhile_append_all _ P X hPq]

theorem quote_split_of_not_all (tk : Str)
    (hq : tk.all (fun c => c ≠ '"') = false) :
    ∃ ta tb, tk = ta ++ '"' :: tb ∧ ta.all (fun c => c ≠ '"') = true := by
  cases hdw : tk.dropWhile (fun c => c ≠ '"') with
  | nil =>
    exfalso
    have hsplit := List.takeWhile_append_dropWhile
      (p := fun c => decide (c ≠ '"')) (l := tk)
    rw [hdw, List.append_nil] at hsplit
    have hall := all_takeWhile (fun c => decide (c ≠ '"')) tk
    rw [hsplit] at hall
    rw [hall] at hq
    exact Bool.noConfusion hq
  | cons q tb =>
    have hq' : q = '"' := by
      have := dropWhile_head_false _ tk q tb hdw
      simpa using this
    subst hq'
    refine ⟨tk.takeWhile (fun c => c ≠ '"'), tb, ?_, all_takeWhile _ _⟩
    rw [← hdw]
    exact (List.takeWhile_append_dropWhile _ _).symm

theorem ob11 : ∀ (z : Str) (len : Nat) (r : Str), try1 z = some (len, r) →
    1 ≤ len ∧ ((z.drop len).length < z.length ∨ z = []) ∧
    ∀ ss Y, Fam1 ss →
      (∀ ss2, Fam1 ss2 → runStages ss2 Y = true → runStages ss2 (z.drop len) = true) →
      runStages ss (r ++ Y) = true → runStages ss z = true := by
  intro z len r hm
  obtain ⟨w1, ct, hdec, hw1, haw1, hct, hact, hlen, hr⟩ := try1_shape z len r hm
  have heplen : EPkw.length = 18 := by decide
  refine ⟨by omega, Or.inl ?_, ?_⟩
  · conv_rhs => rw [hdec]
    simp only [List.length_append, List.length_cons]
    have : 0 < ct.length := List.length_pos.2 hct
    omega
  · intro ss Y hss htr hrun
    rw [hr] at hrun
    have hcons : (EPkw ++ (w1 ++ ('"' :: (stars8 ++ ['"'])))) ++ Y =
        'e' :: ((str "ncrypted-password" ++ (w1 ++ ('"' :: (stars8 ++ ['"'])))) ++ Y) := by
      rw [show EPkw = 'e' :: str "ncrypted-password" from rfl]
      simp
    rw [hdec]
    rcases hss with ⟨k, hk, hksuf, rfl⟩ | hmem
    · rcases factEP_EP k ((List.mem_tails _ _).2 hksuf) with rfl | rfl | ⟨hm1, hm2⟩
      · exact absurd rfl hk
      · exact runS1_accept w1 ct _ hw1 haw1 hct hact
      · exfalso
        simp only [List.append_assoc, runStages_lit,
          stripLit_append_none k EPkw _ hm1 hm2] at hrun
        exact Bool.noConfusion hrun
    · simp only [tail1s, List.mem_cons, List.not_mem_nil, or_false] at hmem
      rcases hmem with rfl | rfl | rfl | rfl | rfl
      · exfalso
        rw [hcons, runStages_ws_head_false _ 'e' _ (by decide)] at hrun
        exact Bool.noConfusion hrun
      · exfalso
        rw [hcons, runStages_wsOpt_head_false _ 'e' _ (by decide),
          runStages_quote_head_false _ 'e' _ (by decide)] at hrun
        exact Bool.noConfusion hrun
      · rw [show EPkw ++ (w1 ++ ('"' :: (ct ++ ('"' :: z.drop len)))) =
            (EPkw ++ w1) ++ ('"' :: (ct ++ ('"' :: z.drop len))) from by
              simp [List.append_assoc]]
        apply content_accept_of_quote
        · simp [show EPkw = 'e' :: str "ncrypted-password" from rfl]
        · rw [List.all_append]
          simp only [Bool.and_eq_true]
          exact ⟨by decide, ws_all_ne_quote w1 haw1⟩
      · rw [show EPkw ++ (w1 ++ ('"' :: (ct ++ ('"' :: z.drop len)))) =
            (EPkw ++ w1) ++ ('"' :: (ct ++ ('"' :: z.drop len))) from by
              simp [List.append_assoc]]
        apply contentOpt_accept_of_quote
        rw [List.all_append]
        simp only [Bool.and_eq_true]
        exact ⟨by decide, ws_all_ne_quote w1 haw1⟩
      · exact runStages_nil_s _

/-- Transfer for the pattern-1 probe over a pattern-1 scan. -/
theorem trans11 : ∀ (z : Str) (f : Nat) (ss : List Stage), Fam1 ss →
    runStages ss (subLoopF try1 f z) = true → runStages ss z = true :=
  transfer_skeleton try1 Fam1 (fun ss ss' c hss hstep => fam1_closed ss ss' c hss hstep) ob11

theorem scan2_noquote (K : Str) (hK : K = PWkw ∨ K = SECkw) :
    K.all (fun c => c ≠ '"') = true := by
  rcases hK with rfl | rfl <;> decide

theorem ob12 : ∀ (z : Str) (len : Nat) (r : Str), try2 z = some (len, r) →
    1 ≤ len ∧ ((z.drop len).length < z.length ∨ z = []) ∧
    ∀ ss Y, Fam1 ss →
      (∀ ss2, Fam1 ss2 → runStages ss2 Y = true → runStages ss2 (z.drop len) = true) →
      runStages ss (r ++ Y) = true → runStages ss z = true := by
  intro z len r hm
  obtain ⟨K, w1, d, w2, tk, hK, hdec, hw1, haw1, hd, hw2, haw2, htk, hatk,
    hZh, hlen, hr⟩ := try2_shape z len r hm
  refine ⟨by omega, Or.inl ?_, ?_⟩
  · conv_rhs => rw [hdec]
    simp only [List.length_append, List.length_cons]
    have : 0 < tk.length := List.length_pos.2 htk
    omega
  · intro ss Y hss htr hrun
    rw [hr] at hrun
    obtain ⟨k0, Kt, hKc, hk0ws, hk0d, hk0q⟩ := scan2_r0_cons K hK
    have hconsK : (K ++ ' ' :: d :: ' ' :: stars8) ++ Y =
        k0 :: ((Kt ++ ' ' :: d :: ' ' :: stars8) ++ Y) := by
      rw [hKc]
      simp
    have hrq : (K ++ ' ' :: d :: ' ' :: stars8).all (fun c => c ≠ '"') = true := by
      rw [List.all_append]
      simp only [Bool.and_eq_true, List.all_cons]
      exact ⟨scan2_noquote K hK, by decide, digit_ne_quote_all d hd, by decide, by decide⟩
    have hKne : K ≠ [] := by
      rw [hKc]
      exact List.cons_ne_nil _ _
    rw [hdec]
    rcases hss with ⟨k, hk, hksuf, rfl⟩ | hmem
    · rcases hK with rfl | rfl
      · rcases factEP_PW k ((List.mem_tails _ _).2 hksuf) with rfl | rfl | ⟨hm1, hm2⟩
        · exact absurd rfl hk
        · exfalso
          rw [show (PWkw ++ ' ' :: d :: ' ' :: stars8) ++ Y =
              PWkw ++ (' ' :: (d :: (' ' :: (stars8 ++ Y)))) from by simp] at hrun
          simp only [runStages_lit, stripLit_self_append] at hrun
          rw [runStages_ws_char _ ' ' (by decide) d (pyWS_false_of_isDigit d hd)] at hrun
          rw [runStages_quote_head_false _ d _ (decide_eq_quote_false d hd)] at hrun
          exact Bool.noConfusion hrun
        · exfalso
          simp only [List.append_assoc, runStages_lit,
            stripLit_append_none k PWkw _ hm1 hm2] at hrun
          exact Bool.noConfusion hrun
      · rcases factEP_SEC k ((List.mem_tails _ _).2 hksuf) with rfl | ⟨hm1, hm2⟩
        · exact absurd rfl hk
        · exfalso
          simp only [List.append_assoc, runStages_lit,
            stripLit_append_none k SECkw _ hm1 hm2] at hrun
          exact Bool.noConfusion hrun
    · simp only [tail1s, List.mem_cons, List.not_mem_nil, or_false] at hmem
      rcases hmem with rfl | rfl | rfl | rfl | rfl
      · exfalso
        rw [hconsK, runStages_ws_head_false _ k0 _ hk0ws] at hrun
        exact Bool.noConfusion hrun
      · exfalso
        rw [hconsK, runStages_wsOpt_head_false _ k0 _ hk0ws,
          runStages_quote_head_false _ k0 _ hk0q] at hrun
        exact Bool.noConfusion hrun
      · rw [content_reduce (K ++ ' ' :: d :: ' ' :: stars8) Y
            (by rw [hKc]; simp) hrq] at hrun
        have hZq : runStages [Stage.quote]
            ((z.drop len).dropWhile (fun c => c ≠ '"')) = true := by
          have hY : runStages [Stage.contentOpt, Stage.quote] Y = true := by
            rw [runStages_contentOpt]
            exact hrun
          have hZ := htr [Stage.contentOpt, Stage.quote]
            (Or.inr (by simp [tail1s])) hY
          rw [runStages_contentOpt] at hZ
          exact hZ
        by_cases hq : tk.all (fun c => c ≠ '"') = true
        · have hallq : (K ++ (w1 ++ (d :: (w2 ++ tk)))).all
              (fun c => c ≠ '"') = true := by
            simp only [List.all_append, List.all_cons, Bool.and_eq_true]
            exact ⟨scan2_noquote K hK, ws_all_ne_quote w1 haw1,
              digit_ne_quote_all d hd, ws_all_ne_quote w2 haw2, hq⟩
          rw [show K ++ (w1 ++ (d :: (w2 ++ (tk ++ z.drop len)))) =
              (K ++ (w1 ++ (d :: (w2 ++ tk)))) ++ z.drop len from by
                simp [List.append_assoc]]
          rw [content_reduce _ _ (by rw [hKc]; simp) hallq]
          exact hZq
        · obtain ⟨ta, tb, htkeq, hta⟩ :=
            quote_split_of_not_all tk (Bool.eq_false_iff.2 hq)
          rw [htkeq]
          rw [show K ++ (w1 ++ (d :: (w2 ++ ((ta ++ '"' :: tb) ++ z.drop len)))) =
              (K ++ (w1 ++ (d :: (w2 ++ ta)))) ++ ('"' :: (tb ++ z.drop len)) from by
                simp [List.append_assoc]]
          apply content_accept_of_quote
          · rw [hKc]
            simp
          · simp only [List.all_append, List.all_cons, Bool.and_eq_true]
            exact ⟨scan2_noquote K hK, ws_all_ne_quote w1 haw1,
              digit_ne_quote_all d hd, ws_all_ne_quote w2 haw2, hta⟩
      · rw [contentOpt_reduce (K ++ ' ' :: d :: ' ' :: stars8) Y hrq] at hrun
        have hZq : runStages [Stage.quote]
            ((z.drop len).dropWhile (fun c => c ≠ '"')) = true := by
          have hY : runStages [Stage.contentOpt, Stage.quote] Y = true := by
            rw [runStages_contentOpt]
            exact hrun
          have hZ := htr [Stage.contentOpt, Stage.quote]
            (Or.inr (by simp [tail1s])) hY
          rw [runStages_contentOpt] at hZ
          exact hZ
        by_cases hq : tk.all (fun c => c ≠ '"') = true
        · have hallq : (K ++ (w1 ++ (d :: (w2 ++ tk)))).all
              (fun c => c ≠ '"') = true := by
            simp only [List.all_append, List.all_cons, Bool.and_eq_true]
            exact ⟨scan2_noquote K hK, ws_all_ne_quote w1 haw1,
              digit_ne_quote_all d hd, ws_all_ne_quote w2 haw2, hq⟩
          rw [show K ++ (w1 ++ (d :: (w2 ++ (tk ++ z.drop len)))) =
              (K ++ (w1 ++ (d :: (w2 ++ tk)))) ++ z.drop len from by
                simp [List.append_assoc]]
          rw [contentOpt_reduce _ _ hallq]
          exact hZq
        · obtain ⟨ta, tb, htkeq, hta⟩ :=
            quote_split_of_not_all tk (Bool.eq_false_iff.2 hq)
          rw [htkeq]
          rw [show K ++ (w1 ++ (d :: (w2 ++ ((ta ++ '"' :: tb) ++ z.drop len)))) =
              (K ++ (w1 ++ (d :: (w2 ++ ta)))) ++ ('"' :: (tb ++ z.drop len)) from by
                simp [List.append_assoc]]
          apply contentOpt_accept_of_quote
          simp only [List.all_append, List.all_cons, Bool.and_eq_true]
          exact ⟨scan2_noquote K hK, ws_all_ne_quote w1 haw1,
            digit_ne_quote_all d hd, ws_all_ne_quote w2 haw2, hta⟩
      · exact runStages_nil_s _

/-- Transfer for the pattern-1 probe over a pattern-2 scan. -/
theorem trans12 : ∀ (z : Str) (f : Nat) (ss : List Stage), Fam1 ss →
    runStages ss (subLoopF try2 f z) = true → runStages ss z = true :=
  transfer_skeleton try2 Fam1 (fun ss ss' c hss hstep => fam1_closed ss ss' c hss hstep) ob12

theorem ob13 : ∀ (z : Str) (len : Nat) (r : Str), try3 z = some (len, r) →
    1 ≤ len ∧ ((z.drop len).length < z.length ∨ z = []) ∧
    ∀ ss Y, Fam1 ss →
      (∀ ss2, Fam1 ss2 → runStages ss2 Y = true → runStages ss2 (z.drop len) = true) →
      runStages ss (r ++ Y) = true → runStages ss z = true := by
  intro z len r hm
  obtain ⟨w1, t1, w2, w3, d, w4, tk, hdec, hw1, haw1, ht1, hat1, hw2, haw2, hw3, haw3,
    hd, hw4, haw4, htk, hatk, hZh, hlen, hr⟩ := try3_shape z len r hm
  have hunlen : UNkw.length = 8 := by decide
  have hseclen : SECkw.length = 6 := by decide
  refine ⟨by omega, Or.inl ?_, ?_⟩
  · conv_rhs => rw [hdec]
    simp only [List.length_append, List.length_cons]
    have : 0 < tk.length := List.length_pos.2 htk
    omega
  · intro ss Y hss htr hrun
    rw [hr] at hrun
    have hcons : (UNkw ++ w1 ++ t1 ++ w2 ++ (SECkw ++ ' ' :: '5' :: ' ' :: stars8)) ++ Y =
        'u' :: (str "sername" ++ (w1 ++ (t1 ++ (w2 ++
          ((SECkw ++ ' ' :: '5' :: ' ' :: stars8) ++ Y))))) := by
      rw [show UNkw = 'u' :: str "sername" from rfl]
      simp
    rw [hdec]
    rcases hss with ⟨k, hk, hksuf, rfl⟩ | hmem
    · rcases factEP_UN k ((List.mem_tails _ _).2 hksuf) with rfl | ⟨hm1, hm2⟩
      · exact absurd rfl hk
      · exfalso
        simp only [List.append_assoc, runStages_lit,
          stripLit_append_none k UNkw _ hm1 hm2] at hrun
        exact Bool.noConfusion hrun
    · simp only [tail1s, List.mem_cons, List.not_mem_nil, or_false] at hmem
      rcases hmem with rfl | rfl | rfl | rfl | rfl
      · exfalso
        rw [hcons, runStages_ws_head_false _ 'u' _ (by decide)] at hrun
        exact Bool.noConfusion hrun
      · exfalso
        rw [hcons, runStages_wsOpt_head_false _ 'u' _ (by decide),
          runStages_quote_head_false _ 'u' _ (by decide)] at hrun
        exact Bool.noConfusion hrun
      · by_cases hqt1 : t1.all (fun c => c ≠ '"') = true
        · have hrq : (UNkw ++ w1 ++ t1 ++ w2 ++
              (SECkw ++ ' ' :: '5' :: ' ' :: stars8)).all (fun c => c ≠ '"') = true := by
            simp only [List.all_append, List.all_cons, Bool.and_eq_true]
            exact ⟨⟨⟨⟨by decide, ws_all_ne_quote w1 haw1⟩, hqt1⟩,
              ws_all_ne_quote w2 haw2⟩, by decide⟩
          rw [content_reduce _ Y (by simp [show UNkw = 'u' :: str "sername" from rfl])
            hrq] at hrun
          have hZq : runStages [Stage.quote]
              ((z.drop len).dropWhile (fun c => c ≠ '"')) = true := by
            have hY : runStages [Stage.contentOpt, Stage.quote] Y = true := by
              rw [runStages_contentOpt]
              exact hrun
            have hZ := htr [Stage.contentOpt, Stage.quote]
              (Or.inr (by simp [tail1s])) hY
            rw [runStages_contentOpt] at hZ
            exact hZ
          by_cases hqtk : tk.all (fun c => c ≠ '"') = true
          · have hallq : (UNkw ++ (w1 ++ (t1 ++ (w2 ++ (SECkw ++ (w3 ++ (d :: (w4 ++
                tk)))))))).all (fun c => c ≠ '"') = true := by
              simp only [List.all_append, List.all_cons, Bool.and_eq_true]
              exact ⟨by decide, ws_all_ne_quote w1 haw1, hqt1, ws_all_ne_quote w2 haw2,
                by decide, ws_all_ne_quote w3 haw3, digit_ne_quote_all d hd,
                ws_all_ne_quote w4 haw4, hqtk⟩
            rw [show UNkw ++ (w1 ++ (t1 ++ (w2 ++ (SECkw ++ (w3 ++ (d :: (w4 ++
                (tk ++ z.drop len)))))))) =
                (UNkw ++ (w1 ++ (t1 ++ (w2 ++ (SECkw ++ (w3 ++ (d :: (w4 ++ tk)))))))) ++
                  z.drop len from by simp [List.append_assoc]]
            rw [content_reduce _ _
              (by simp [show UNkw = 'u' :: str "sername" from rfl]) hallq]
            exact hZq
          · obtain ⟨ta, tb, htkeq, hta⟩ :=
              quote_split_of_not_all tk (Bool.eq_false_iff.2 hqtk)
            rw [htkeq]
            rw [show UNkw ++ (w1 ++ (t1 ++ (w2 ++ (SECkw ++ (w3 ++ (d :: (w4 ++
                ((ta ++ '"' :: tb) ++ z.drop len)))))))) =
                (UNkw ++ (w1 ++ (t1 ++ (w2 ++ (SECkw ++ (w3 ++ (d :: (w4 ++ ta)))))))) ++
                  ('"' :: (tb ++ z.drop len)) from by simp [List.append_assoc]]
            apply content_accept_of_quote
            · simp [show UNkw = 'u' :: str "sername" from rfl]
            · simp only [List.all_append, List.all_cons, Bool.and_eq_true]
              exact ⟨by decide, ws_all_ne_quote w1 haw1, hqt1, ws_all_ne_quote w2 haw2,
                by decide, ws_all_ne_quote w3 haw3, digit_ne_quote_all d hd,
                ws_all_ne_quote w4 haw4, hta⟩
        · obtain ⟨ta, tb, ht1eq, hta⟩ :=
            quote_split_of_not_all t1 (Bool.eq_false_iff.2 hqt1)
          rw [ht1eq]
          rw [show UNkw ++ (w1 ++ ((ta ++ '"' :: tb) ++ (w2 ++ (SECkw ++ (w3 ++ (d ::
              (w4 ++ (tk ++ z.drop len)))))))) =
              (UNkw ++ (w1 ++ ta)) ++ ('"' :: (tb ++ (w2 ++ (SECkw ++ (w3 ++ (d ::
                (w4 ++ (tk ++ z.drop len)))))))) from by simp [List.append_assoc]]
          apply content_accept_of_quote
          · simp [show UNkw = 'u' :: str "sername" from rfl]
          · simp only [List.all_append, List.all_cons, Bool.and_eq_true]
            exact ⟨by decide, ws_all_ne_quote w1 haw1, hta⟩
      · by_cases hqt1 : t1.all (fun c => c ≠ '"') = true
        · have hrq : (UNkw ++ w1 ++ t1 ++ w2 ++
              (SECkw ++ ' ' :: '5' :: ' ' :: stars8)).all (fun c => c ≠ '"') = true := by
            simp only [List.all_append, List.all_cons, Bool.and_eq_true]
            exact ⟨⟨⟨⟨by decide, ws_all_ne_quote w1 haw1⟩, hqt1⟩,
              ws_all_ne_quote w2 haw2⟩, by decide⟩
          rw [contentOpt_reduce _ Y hrq] at hrun
          have hZq : runStages [Stage.quote]
              ((z.drop len).dropWhile (fun c => c ≠ '"')) = true := by
            have hY : runStages [Stage.contentOpt, Stage.quote] Y = true := by
              rw [runStages_contentOpt]
              exact hrun
            have hZ := htr [Stage.contentOpt, Stage.quote]
              (Or.inr (by simp [tail1s])) hY
            rw [runStages_contentOpt] at hZ
            exact hZ
          by_cases hqtk : tk.all (fun c => c ≠ '"') = true
          · have hallq : (UNkw ++ (w1 ++ (t1 ++ (w2 ++ (SECkw ++ (w3 ++ (d :: (w4 ++
                tk)))))))).all (fun c => c ≠ '"') = true := by
              simp only [List.all_append, List.all_cons, Bool.and_eq_true]
              exact ⟨by decide, ws_all_ne_quote w1 haw1, hqt1, ws_all_ne_quote w2 haw2,
                by decide, ws_all_ne_quote w3 haw3, digit_ne_quote_all d hd,
                ws_all_ne_quote w4 haw4, hqtk⟩
            rw [show UNkw ++ (w1 ++ (t1 ++ (w2 ++ (SECkw ++ (w3 ++ (d :: (w4 ++
                (tk ++ z.drop len)))))))) =
                (UNkw ++ (w1 ++ (t1 ++ (w2 ++ (SECkw ++ (w3 ++ (d :: (w4 ++ tk)))))))) ++
                  z.drop len from by simp [List.append_assoc]]
            rw [contentOpt_reduce _ _ hallq]
            exact hZq
          · obtain ⟨ta, tb, htkeq, hta⟩ :=
              quote_split_of_not_all tk (Bool.eq_false_iff.2 hqtk)
            rw [htkeq]
            rw [show UNkw ++ (w1 ++ (t1 ++ (w2 ++ (SECkw ++ (w3 ++ (d :: (w4 ++
                ((ta ++ '"' :: tb) ++ z.drop len)))))))) =
                (UNkw ++ (w1 ++ (t1 ++ (w2 ++ (SECkw ++ (w3 ++ (d :: (w4 ++ ta)))))))) ++
                  ('"' :: (tb ++ z.drop len)) from by simp [List.append_assoc]]
            apply contentOpt_accept_of_quote
            simp only [List.all_append, List.all_cons, Bool.and_eq_true]
            exact ⟨by decide, ws_all_ne_quote w1 haw1, hqt1, ws_all_ne_quote w2 haw2,
              by decide, ws_all_ne_quote w3 haw3, digit_ne_quote_all d hd,
              ws_all_ne_quote w4 haw4, hta⟩
        · obtain ⟨ta, tb, ht1eq, hta⟩ :=
            quote_split_of_not_all t1 (Bool.eq_false_iff.2 hqt1)
          rw [ht1eq]
          rw [show UNkw ++ (w1 ++ ((ta ++ '"' :: tb) ++ (w2 ++ (SECkw ++ (w3 ++ (d ::
              (w4 ++ (tk ++ z.drop len)))))))) =
              (UNkw ++ (w1 ++ ta)) ++ ('"' :: (tb ++ (w2 ++ (SECkw ++ (w3 ++ (d ::
                (w4 ++ (tk ++ z.drop len)))))))) from by simp [List.append_assoc]]
          apply contentOpt_accept_of_quote
          simp only [List.all_append, List.all_cons, Bool.and_eq_true]
          exact ⟨by decide, ws_all_ne_quote w1 haw1, hta⟩
      · exact runStages_nil_s _

/-- Transfer for the pattern-1 probe over a pattern-3 scan. -/
theorem trans13 : ∀ (z : Str) (f : Nat) (ss : List Stage), Fam1 ss →
    runStages ss (subLoopF try3 f z) = true → runStages ss z = true :=
  transfer_skeleton try3 Fam1 (fun ss ss' c hss hstep => fam1_closed ss ss' c hss hstep) ob13

theorem ob14 : ∀ (z : Str) (len : Nat) (r : Str), try4 z = some (len, r) →
    1 ≤ len ∧ ((z.drop len).length < z.length ∨ z = []) ∧
    ∀ ss Y, Fam1 ss →
      (∀ ss2, Fam1 ss2 → runStages ss2 Y = true → runStages ss2 (z.drop len) = true) →
      runStages ss (r ++ Y) = true → runStages ss z = true := by
  intro z len r hm
  obtain ⟨w1, tk, hdec, hw1, haw1, htk, hatk, hZh, hlen, hr⟩ := try4_shape z len r hm
  have hsnlen : SNkw.length = 21 := by decide
  refine ⟨by omega, Or.inl ?_, ?_⟩
  · conv_rhs => rw [hdec]
    simp only [List.length_append]
    have : 0 < tk.length := List.length_pos.2 htk
    omega
  · intro ss Y hss htr hrun
    rw [hr] at hrun
    have hcons : (SNkw ++ ' ' :: stars8) ++ Y =
        's' :: ((str "nmp-server community" ++ ' ' :: stars8) ++ Y) := by
      rw [show SNkw = 's' :: str "nmp-server community" from rfl]
      simp
    rw [hdec]
    rcases hss with ⟨k, hk, hksuf, rfl⟩ | hmem
    · rcases factEP_SN k ((List.mem_tails _ _).2 hksuf) with rfl | ⟨hm1, hm2⟩
      · exact absurd rfl hk
      · exfalso
        simp only [List.append_assoc, runStages_lit,
          stripLit_append_none k SNkw _ hm1 hm2] at hrun
        exact Bool.noConfusion hrun
    · simp only [tail1s, List.mem_cons, List.not_mem_nil, or_false] at hmem
      rcases hmem with rfl | rfl | rfl | rfl | rfl
      · exfalso
        rw [hcons, runStages_ws_head_false _ 's' _ (by decide)] at hrun
        exact Bool.noConfusion hrun
      · exfalso
        rw [hcons, runStages_wsOpt_head_false _ 's' _ (by decide),
          runStages_quote_head_false _ 's' _ (by decide)] at hrun
        exact Bool.noConfusion hrun
      · rw [content_reduce (SNkw ++ ' ' :: stars8) Y
          (by simp [show SNkw = 's' :: str "nmp-server community" from rfl])
          (by decide)] at hrun
        have hZq : runStages [Stage.quote]
            ((z.drop len).dropWhile (fun c => c ≠ '"')) = true := by
          have hY : runStages [Stage.contentOpt, Stage.quote] Y = true := by
            rw [runStages_contentOpt]
            exact hrun
          have hZ := htr [Stage.contentOpt, Stage.quote]
            (Or.inr (by simp [tail1s])) hY
          rw [runStages_contentOpt] at hZ
          exact hZ
        by_cases hqtk : tk.all (fun c => c ≠ '"') = true
        · have hallq : (SNkw ++ (w1 ++ tk)).all (fun c => c ≠ '"') = true := by
            simp only [List.all_append, Bool.and_eq_true]
            exact ⟨by decide, ws_all_ne_quote w1 haw1, hqtk⟩
          rw [show SNkw ++ (w1 ++ (tk ++ z.drop len)) =
              (SNkw ++ (w1 ++ tk)) ++ z.drop len from by simp [List.append_assoc]]
          rw [content_reduce _ _
            (by simp [show SNkw = 's' :: str "nmp-server community" from rfl]) hallq]
          exact hZq
        · obtain ⟨ta, tb, htkeq, hta⟩ :=
            quote_split_of_not_all tk (Bool.eq_false_iff.2 hqtk)
          rw [htkeq]
          rw [show SNkw ++ (w1 ++ ((ta ++ '"' :: tb) ++ z.drop len)) =
              (SNkw ++ (w1 ++ ta)) ++ ('"' :: (tb ++ z.drop len)) from by
                simp [List.append_assoc]]
          apply content_accept_of_quote
          · simp [show SNkw = 's' :: str "nmp-server community" from rfl]
          · simp only [List.all_append, Bool.and_eq_true]
            exact ⟨by decide, ws_all_ne_quote w1 haw1, hta⟩
      · rw [contentOpt_reduce (SNkw ++ ' ' :: stars8) Y (by decide)] at hrun
        have hZq : runStages [Stage.quote]
            ((z.drop len).dropWhile (fun c => c ≠ '"')) = true := by
          have hY : runStages [Stage.contentOpt, Stage.quote] Y = true := by
            rw [runStages_contentOpt]
            exact hrun
          have hZ := htr [Stage.contentOpt, Stage.quote]
            (Or.inr (by simp [tail1s])) hY
          rw [runStages_contentOpt] at hZ
          exact hZ
        by_cases hqtk : tk.all (fun c => c ≠ '"') = true
        · have hallq : (SNkw ++ (w1 ++ tk)).all (fun c => c ≠ '"') = true := by
            simp only [List.all_append, Bool.and_eq_true]
            exact ⟨by decide, ws_all_ne_quote w1 haw1, hqtk⟩
          rw [show SNkw ++ (w1 ++ (tk ++ z.drop len)) =
              (SNkw ++ (w1 ++ tk)) ++ z.drop len from by simp [List.append_assoc]]
          rw [contentOpt_reduce _ _ hallq]
          exact hZq
        · obtain ⟨ta, tb, htkeq, hta⟩ :=
            quote_split_of_not_all tk (Bool.eq_false_iff.2 hqtk)
          rw [htkeq]
          rw [show SNkw ++ (w1 ++ ((ta ++ '"' :: tb) ++ z.drop len)) =
              (SNkw ++ (w1 ++ ta)) ++ ('"' :: (tb ++ z.drop len)) from by
                simp [List.append_assoc]]
          apply contentOpt_accept_of_quote
          simp only [List.all_append, Bool.and_eq_true]
          exact ⟨by decide, ws_all_ne_quote w1 haw1, hta⟩
      · exact runStages_nil_s _

/-- Transfer for the pattern-1 probe over a pattern-4 scan. -/
theorem trans14 : ∀ (z : Str) (f : Nat) (ss : List Stage), Fam1 ss →
    runStages ss (subLoopF try4 f z) = true → runStages ss z = true :=
  transfer_skeleton try4 Fam1 (fun ss ss' c hss hstep => fam1_closed ss ss' c hss hstep) ob14

theorem all_of_suffix (p : Char → Bool) (u w : Str) (h : u <:+ w)
    (hw : w.all p = true) : u.all p = true := by
  obtain ⟨t, ht⟩ := h
  rw [← ht, List.all_append] at hw
  simp only [Bool.and_eq_true] at hw
  exact hw.2

theorem ws_ne (x : Char) (hx : pyWS x = true) (c : Char) (hc : pyWS c = false) :
    x ≠ c := by
  intro h
  subst h
  rw [hx] at hc
  exact Bool.noConfusion hc

theorem digit_ne (d : Char) (hd : d.isDigit = true) (c : Char)
    (hc : c.isDigit = false) : d ≠ c := by
  intro h
  subst h
  rw [hd] at hc
  exact Bool.noConfusion hc

theorem suffix_append_cases (v a b : Str) (h : v <:+ a ++ b) :
    v <:+ b ∨ ∃ u, u ≠ [] ∧ u <:+ a ∧ v = u ++ b := by
  induction a with
  | nil => exact Or.inl (by simpa using h)
  | cons x a' ih =>
    rw [List.cons_append] at h
    rcases List.suffix_cons_iff.1 h with rfl | h'
    · exact Or.inr ⟨x :: a', List.cons_ne_nil _ _, List.suffix_refl _, by simp⟩
    · rcases ih h' with h2 | ⟨u, hu1, hu2, hu3⟩
      · exact Or.inl h2
      · exact Or.inr ⟨u, hu1, hu2.trans (List.suffix_cons x a'), hu3⟩

theorem try1_none_of_strip (v : Str)
    (h : stripLit (str "encrypted-password") v = none) : try1 v = none := by
  unfold try1
  rw [h]

theorem try2kw_none_of_strip (kw v : Str) (h : stripLit kw v = none) :
    try2kw kw v = none := by
  unfold try2kw
  rw [h]

theorem try3_none_of_strip (v : Str)
    (h : stripLit (str "username") v = none) : try3 v = none := by
  unfold try3
  rw [h]

theorem try4_none_of_strip (v : Str)
    (h : stripLit (str "snmp-server community") v = none) : try4 v = none := by
  unfold try4
  rw [h]

theorem try2_none_of_both (v : Str) (h1 : try2kw (str "password") v = none)
    (h2 : try2kw (str "secret") v = none) : try2 v = none := by
  unfold try2
  rw [h1, h2]

theorem try1_head_ne (x : Char) (hx : x ≠ 'e') (v : Str) : try1 (x :: v) = none := by
  apply try1_none_of_strip
  rw [show str "encrypted-password" = 'e' :: str "ncrypted-password" from rfl]
  exact stripLit_cons_ne 'e' x (fun h => hx h.symm) _ _

theorem try2_head_ne (x : Char) (hp : x ≠ 'p') (hs : x ≠ 's') (v : Str) :
    try2 (x :: v) = none := by
  apply try2_none_of_both
  · apply try2kw_none_of_strip
    rw [show str "password" = 'p' :: str "assword" from rfl]
    exact stripLit_cons_ne 'p' x (fun h => hp h.symm) _ _
  · apply try2kw_none_of_strip
    rw [show str "secret" = 's' :: str "ecret" from rfl]
    exact stripLit_cons_ne 's' x (fun h => hs h.symm) _ _

theorem try3_head_ne (x : Char) (hx : x ≠ 'u') (v : Str) : try3 (x :: v) = none := by
  apply try3_none_of_strip
  rw [show str "username" = 'u' :: str "sername" from rfl]
  exact stripLit_cons_ne 'u' x (fun h => hx h.symm) _ _

theorem try4_head_ne (x : Char) (hx : x ≠ 's') (v : Str) : try4 (x :: v) = none := by
  apply try4_none_of_strip
  rw [show str "snmp-server community" = 's' :: str "nmp-server community" from rfl]
  exact stripLit_cons_ne 's' x (fun h => hx h.symm) _ _

theorem factPW_EP : ∀ k ∈ PWkw.tails, k = [] ∨
    (litPre k EPkw = false ∧ litPre EPkw k = false) := by decide

theorem factSEC_EP : ∀ k ∈ SECkw.tails, k = [] ∨
    (litPre k EPkw = false ∧ litPre EPkw k = false) := by decide

theorem factUN_EP : ∀ k ∈ UNkw.tails, k = [] ∨ litPre k EPkw = true ∨
    (litPre k EPkw = false ∧ litPre EPkw k = false) := by decide

theorem stripLit_append_left (a l x : Str) :
    stripLit (a ++ l) (a ++ x) = stripLit l x := by
  induction a with
  | nil => rfl
  | cons c a' ih =>
    show (if c = c then stripLit (a' ++ l) (a' ++ x) else none) = _
    rw [if_pos rfl]
    exact ih

theorem stripLit_none_of_partial (L a X : Str)
    (hpre : litPre a L = true) (hne : a ≠ L)
    (hXhead : ∀ c t, X = c :: t → pyWS c = true)
    (hLnonws : L.all (fun c => !pyWS c) = true) :
    stripLit L (a ++ X) = none := by
  obtain ⟨t, ht⟩ := (litPre_iff a L).1 hpre
  subst ht
  rw [stripLit_append_left a t X]
  cases t with
  | nil =>
    exfalso
    apply hne
    simp
  | cons c' t' =>
    cases X with
    | nil => rfl
    | cons x xs =>
      have hx : pyWS x = true := hXhead x xs rfl
      have hc' : pyWS c' = false := by
        rw [List.all_append] at hLnonws
        simp only [Bool.and_eq_true, List.all_cons, Bool.not_eq_true'] at hLnonws
        exact hLnonws.2.1
      exact stripLit_cons_ne c' x (ws_ne x hx c' hc').symm t' xs

theorem factSN_EP : ∀ k ∈ SNkw.tails, k = [] ∨
    (litPre k EPkw = false ∧ litPre EPkw k = false) := by decide

theorem factUN_PW : ∀ k ∈ UNkw.tails, k = [] ∨
    (litPre k PWkw = false ∧ litPre PWkw k = false) := by decide

theorem factUN_SEC : ∀ k ∈ UNkw.tails, k = [] ∨
    (litPre k SECkw = false ∧ litPre SECkw k = false) := by decide

theorem factSN_PW : ∀ k ∈ SNkw.tails, k = [] ∨
    (litPre k PWkw = false ∧ litPre PWkw k = false) := by decide

theorem factSN_SEC : ∀ k ∈ SNkw.tails, k = [] ∨
    (litPre k SECkw = false ∧ litPre SECkw k = false) := by decide

theorem factSN_UN : ∀ k ∈ SNkw.tails, k = [] ∨
    (litPre k UNkw = false ∧ litPre UNkw k = false) := by decide

theorem id1_match (w1 Q : Str) (hw1 : w1 ≠ []) (haw1 : w1.all pyWS = true) :
    try1 ((EPkw ++ (w1 ++ ('"' :: (stars8 ++ ['"'])))) ++ Q) =
      some ((EPkw ++ (w1 ++ ('"' :: (stars8 ++ ['"'])))).length,
        EPkw ++ (w1 ++ ('"' :: (stars8 ++ ['"'])))) := by
  apply (try1_eq_some_iff _ _ _).2
  refine ⟨w1, stars8, Q, ?_, hw1, haw1, by decide, by decide, ?_, ?_⟩
  · simp [EPkw, List.append_assoc]
  · have hEP : (str "encrypted-password").length = 18 := by decide
    have hst : stars8.length = 8 := by decide
    simp only [EPkw, List.length_append, List.length_cons, List.length_nil]
    omega
  · rw [show str "\"********\"" = '"' :: (stars8 ++ ['"']) from by decide]
    simp [EPkw, List.append_assoc]

theorem id2kw_match (kw : Str) (d : Char) (hd : d.isDigit = true)
    (Q : Str) (hQ : headWsOrNil Q) :
    try2kw kw ((kw ++ ' ' :: d :: ' ' :: stars8) ++ Q) =
      some (kw.length + [' '].length + 1 + [' '].length + stars8.length,
        kw ++ str " " ++ (d :: str " ") ++ stars8) := by
  apply (try2kw_eq_some_iff _ _ _ _).2
  refine ⟨[' '], d, [' '], stars8, Q, ?_, by decide, by decide, hd, by decide, by decide,
    by decide, by decide, hQ, rfl, rfl⟩
  simp

theorem id2_match (K : Str) (hK : K = PWkw ∨ K = SECkw) (d : Char) (hd : d.isDigit = true)
    (Q : Str) (hQ : headWsOrNil Q) :
    try2 ((K ++ ' ' :: d :: ' ' :: stars8) ++ Q) =
      some ((K ++ ' ' :: d :: ' ' :: stars8).length, K ++ ' ' :: d :: ' ' :: stars8) := by
  have hshape : ∀ KK : Str, (KK ++ ' ' :: d :: ' ' :: stars8).length =
      KK.length + [' '].length + 1 + [' '].length + stars8.length := by
    intro KK
    simp only [List.length_append, List.length_cons, List.length_nil]
    have : stars8.length = 8 := by decide
    omega
  have hr : ∀ KK : Str, KK ++ str " " ++ (d :: str " ") ++ stars8 =
      KK ++ ' ' :: d :: ' ' :: stars8 := by
    intro KK
    rw [show str " " = [' '] from rfl]
    simp [List.append_assoc]
  rcases hK with rfl | rfl
  · unfold try2
    have h2 := id2kw_match (str "password") d hd Q hQ
    rw [show PWkw = str "password" from rfl] at *
    rw [h2]
    rw [hshape, hr]
  · unfold try2
    have h1 : try2kw (str "password") ((SECkw ++ ' ' :: d :: ' ' :: stars8) ++ Q) =
        none := by
      apply try2kw_none_of_strip
      rw [show (SECkw ++ ' ' :: d :: ' ' :: stars8) ++ Q =
          SECkw ++ ((' ' :: d :: ' ' :: stars8) ++ Q) from by simp]
      exact stripLit_append_none _ SECkw _ (by decide) (by decide)
    have h2 := id2kw_match (str "secret") d hd Q hQ
    rw [show SECkw = str "secret" from rfl] at *
    rw [h1, h2]
    rw [hshape, hr]

theorem id3_match (w1 t1 w2 Q : Str)
    (hw1 : w1 ≠ []) (haw1 : w1.all pyWS = true)
    (ht1 : t1 ≠ []) (hat1 : t1.all (fun c => !pyWS c) = true)
    (hw2 : w2 ≠ []) (haw2 : w2.all pyWS = true) (hQ : headWsOrNil Q) :
    try3 ((UNkw ++ w1 ++ t1 ++ w2 ++ (SECkw ++ ' ' :: '5' :: ' ' :: stars8)) ++ Q) =
      some ((UNkw ++ w1 ++ t1 ++ w2 ++ (SECkw ++ ' ' :: '5' :: ' ' :: stars8)).length,
        UNkw ++ w1 ++ t1 ++ w2 ++ (SECkw ++ ' ' :: '5' :: ' ' :: stars8)) := by
  apply (try3_eq_some_iff _ _ _).2
  refine ⟨w1, t1, w2, [' '], '5', [' '], stars8, Q, ?_, hw1, haw1, ht1, hat1, hw2, haw2,
    by decide, by decide, by decide, by decide, by decide, by decide, by decide, hQ,
    ?_, ?_⟩
  · rw [show str "secret" = SECkw from rfl, show str "username" = UNkw from rfl]
    simp [List.append_assoc]
  · have hUN : (str "username").length = 8 := by decide
    have hSEC : (str "secret").length = 6 := by decide
    have hst : stars8.length = 8 := by decide
    simp only [UNkw, SECkw, List.length_append, List.length_cons, List.length_nil]
    omega
  · simp only [List.append_assoc]
    rw [show str "username" = UNkw from rfl]
    rw [show str "secret 5 " ++ stars8 = SECkw ++ ' ' :: '5' :: ' ' :: stars8 from by decide]

theorem id4_match (Q : Str) (hQ : headWsOrNil Q) :
    try4 ((SNkw ++ ' ' :: stars8) ++ Q) =
      some ((SNkw ++ ' ' :: stars8).length, SNkw ++ ' ' :: stars8) := by
  apply (try4_eq_some_iff _ _ _).2
  refine ⟨[' '], stars8, Q, ?_, by decide, by decide, by decide, by decide, hQ, ?_, ?_⟩
  · rw [show str "snmp-server community" = SNkw from rfl]
    simp
  · have hSN : (str "snmp-server community").length = 21 := by decide
    have hst : stars8.length = 8 := by decide
    simp only [SNkw, List.length_append, List.length_cons, List.length_nil]
    omega
  · rw [show str "snmp-server community " ++ stars8 = SNkw ++ ' ' :: stars8 from by decide]

theorem try1_ws_none (c : Char) (v : Str) (hc : pyWS c = true) : try1 (c :: v) = none :=
  try1_head_ne c (ws_ne c hc 'e' (by decide)) v

theorem try2_ws_none (c : Char) (v : Str) (hc : pyWS c = true) : try2 (c :: v) = none :=
  try2_head_ne c (ws_ne c hc 'p' (by decide)) (ws_ne c hc 's' (by decide)) v

theorem try3_ws_none (c : Char) (v : Str) (hc : pyWS c = true) : try3 (c :: v) = none :=
  try3_head_ne c (ws_ne c hc 'u' (by decide)) v

theorem try4_ws_none (c : Char) (v : Str) (hc : pyWS c = true) : try4 (c :: v) = none :=
  try4_head_ne c (ws_ne c hc 's' (by decide)) v

theorem headWs_subLoopF (t : Str → Option (Nat × Str))
    (hws : ∀ c v, pyWS c = true → t (c :: v) = none)
    (s : Str) (hs : headWsOrNil s) (f : Nat) : headWsOrNil (subLoopF t f s) := by
  cases s with
  | nil =>
    cases f with
    | zero => exact trivial
    | succ f' => exact trivial
  | cons c rest =>
    have hc : pyWS c = true := hs
    cases f with
    | zero => exact hs
    | succ f' =>
      rw [show subLoopF t (f' + 1) (c :: rest) = c :: subLoopF t f' rest from by
        simp only [subLoopF, hws c rest hc]]
      exact hc

theorem subLoopF_copy (t : Str → Option (Nat × Str)) (T : Str) :
    ∀ (I : Str), (∀ u, u <:+ I → u ≠ [] → t (u ++ T) = none) →
    ∀ f, I.length ≤ f → subLoopF t f (I ++ T) = I ++ subLoopF t (f - I.length) T := by
  intro I
  induction I with
  | nil =>
    intro _ f _
    simp
  | cons c I' ih =>
    intro hnone f hf
    cases f with
    | zero =>
      exfalso
      simp only [List.length_cons] at hf
      omega
    | succ f' =>
      have hm : t ((c :: I') ++ T) = none :=
        hnone (c :: I') (List.suffix_refl _) (List.cons_ne_nil _ _)
      rw [List.cons_append] at hm
      rw [List.cons_append]
      rw [show subLoopF t (f' + 1) (c :: (I' ++ T)) = c :: subLoopF t f' (I' ++ T) from by
        simp only [subLoopF, hm]]
      rw [ih (fun u hu hune => hnone u (hu.trans (List.suffix_cons c I')) hune) f'
        (by simp only [List.length_cons] at hf; omega)]
      have harith : f' + 1 - (c :: I').length = f' - I'.length := by
        simp only [List.length_cons]
        omega
      rw [harith]
      rfl

theorem lit_region_none (L a X : Str)
    (hfact : a = L ∨ litPre a L = true ∨ (litPre a L = false ∧ litPre L a = false))
    (hne_full : a ≠ L)
    (hLnonws : L.all (fun c => !pyWS c) = true)
    (hXhead : ∀ c t, X = c :: t → pyWS c = true) :
    stripLit L (a ++ X) = none := by
  rcases hfact with rfl | hpre | ⟨h1, h2⟩
  · exact absurd rfl hne_full
  · exact stripLit_none_of_partial L a X hpre hne_full hXhead hLnonws
  · exact stripLit_append_none L a X h2 h1

theorem lit_region_none2 (L a X : Str)
    (hfact : a = L ∨ (litPre a L = false ∧ litPre L a = false))
    (hne_full : a ≠ L) :
    stripLit L (a ++ X) = none := by
  rcases hfact with rfl | ⟨h1, h2⟩
  · exact absurd rfl hne_full
  · exact stripLit_append_none L a X h2 h1

theorem stars_suffix_head (u : Str) (hu : u <:+ stars8) (hne : u ≠ []) :
    ∃ t, u = '*' :: t := by
  cases u with
  | nil => exact absurd rfl hne
  | cons x t =>
    have hall := all_of_suffix (fun c => decide (c = '*')) _ _ hu (by decide)
    simp only [List.all_cons, Bool.and_eq_true, decide_eq_true_eq] at hall
    exact ⟨t, by rw [hall.1]⟩

theorem t1_region_try1 (ut w2 Q : Str) (hut : ut.all (fun c => !pyWS c) = true)
    (hw2 : w2 ≠ []) (haw2 : w2.all pyWS = true) :
    try1 (ut ++ (w2 ++ ((SECkw ++ ' ' :: '5' :: ' ' :: stars8) ++ Q))) = none := by
  unfold try1
  cases hstrip : stripLit (str "encrypted-password")
      (ut ++ (w2 ++ ((SECkw ++ ' ' :: '5' :: ' ' :: stars8) ++ Q))) with
  | none => rfl
  | some v1 =>
    simp only []
    have heq := (stripLit_eq_some_iff _ _ _).1 hstrip
    obtain ⟨ut', hut_eq, hv1⟩ := append_eq_lit_split ut _ (str "encrypted-password") v1
      (by decide) (ws_head_true w2 _ hw2 haw2) heq
    subst hv1
    cases ut' with
    | cons y t' =>
      have hy : pyWS y = false := by
        rw [hut_eq, List.all_append] at hut
        simp only [Bool.and_eq_true, List.all_cons, Bool.not_eq_true'] at hut
        exact hut.2.1
      rw [show wsTake ((y :: t') ++ (w2 ++ ((SECkw ++ ' ' :: '5' :: ' ' :: stars8) ++ Q)))
          = [] from by rw [List.cons_append]; exact takeWhile_cons_false pyWS y _ hy]
      rw [if_pos rfl]
    | nil =>
      rw [List.nil_append]
      have hsh : ∀ c t, (SECkw ++ ' ' :: '5' :: ' ' :: stars8) ++ Q = c :: t →
          pyWS c = false := by
        intro c t h
        rw [show SECkw = 's' :: str "ecret" from rfl] at h
        simp only [List.cons_append] at h
        injection h with h1 h2
        subst h1
        decide
      have hwt : wsTake (w2 ++ ((SECkw ++ ' ' :: '5' :: ' ' :: stars8) ++ Q)) = w2 :=
        takeWhile_append_of_all pyWS w2 _ haw2 hsh
      have hwd : wsDrop (w2 ++ ((SECkw ++ ' ' :: '5' :: ' ' :: stars8) ++ Q)) =
          (SECkw ++ ' ' :: '5' :: ' ' :: stars8) ++ Q :=
        dropWhile_append_of_all pyWS w2 _ haw2 hsh
      rw [hwt, hwd, if_neg hw2]
      rw [show (SECkw ++ ' ' :: '5' :: ' ' :: stars8) ++ Q =
          's' :: ((str "ecret" ++ ' ' :: '5' :: ' ' :: stars8) ++ Q) from by
            rw [show SECkw = 's' :: str "ecret" from rfl]; simp]
      split
      · rename_i s2 heq2
        injection heq2 with hc2 _
        exact absurd hc2.symm (by decide)
      · rfl

theorem t1_region_try2 (ut w2 Q : Str) (hut : ut.all (fun c => !pyWS c) = true)
    (hw2 : w2 ≠ []) (haw2 : w2.all pyWS = true) :
    try2 (ut ++ (w2 ++ ((SECkw ++ ' ' :: '5' :: ' ' :: stars8) ++ Q))) = none := by
  have hsh : ∀ c t, (SECkw ++ ' ' :: '5' :: ' ' :: stars8) ++ Q = c :: t →
      pyWS c = false := by
    intro c t h
    rw [show SECkw = 's' :: str "ecret" from rfl] at h
    simp only [List.cons_append] at h
    injection h with h1 h2
    subst h1
    decide
  have hmain : ∀ kw : Str, kw.all (fun c => !pyWS c) = true →
      try2kw kw (ut ++ (w2 ++ ((SECkw ++ ' ' :: '5' :: ' ' :: stars8) ++ Q))) = none := by
    intro kw hkw
    unfold try2kw
    cases hstrip : stripLit kw
        (ut ++ (w2 ++ ((SECkw ++ ' ' :: '5' :: ' ' :: stars8) ++ Q))) with
    | none => rfl
    | some v1 =>
      simp only []
      have heq := (stripLit_eq_some_iff _ _ _).1 hstrip
      obtain ⟨ut', hut_eq, hv1⟩ := append_eq_lit_split ut _ kw v1
        hkw (ws_head_true w2 _ hw2 haw2) heq
      subst hv1
      cases ut' with
      | cons y t' =>
        have hy : pyWS y = false := by
          rw [hut_eq, List.all_append] at hut
          simp only [Bool.and_eq_true, List.all_cons, Bool.not_eq_true'] at hut
          exact hut.2.1
        rw [show wsTake ((y :: t') ++ (w2 ++ ((SECkw ++ ' ' :: '5' :: ' ' :: stars8) ++ Q)))
            = [] from by rw [List.cons_append]; exact takeWhile_cons_false pyWS y _ hy]
        rw [if_pos rfl]
      | nil =>
        rw [List.nil_append]
        have hwt : wsTake (w2 ++ ((SECkw ++ ' ' :: '5' :: ' ' :: stars8) ++ Q)) = w2 :=
          takeWhile_append_of_all pyWS w2 _ haw2 hsh
        have hwd : wsDrop (w2 ++ ((SECkw ++ ' ' :: '5' :: ' ' :: stars8) ++ Q)) =
            (SECkw ++ ' ' :: '5' :: ' ' :: stars8) ++ Q :=
          dropWhile_append_of_all pyWS w2 _ haw2 hsh
        rw [hwt, hwd, if_neg hw2]
        rw [show (SECkw ++ ' ' :: '5' :: ' ' :: stars8) ++ Q =
            's' :: ((str "ecret" ++ ' ' :: '5' :: ' ' :: stars8) ++ Q) from by
              rw [show SECkw = 's' :: str "ecret" from rfl]; simp]
        simp only []
        rw [if_neg (by decide : ¬('s'.isDigit = true))]
  apply try2_none_of_both
  · exact hmain (str "password") (by decide)
  · exact hmain (str "secret") (by decide)

theorem t1_region_try3 (ut w2 Q : Str) (hut : ut.all (fun c => !pyWS c) = true)
    (hw2 : w2 ≠ []) (haw2 : w2.all pyWS = true) :
    try3 (ut ++ (w2 ++ ((SECkw ++ ' ' :: '5' :: ' ' :: stars8) ++ Q))) = none := by
  have hsh : ∀ c t, (SECkw ++ ' ' :: '5' :: ' ' :: stars8) ++ Q = c :: t →
      pyWS c = false := by
    intro c t h
    rw [show SECkw = 's' :: str "ecret" from rfl] at h
    simp only [List.cons_append] at h
    injection h with h1 h2
    subst h1
    decide
  unfold try3
  cases hstrip : stripLit (str "username")
      (ut ++ (w2 ++ ((SECkw ++ ' ' :: '5' :: ' ' :: stars8) ++ Q))) with
  | none => rfl
  | some v1 =>
    simp only []
    have heq := (stripLit_eq_some_iff _ _ _).1 hstrip
    obtain ⟨ut', hut_eq, hv1⟩ := append_eq_lit_split ut _ (str "username") v1
      (by decide) (ws_head_true w2 _ hw2 haw2) heq
    subst hv1
    cases ut' with
    | cons y t' =>
      have hy : pyWS y = false := by
        rw [hut_eq, List.all_append] at hut
        simp only [Bool.and_eq_true, List.all_cons, Bool.not_eq_true'] at hut
        exact hut.2.1
      rw [show wsTake ((y :: t') ++ (w2 ++ ((SECkw ++ ' ' :: '5' :: ' ' :: stars8) ++ Q)))
          = [] from by rw [List.cons_append]; exact takeWhile_cons_false pyWS y _ hy]
      rw [if_pos rfl]
    | nil =>
      rw [List.nil_append]
      have hwt : wsTake (w2 ++ ((SECkw ++ ' ' :: '5' :: ' ' :: stars8) ++ Q)) = w2 :=
        takeWhile_append_of_all pyWS w2 _ haw2 hsh
      have hwd : wsDrop (w2 ++ ((SECkw ++ ' ' :: '5' :: ' ' :: stars8) ++ Q)) =
          (SECkw ++ ' ' :: '5' :: ' ' :: stars8) ++ Q :=
        dropWhile_append_of_all pyWS w2 _ haw2 hsh
      rw [hwt, hwd, if_neg hw2]
      have htt : tokTake ((SECkw ++ ' ' :: '5' :: ' ' :: stars8) ++ Q) = SECkw := by
        rw [show (SECkw ++ ' ' :: '5' :: ' ' :: stars8) ++ Q =
            SECkw ++ ((' ' :: '5' :: ' ' :: stars8) ++ Q) from by simp]
        exact takeWhile_append_of_all _ SECkw _ (by decide)
          (by intro c t h; simp only [List.cons_append] at h; injection h with h1 _;
              subst h1; decide)
      have htd : tokDrop ((SECkw ++ ' ' :: '5' :: ' ' :: stars8) ++ Q) =
          (' ' :: '5' :: ' ' :: stars8) ++ Q := by
        rw [show (SECkw ++ ' ' :: '5' :: ' ' :: stars8) ++ Q =
            SECkw ++ ((' ' :: '5' :: ' ' :: stars8) ++ Q) from by simp]
        exact dropWhile_append_of_all _ SECkw _ (by decide)
          (by intro c t h; simp only [List.cons_append] at h; injection h with h1 _;
              subst h1; decide)
      rw [htt, htd, if_neg (by decide : ¬(SECkw = []))]
      rw [show (' ' :: '5' :: ' ' :: stars8) ++ Q =
          ' ' :: ('5' :: ((' ' :: stars8) ++ Q)) from by simp]
      rw [show wsTake (' ' :: ('5' :: ((' ' :: stars8) ++ Q))) = [' '] from by
        show List.takeWhile pyWS _ = [' ']
        rw [List.takeWhile_cons_of_pos (by decide)]
        rw [takeWhile_cons_false pyWS '5' _ (by decide)]]
      rw [show wsDrop (' ' :: ('5' :: ((' ' :: stars8) ++ Q))) =
          '5' :: ((' ' :: stars8) ++ Q) from by
        show List.dropWhile pyWS _ = _
        rw [List.dropWhile_cons_of_pos (by decide)]
        exact dropWhile_cons_false pyWS '5' _ (by decide)]
      rw [if_neg (by decide : ¬(([' '] : Str) = []))]
      rw [show stripLit (str "secret") ('5' :: ((' ' :: stars8) ++ Q)) = none from by
        rw [show str "secret" = 's' :: str "ecret" from rfl]
        exact stripLit_cons_ne 's' '5' (by decide) _ _]

theorem t1_region_try4 (ut w2 Q : Str) (hut : ut.all (fun c => !pyWS c) = true)
    (hw2 : w2 ≠ []) (haw2 : w2.all pyWS = true) :
    try4 (ut ++ (w2 ++ ((SECkw ++ ' ' :: '5' :: ' ' :: stars8) ++ Q))) = none := by
  apply try4_none_of_strip
  cases hstrip : stripLit (str "snmp-server community")
      (ut ++ (w2 ++ ((SECkw ++ ' ' :: '5' :: ' ' :: stars8) ++ Q))) with
  | none => rfl
  | some v =>
    exfalso
    have heq := (stripLit_eq_some_iff _ _ _).1 hstrip
    rw [show str "snmp-server community" =
        str "snmp-server" ++ (' ' :: str "community") from rfl] at heq
    rw [List.append_assoc] at heq
    obtain ⟨ut', hut_eq, hv1⟩ := append_eq_lit_split ut _ (str "snmp-server")
      ((' ' :: str "community") ++ v) (by decide) (ws_head_true w2 _ hw2 haw2) heq
    cases ut' with
    | cons y t' =>
      have hy : pyWS y = false := by
        rw [hut_eq, List.all_append] at hut
        simp only [Bool.and_eq_true, List.all_cons, Bool.not_eq_true'] at hut
        exact hut.2.1
      rw [List.cons_append] at hv1
      have : (' ' : Char) = y := by
        have := hv1
        simp only [List.cons_append] at this
        injection this with h1 _
      rw [← this] at hy
      exact Bool.noConfusion hy
    | nil =>
      rw [List.nil_append] at hv1
      simp only [List.cons_append] at hv1
      cases w2 with
      | nil => exact absurd rfl hw2
      | cons x w2' =>
        rw [List.cons_append] at hv1
        injection hv1 with h1 h2
        cases w2' with
        | cons x2 w2'' =>
          rw [List.cons_append] at h2
          injection h2 with h3 _
          have hx2 : pyWS x2 = true := by
            simp only [List.all_cons, Bool.and_eq_true] at haw2
            exact haw2.2.1
          rw [← h3] at hx2
          exact absurd hx2 (by decide)
        | nil =>
          rw [List.nil_append] at h2
          rw [show str "community" = 'c' :: str "ommunity" from rfl] at h2
          rw [show SECkw = 's' :: str "ecret" from rfl] at h2
          simp only [List.cons_append] at h2
          injection h2 with h3 _
          exact absurd h3 (by decide)

theorem head_ws_of_suffix (uw w1 : Str) (hne : uw ≠ []) (hsuf : uw <:+ w1)
    (haw : w1.all pyWS = true) : ∃ y t, uw = y :: t ∧ pyWS y = true := by
  cases uw with
  | nil => exact absurd rfl hne
  | cons y t =>
    have hall := all_of_suffix pyWS _ w1 hsuf haw
    simp only [List.all_cons, Bool.and_eq_true] at hall
    exact ⟨y, t, rfl, hall.1⟩

theorem x11_strict (w1 : Str) (hw1 : w1 ≠ []) (haw1 : w1.all pyWS = true)
    (u Q : Str) (hu : u <:+ EPkw ++ (w1 ++ ('"' :: (stars8 ++ ['"'])))) (hne : u ≠ [])
    (hstrict : u ≠ EPkw ++ (w1 ++ ('"' :: (stars8 ++ ['"'])))) :
    try1 (u ++ Q) = none := by
  rcases suffix_append_cases u EPkw _ hu with h | ⟨ue, hue_ne, hue_suf, rfl⟩
  · rcases suffix_append_cases u w1 _ h with h2 | ⟨uw, huw_ne, huw_suf, rfl⟩
    · rcases List.suffix_cons_iff.1 h2 with rfl | h3
      · rw [List.cons_append]
        exact try1_head_ne '"' (by decide) _
      · rcases suffix_append_cases u stars8 _ h3 with h4 | ⟨us, hus_ne, hus_suf, rfl⟩
        · rcases List.suffix_cons_iff.1 h4 with rfl | h5
          · show try1 ('"' :: Q) = none
            exact try1_head_ne '"' (by decide) Q
          · exact absurd (List.suffix_nil.1 h5) hne
        · obtain ⟨t, rfl⟩ := stars_suffix_head us hus_suf hus_ne
          simp only [List.cons_append]
          exact try1_head_ne '*' (by decide) _
    · obtain ⟨y, t, rfl, hy⟩ := head_ws_of_suffix _ w1 huw_ne huw_suf haw1
      simp only [List.cons_append]
      exact try1_ws_none y _ hy
  · have hfull : ue ≠ EPkw := fun heq => hstrict (by rw [heq])
    apply try1_none_of_strip
    rw [show (ue ++ (w1 ++ ('"' :: (stars8 ++ ['"'])))) ++ Q
        = ue ++ ((w1 ++ ('"' :: (stars8 ++ ['"']))) ++ Q) from by simp]
    apply lit_region_none2
    · rcases factEP_EP ue ((List.mem_tails ue EPkw).2 hue_suf) with h | h | h
      · exact absurd h hue_ne
      · exact Or.inl h
      · exact Or.inr h
    · exact hfull

theorem x22_strict (K : Str) (hK : K = PWkw ∨ K = SECkw) (d : Char)
    (hd : d.isDigit = true)
    (u Q : Str) (hu : u <:+ K ++ ' ' :: d :: ' ' :: stars8) (hne : u ≠ [])
    (hstrict : u ≠ K ++ ' ' :: d :: ' ' :: stars8) :
    try2 (u ++ Q) = none := by
  rcases suffix_append_cases u K _ hu with h | ⟨ue, hue_ne, hue_suf, rfl⟩
  · rcases List.suffix_cons_iff.1 h with rfl | h
    · rw [List.cons_append]
      exact try2_ws_none ' ' _ (by decide)
    rcases List.suffix_cons_iff.1 h with rfl | h
    · rw [List.cons_append]
      exact try2_head_ne d (digit_ne d hd 'p' (by decide)) (digit_ne d hd 's' (by decide)) _
    rcases List.suffix_cons_iff.1 h with rfl | h
    · rw [List.cons_append]
      exact try2_ws_none ' ' _ (by decide)
    · obtain ⟨t, rfl⟩ := stars_suffix_head u h hne
      rw [List.cons_append]
      exact try2_head_ne '*' (by decide) (by decide) _
  · have hfull : ue ≠ K := fun heq => hstrict (by rw [heq])
    have hXhead : ∀ c t, (' ' :: d :: ' ' :: stars8) ++ Q = c :: t → pyWS c = true := by
      intro c t h
      rw [List.cons_append] at h
      injection h with h1 _
      rw [← h1]
      decide
    apply try2_none_of_both
    · apply try2kw_none_of_strip
      rw [show (ue ++ (' ' :: d :: ' ' :: stars8)) ++ Q
          = ue ++ ((' ' :: d :: ' ' :: stars8) ++ Q) from by simp]
      apply lit_region_none2
      · rcases hK with rfl | rfl
        · rcases factPW_PW ue ((List.mem_tails ue PWkw).2 hue_suf) with h | h | h
          · exact absurd h hue_ne
          · exact Or.inl h
          · exact Or.inr h
        · rcases factSEC_PW ue ((List.mem_tails ue SECkw).2 hue_suf) with h | h
          · exact absurd h hue_ne
          · exact Or.inr h
      · rcases hK with rfl | rfl
        · exact hfull
        · intro heq
          rcases factSEC_PW ue ((List.mem_tails ue SECkw).2 hue_suf) with h | h
          · exact absurd h hue_ne
          · rw [heq] at h
            have h1 := h.1
            rw [show litPre (str "password") PWkw = true from by decide] at h1
            exact Bool.noConfusion h1
    · apply try2kw_none_of_strip
      rw [show (ue ++ (' ' :: d :: ' ' :: stars8)) ++ Q
          = ue ++ ((' ' :: d :: ' ' :: stars8) ++ Q) from by simp]
      apply lit_region_none2
      · rcases hK with rfl | rfl
        · rcases factPW_SEC ue ((List.mem_tails ue PWkw).2 hue_suf) with h | h
          · exact absurd h hue_ne
          · exact Or.inr h
        · rcases factSEC_SEC ue ((List.mem_tails ue SECkw).2 hue_suf) with h | h | h
          · exact absurd h hue_ne
          · exact Or.inl h
          · exact Or.inr h
      · rcases hK with rfl | rfl
        · intro heq
          rcases factPW_SEC ue ((List.mem_tails ue PWkw).2 hue_suf) with h | h
          · exact absurd h hue_ne
          · rw [heq] at h
            have h1 := h.1
            rw [show litPre (str "secret") SECkw = true from by decide] at h1
            exact Bool.noConfusion h1
        · exact hfull

theorem x44_strict (u Q : Str) (hu : u <:+ SNkw ++ ' ' :: stars8) (hne : u ≠ [])
    (hstrict : u ≠ SNkw ++ ' ' :: stars8) :
    try4 (u ++ Q) = none := by
  rcases suffix_append_cases u SNkw _ hu with h | ⟨ue, hue_ne, hue_suf, rfl⟩
  · rcases List.suffix_cons_iff.1 h with rfl | h
    · rw [List.cons_append]
      exact try4_ws_none ' ' _ (by decide)
    · obtain ⟨t, rfl⟩ := stars_suffix_head u h hne
      rw [List.cons_append]
      exact try4_head_ne '*' (by decide) _
  · have hfull : ue ≠ SNkw := fun heq => hstrict (by rw [heq])
    apply try4_none_of_strip
    rw [show (ue ++ (' ' :: stars8)) ++ Q = ue ++ ((' ' :: stars8) ++ Q) from by simp]
    apply lit_region_none2
    · rcases factSN_SN ue ((List.mem_tails ue SNkw).2 hue_suf) with h | h | h
      · exact absurd h hue_ne
      · exact Or.inl h
      · exact Or.inr h
    · exact hfull

theorem x33_strict (w1 t1 w2 : Str) (hw1 : w1 ≠ []) (haw1 : w1.all pyWS = true)
    (ht1 : t1 ≠ []) (hat1 : t1.all (fun c => !pyWS c) = true)
    (hw2 : w2 ≠ []) (haw2 : w2.all pyWS = true)
    (u Q : Str)
    (hu : u <:+ UNkw ++ (w1 ++ (t1 ++ (w2 ++ (SECkw ++ ' ' :: '5' :: ' ' :: stars8)))))
    (hne : u ≠ [])
    (hstrict : u ≠ UNkw ++ (w1 ++ (t1 ++ (w2 ++ (SECkw ++ ' ' :: '5' :: ' ' :: stars8))))) :
    try3 (u ++ Q) = none := by
  rcases suffix_append_cases u UNkw _ hu with h | ⟨ue, hue_ne, hue_suf, rfl⟩
  · rcases suffix_append_cases u w1 _ h with h2 | ⟨uw, huw_ne, huw_suf, rfl⟩
    · rcases suffix_append_cases u t1 _ h2 with h3 | ⟨ut, hut_ne, hut_suf, rfl⟩
      · rcases suffix_append_cases u w2 _ h3 with h4 | ⟨uw2, huw2_ne, huw2_suf, rfl⟩
        · rcases suffix_append_cases u SECkw _ h4 with h5 | ⟨us, hus_ne, hus_suf, rfl⟩
          · rcases List.suffix_cons_iff.1 h5 with rfl | h6
            · rw [List.cons_append]
              exact try3_ws_none ' ' _ (by decide)
            rcases List.suffix_cons_iff.1 h6 with rfl | h6
            · rw [List.cons_append]
              exact try3_head_ne '5' (by decide) _
            rcases List.suffix_cons_iff.1 h6 with rfl | h6
            · rw [List.cons_append]
              exact try3_ws_none ' ' _ (by decide)
            · obtain ⟨t, rfl⟩ := stars_suffix_head u h6 hne
              rw [List.cons_append]
              exact try3_head_ne '*' (by decide) _
          · apply try3_none_of_strip
            rw [show (us ++ (' ' :: '5' :: ' ' :: stars8)) ++ Q
                = us ++ ((' ' :: '5' :: ' ' :: stars8) ++ Q) from by simp]
            apply lit_region_none2
            · rcases factSEC_UN us ((List.mem_tails us SECkw).2 hus_suf) with h | h
              · exact absurd h hus_ne
              · exact Or.inr h
            · intro heq
              rcases factSEC_UN us ((List.mem_tails us SECkw).2 hus_suf) with h | h
              · exact absurd h hus_ne
              · rw [heq] at h
                have h1 := h.1
                rw [show litPre (str "username") UNkw = true from by decide] at h1
                exact Bool.noConfusion h1
        · obtain ⟨y, t, rfl, hy⟩ := head_ws_of_suffix _ w2 huw2_ne huw2_suf haw2
          simp only [List.cons_append]
          exact try3_ws_none y _ hy
      · rw [show (ut ++ (w2 ++ (SECkw ++ ' ' :: '5' :: ' ' :: stars8))) ++ Q
            = ut ++ (w2 ++ ((SECkw ++ ' ' :: '5' :: ' ' :: stars8) ++ Q)) from by simp]
        exact t1_region_try3 ut w2 Q
          (all_of_suffix (fun c => !pyWS c) ut t1 hut_suf hat1) hw2 haw2
    · obtain ⟨y, t, rfl, hy⟩ := head_ws_of_suffix _ w1 huw_ne huw_suf haw1
      simp only [List.cons_append]
      exact try3_ws_none y _ hy
  · have hfull : ue ≠ UNkw := fun heq => hstrict (by rw [heq])
    apply try3_none_of_strip
    rw [show (ue ++ (w1 ++ (t1 ++ (w2 ++ (SECkw ++ ' ' :: '5' :: ' ' :: stars8))))) ++ Q
        = ue ++ ((w1 ++ (t1 ++ (w2 ++ (SECkw ++ ' ' :: '5' :: ' ' :: stars8)))) ++ Q)
        from by simp]
    apply lit_region_none2
    · rcases factUN_UN ue ((List.mem_tails ue UNkw).2 hue_suf) with h | h | h
      · exact absurd h hue_ne
      · exact Or.inl h
      · exact Or.inr h
    · exact hfull

theorem ne_of_mm (a L : Str) (hLL : litPre L L = true) (h : litPre a L = false) :
    a ≠ L := by
  intro heq
  rw [heq, hLL] at h
  exact Bool.noConfusion h

theorem x12_none (K : Str) (hK : K = PWkw ∨ K = SECkw) (d : Char) (hd : d.isDigit = true)
    (u Q : Str) (hu : u <:+ K ++ ' ' :: d :: ' ' :: stars8) (hne : u ≠ []) :
    try1 (u ++ Q) = none := by
  rcases suffix_append_cases u K _ hu with h | ⟨ue, hue_ne, hue_suf, rfl⟩
  · rcases List.suffix_cons_iff.1 h with rfl | h
    · rw [List.cons_append]
      exact try1_ws_none ' ' _ (by decide)
    rcases List.suffix_cons_iff.1 h with rfl | h
    · rw [List.cons_append]
      exact try1_head_ne d (digit_ne d hd 'e' (by decide)) _
    rcases List.suffix_cons_iff.1 h with rfl | h
    · rw [List.cons_append]
      exact try1_ws_none ' ' _ (by decide)
    · obtain ⟨t, rfl⟩ := stars_suffix_head u h hne
      rw [List.cons_append]
      exact try1_head_ne '*' (by decide) _
  · apply try1_none_of_strip
    rw [show (ue ++ (' ' :: d :: ' ' :: stars8)) ++ Q
        = ue ++ ((' ' :: d :: ' ' :: stars8) ++ Q) from by simp]
    apply lit_region_none2
    · rcases hK with rfl | rfl
      · rcases factPW_EP ue ((List.mem_tails ue PWkw).2 hue_suf) with h | h
        · exact absurd h hue_ne
        · exact Or.inr h
      · rcases factSEC_EP ue ((List.mem_tails ue SECkw).2 hue_suf) with h | h
        · exact absurd h hue_ne
        · exact Or.inr h
    · rcases hK with rfl | rfl
      · rcases factPW_EP ue ((List.mem_tails ue PWkw).2 hue_suf) with h | h
        · exact absurd h hue_ne
        · exact ne_of_mm ue (str "encrypted-password") (by decide) h.1
      · rcases factSEC_EP ue ((List.mem_tails ue SECkw).2 hue_suf) with h | h
        · exact absurd h hue_ne
        · exact ne_of_mm ue (str "encrypted-password") (by decide) h.1

theorem x13_none (w1 t1 w2 : Str) (hw1 : w1 ≠ []) (haw1 : w1.all pyWS = true)
    (hat1 : t1.all (fun c => !pyWS c) = true)
    (hw2 : w2 ≠ []) (haw2 : w2.all pyWS = true)
    (u Q : Str)
    (hu : u <:+ UNkw ++ (w1 ++ (t1 ++ (w2 ++ (SECkw ++ ' ' :: '5' :: ' ' :: stars8)))))
    (hne : u ≠ []) :
    try1 (u ++ Q) = none := by
  rcases suffix_append_cases u UNkw _ hu with h | ⟨ue, hue_ne, hue_suf, rfl⟩
  · rcases suffix_append_cases u w1 _ h with h2 | ⟨uw, huw_ne, huw_suf, rfl⟩
    · rcases suffix_append_cases u t1 _ h2 with h3 | ⟨ut, hut_ne, hut_suf, rfl⟩
      · rcases suffix_append_cases u w2 _ h3 with h4 | ⟨uw2, huw2_ne, huw2_suf, rfl⟩
        · rcases suffix_append_cases u SECkw _ h4 with h5 | ⟨us, hus_ne, hus_suf, rfl⟩
          · rcases List.suffix_cons_iff.1 h5 with rfl | h6
            · rw [List.cons_append]
              exact try1_ws_none ' ' _ (by decide)
            rcases List.suffix_cons_iff.1 h6 with rfl | h6
            · rw [List.cons_append]
              exact try1_head_ne '5' (by decide) _
            rcases List.suffix_cons_iff.1 h6 with rfl | h6
            · rw [List.cons_append]
              exact try1_ws_none ' ' _ (by decide)
            · obtain ⟨t, rfl⟩ := stars_suffix_head u h6 hne
              rw [List.cons_append]
              exact try1_head_ne '*' (by decide) _
          · apply try1_none_of_strip
            rw [show (us ++ (' ' :: '5' :: ' ' :: stars8)) ++ Q
                = us ++ ((' ' :: '5' :: ' ' :: stars8) ++ Q) from by simp]
            apply lit_region_none2
            · rcases factSEC_EP us ((List.mem_tails us SECkw).2 hus_suf) with h | h
              · exact absurd h hus_ne
              · exact Or.inr h
            · rcases factSEC_EP us ((List.mem_tails us SECkw).2 hus_suf) with h | h
              · exact absurd h hus_ne
              · exact ne_of_mm us (str "encrypted-password") (by decide) h.1
        · obtain ⟨y, t, rfl, hy⟩ := head_ws_of_suffix _ w2 huw2_ne huw2_suf haw2
          simp only [List.cons_append]
          exact try1_ws_none y _ hy
      · rw [show (ut ++ (w2 ++ (SECkw ++ ' ' :: '5' :: ' ' :: stars8))) ++ Q
            = ut ++ (w2 ++ ((SECkw ++ ' ' :: '5' :: ' ' :: stars8) ++ Q)) from by simp]
        exact t1_region_try1 ut w2 Q
          (all_of_suffix (fun c => !pyWS c) ut t1 hut_suf hat1) hw2 haw2
    · obtain ⟨y, t, rfl, hy⟩ := head_ws_of_suffix _ w1 huw_ne huw_suf haw1
      simp only [List.cons_append]
      exact try1_ws_none y _ hy
  · apply try1_none_of_strip
    rw [show (ue ++ (w1 ++ (t1 ++ (w2 ++ (SECkw ++ ' ' :: '5' :: ' ' :: stars8))))) ++ Q
        = ue ++ ((w1 ++ (t1 ++ (w2 ++ (SECkw ++ ' ' :: '5' :: ' ' :: stars8)))) ++ Q)
        from by simp]
    apply lit_region_none
    · rcases factUN_EP ue ((List.mem_tails ue UNkw).2 hue_suf) with h | h | h
      · exact absurd h hue_ne
      · exact Or.inr (Or.inl h)
      · exact Or.inr (Or.inr h)
    · intro heq
      have hlen := hue_suf.length_le
      rw [heq] at hlen
      exact absurd hlen (by decide)
    · decide
    · intro c t h
      rw [List.append_assoc] at h
      exact ws_head_true w1 _ hw1 haw1 c t h

theorem x14_none (u Q : Str) (hu : u <:+ SNkw ++ ' ' :: stars8) (hne : u ≠ []) :
    try1 (u ++ Q) = none := by
  rcases suffix_append_cases u SNkw _ hu with h | ⟨ue, hue_ne, hue_suf, rfl⟩
  · rcases List.suffix_cons_iff.1 h with rfl | h
    · rw [List.cons_append]
      exact try1_ws_none ' ' _ (by decide)
    · obtain ⟨t, rfl⟩ := stars_suffix_head u h hne
      rw [List.cons_append]
      exact try1_head_ne '*' (by decide) _
  · apply try1_none_of_strip
    rw [show (ue ++ (' ' :: stars8)) ++ Q = ue ++ ((' ' :: stars8) ++ Q) from by simp]
    apply lit_region_none2
    · rcases factSN_EP ue ((List.mem_tails ue SNkw).2 hue_suf) with h | h
      · exact absurd h hue_ne
      · exact Or.inr h
    · rcases factSN_EP ue ((List.mem_tails ue SNkw).2 hue_suf) with h | h
      · exact absurd h hue_ne
      · exact ne_of_mm ue (str "encrypted-password") (by decide) h.1

theorem x24_none (u Q : Str) (hu : u <:+ SNkw ++ ' ' :: stars8) (hne : u ≠ []) :
    try2 (u ++ Q) = none := by
  rcases suffix_append_cases u SNkw _ hu with h | ⟨ue, hue_ne, hue_suf, rfl⟩
  · rcases List.suffix_cons_iff.1 h with rfl | h
    · rw [List.cons_append]
      exact try2_ws_none ' ' _ (by decide)
    · obtain ⟨t, rfl⟩ := stars_suffix_head u h hne
      rw [List.cons_append]
      exact try2_head_ne '*' (by decide) (by decide) _
  · apply try2_none_of_both
    · apply try2kw_none_of_strip
      rw [show (ue ++ (' ' :: stars8)) ++ Q = ue ++ ((' ' :: stars8) ++ Q) from by simp]
      apply lit_region_none2
      · rcases factSN_PW ue ((List.mem_tails ue SNkw).2 hue_suf) with h | h
        · exact absurd h hue_ne
        · exact Or.inr h
      · rcases factSN_PW ue ((List.mem_tails ue SNkw).2 hue_suf) with h | h
        · exact absurd h hue_ne
        · exact ne_of_mm ue (str "password") (by decide) h.1
    · apply try2kw_none_of_strip
      rw [show (ue ++ (' ' :: stars8)) ++ Q = ue ++ ((' ' :: stars8) ++ Q) from by simp]
      apply lit_region_none2
      · rcases factSN_SEC ue ((List.mem_tails ue SNkw).2 hue_suf) with h | h
        · exact absurd h hue_ne
        · exact Or.inr h
      · rcases factSN_SEC ue ((List.mem_tails ue SNkw).2 hue_suf) with h | h
        · exact absurd h hue_ne
        · exact ne_of_mm ue (str "secret") (by decide) h.1

theorem x34_none (u Q : Str) (hu : u <:+ SNkw ++ ' ' :: stars8) (hne : u ≠ []) :
    try3 (u ++ Q) = none := by
  rcases suffix_append_cases u SNkw _ hu with h | ⟨ue, hue_ne, hue_suf, rfl⟩
  · rcases List.suffix_cons_iff.1 h with rfl | h
    · rw [List.cons_append]
      exact try3_ws_none ' ' _ (by decide)
    · obtain ⟨t, rfl⟩ := stars_suffix_head u h hne
      rw [List.cons_append]
      exact try3_head_ne '*' (by decide) _
  · apply try3_none_of_strip
    rw [show (ue ++ (' ' :: stars8)) ++ Q = ue ++ ((' ' :: stars8) ++ Q) from by simp]
    apply lit_region_none2
    · rcases factSN_UN ue ((List.mem_tails ue SNkw).2 hue_suf) with h | h
      · exact absurd h hue_ne
      · exact Or.inr h
    · rcases factSN_UN ue ((List.mem_tails ue SNkw).2 hue_suf) with h | h
      · exact absurd h hue_ne
      · exact ne_of_mm ue (str "username") (by decide) h.1

theorem x23_cases (w1 t1 w2 : Str) (hw1 : w1 ≠ []) (haw1 : w1.all pyWS = true)
    (hat1 : t1.all (fun c => !pyWS c) = true)
    (hw2 : w2 ≠ []) (haw2 : w2.all pyWS = true)
    (u Q : Str)
    (hu : u <:+ UNkw ++ (w1 ++ (t1 ++ (w2 ++ (SECkw ++ ' ' :: '5' :: ' ' :: stars8)))))
    (hne : u ≠ []) :
    try2 (u ++ Q) = none ∨ u = SECkw ++ (' ' :: '5' :: ' ' :: stars8) := by
  rcases suffix_append_cases u UNkw _ hu with h | ⟨ue, hue_ne, hue_suf, rfl⟩
  · rcases suffix_append_cases u w1 _ h with h2 | ⟨uw, huw_ne, huw_suf, rfl⟩
    · rcases suffix_append_cases u t1 _ h2 with h3 | ⟨ut, hut_ne, hut_suf, rfl⟩
      · rcases suffix_append_cases u w2 _ h3 with h4 | ⟨uw2, huw2_ne, huw2_suf, rfl⟩
        · rcases suffix_append_cases u SECkw _ h4 with h5 | ⟨us, hus_ne, hus_suf, rfl⟩
          · rcases List.suffix_cons_iff.1 h5 with rfl | h6
            · refine Or.inl ?_
              rw [List.cons_append]
              exact try2_ws_none ' ' _ (by decide)
            rcases List.suffix_cons_iff.1 h6 with rfl | h6
            · refine Or.inl ?_
              rw [List.cons_append]
              exact try2_head_ne '5' (by decide) (by decide) _
            rcases List.suffix_cons_iff.1 h6 with rfl | h6
            · refine Or.inl ?_
              rw [List.cons_append]
              exact try2_ws_none ' ' _ (by decide)
            · obtain ⟨t, rfl⟩ := stars_suffix_head u h6 hne
              refine Or.inl ?_
              rw [List.cons_append]
              exact try2_head_ne '*' (by decide) (by decide) _
          · rcases factSEC_SEC us ((List.mem_tails us SECkw).2 hus_suf) with h | h | h
            · exact absurd h hus_ne
            · exact Or.inr (by rw [h])
            · refine Or.inl ?_
              apply try2_none_of_both
              · apply try2kw_none_of_strip
                rw [show (us ++ (' ' :: '5' :: ' ' :: stars8)) ++ Q
                    = us ++ ((' ' :: '5' :: ' ' :: stars8) ++ Q) from by simp]
                apply lit_region_none2
                · rcases factSEC_PW us ((List.mem_tails us SECkw).2 hus_suf) with hp | hp
                  · exact absurd hp hus_ne
                  · exact Or.inr hp
                · rcases factSEC_PW us ((List.mem_tails us SECkw).2 hus_suf) with hp | hp
                  · exact absurd hp hus_ne
                  · exact ne_of_mm us (str "password") (by decide) hp.1
              · apply try2kw_none_of_strip
                rw [show (us ++ (' ' :: '5' :: ' ' :: stars8)) ++ Q
                    = us ++ ((' ' :: '5' :: ' ' :: stars8) ++ Q) from by simp]
                apply lit_region_none2
                · exact Or.inr h
                · exact ne_of_mm us (str "secret") (by decide) h.1
        · obtain ⟨y, t, rfl, hy⟩ := head_ws_of_suffix _ w2 huw2_ne huw2_suf haw2
          refine Or.inl ?_
          simp only [List.cons_append]
          exact try2_ws_none y _ hy
      · refine Or.inl ?_
        rw [show (ut ++ (w2 ++ (SECkw ++ ' ' :: '5' :: ' ' :: stars8))) ++ Q
            = ut ++ (w2 ++ ((SECkw ++ ' ' :: '5' :: ' ' :: stars8) ++ Q)) from by simp]
        exact t1_region_try2 ut w2 Q
          (all_of_suffix (fun c => !pyWS c) ut t1 hut_suf hat1) hw2 haw2
    · obtain ⟨y, t, rfl, hy⟩ := head_ws_of_suffix _ w1 huw_ne huw_suf haw1
      refine Or.inl ?_
      simp only [List.cons_append]
      exact try2_ws_none y _ hy
  · refine Or.inl ?_
    apply try2_none_of_both
    · apply try2kw_none_of_strip
      rw [show (ue ++ (w1 ++ (t1 ++ (w2 ++ (SECkw ++ ' ' :: '5' :: ' ' :: stars8))))) ++ Q
          = ue ++ ((w1 ++ (t1 ++ (w2 ++ (SECkw ++ ' ' :: '5' :: ' ' :: stars8)))) ++ Q)
          from by simp]
      apply lit_region_none2
      · rcases factUN_PW ue ((List.mem_tails ue UNkw).2 hue_suf) with h | h
        · exact absurd h hue_ne
        · exact Or.inr h
      · rcases factUN_PW ue ((List.mem_tails ue UNkw).2 hue_suf) with h | h
        · exact absurd h hue_ne
        · exact ne_of_mm ue (str "password") (by decide) h.1
    · apply try2kw_none_of_strip
      rw [show (ue ++ (w1 ++ (t1 ++ (w2 ++ (SECkw ++ ' ' :: '5' :: ' ' :: stars8))))) ++ Q
          = ue ++ ((w1 ++ (t1 ++ (w2 ++ (SECkw ++ ' ' :: '5' :: ' ' :: stars8)))) ++ Q)
          from by simp]
      apply lit_region_none2
      · rcases factUN_SEC ue ((List.mem_tails ue UNkw).2 hue_suf) with h | h
        · exact absurd h hue_ne
        · exact Or.inr h
      · rcases factUN_SEC ue ((List.mem_tails ue UNkw).2 hue_suf) with h | h
        · exact absurd h hue_ne
        · exact ne_of_mm ue (str "secret") (by decide) h.1

theorem imm21 (w1 : Str) (hw1 : w1 ≠ []) (haw1 : w1.all pyWS = true)
    (u Q : Str) (hu : u <:+ EPkw ++ (w1 ++ ('"' :: (stars8 ++ ['"'])))) (hne : u ≠ []) :
    try2 (u ++ Q) = none := by
  rcases suffix_append_cases u EPkw _ hu with h | ⟨ue, hue_ne, hue_suf, rfl⟩
  · rcases suffix_append_cases u w1 _ h with h2 | ⟨uw, huw_ne, huw_suf, rfl⟩
    · rcases List.suffix_cons_iff.1 h2 with rfl | h3
      · rw [List.cons_append]
        exact try2_head_ne '"' (by decide) (by decide) _
      · rcases suffix_append_cases u stars8 _ h3 with h4 | ⟨us, hus_ne, hus_suf, rfl⟩
        · rcases List.suffix_cons_iff.1 h4 with rfl | h5
          · show try2 ('"' :: Q) = none
            exact try2_head_ne '"' (by decide) (by decide) Q
          · exact absurd (List.suffix_nil.1 h5) hne
        · obtain ⟨t, rfl⟩ := stars_suffix_head us hus_suf hus_ne
          simp only [List.cons_append]
          exact try2_head_ne '*' (by decide) (by decide) _
    · obtain ⟨y, t, rfl, hy⟩ := head_ws_of_suffix _ w1 huw_ne huw_suf haw1
      simp only [List.cons_append]
      exact try2_ws_none y _ hy
  · apply try2_none_of_both
    · rcases factEP_PW ue ((List.mem_tails ue EPkw).2 hue_suf) with h | h | h
      · exact absurd h hue_ne
      · subst h
        unfold try2kw
        rw [show (PWkw ++ (w1 ++ ('"' :: (stars8 ++ ['"'])))) ++ Q
            = str "password" ++ (w1 ++ (('"' :: (stars8 ++ ['"'])) ++ Q)) from by
              rw [show PWkw = str "password" from rfl]; simp]
        rw [stripLit_self_append]
        simp only []
        have hqh : ∀ c t, ('"' :: (stars8 ++ ['"'])) ++ Q = c :: t → pyWS c = false := by
          intro c t h
          rw [List.cons_append] at h
          injection h with h1 _
          rw [← h1]
          decide
        have hwt : wsTake (w1 ++ (('"' :: (stars8 ++ ['"'])) ++ Q)) = w1 :=
          takeWhile_append_of_all pyWS w1 _ haw1 hqh
        have hwd : wsDrop (w1 ++ (('"' :: (stars8 ++ ['"'])) ++ Q)) =
            ('"' :: (stars8 ++ ['"'])) ++ Q :=
          dropWhile_append_of_all pyWS w1 _ haw1 hqh
        rw [hwt, hwd, if_neg hw1]
        rw [show ('"' :: (stars8 ++ ['"'])) ++ Q = '"' :: ((stars8 ++ ['"']) ++ Q) from by
          simp]
        simp only []
        rw [if_neg (by decide : ¬('"'.isDigit = true))]
      · apply try2kw_none_of_strip
        rw [show (ue ++ (w1 ++ ('"' :: (stars8 ++ ['"'])))) ++ Q
            = ue ++ ((w1 ++ ('"' :: (stars8 ++ ['"']))) ++ Q) from by simp]
        apply lit_region_none2
        · exact Or.inr h
        · exact ne_of_mm ue (str "password") (by decide) h.1
    · apply try2kw_none_of_strip
      rw [show (ue ++ (w1 ++ ('"' :: (stars8 ++ ['"'])))) ++ Q
          = ue ++ ((w1 ++ ('"' :: (stars8 ++ ['"']))) ++ Q) from by simp]
      apply lit_region_none2
      · rcases factEP_SEC ue ((List.mem_tails ue EPkw).2 hue_suf) with h | h
        · exact absurd h hue_ne
        · exact Or.inr h
      · rcases factEP_SEC ue ((List.mem_tails ue EPkw).2 hue_suf) with h | h
        · exact absurd h hue_ne
        · exact ne_of_mm ue (str "secret") (by decide) h.1

theorem imm31 (w1 : Str) (haw1 : w1.all pyWS = true)
    (u Q : Str) (hu : u <:+ EPkw ++ (w1 ++ ('"' :: (stars8 ++ ['"'])))) (hne : u ≠ []) :
    try3 (u ++ Q) = none := by
  rcases suffix_append_cases u EPkw _ hu with h | ⟨ue, hue_ne, hue_suf, rfl⟩
  · rcases suffix_append_cases u w1 _ h with h2 | ⟨uw, huw_ne, huw_suf, rfl⟩
    · rcases List.suffix_cons_iff.1 h2 with rfl | h3
      · rw [List.cons_append]
        exact try3_head_ne '"' (by decide) _
      · rcases suffix_append_cases u stars8 _ h3 with h4 | ⟨us, hus_ne, hus_suf, rfl⟩
        · rcases List.suffix_cons_iff.1 h4 with rfl | h5
          · show try3 ('"' :: Q) = none
            exact try3_head_ne '"' (by decide) Q
          · exact absurd (List.suffix_nil.1 h5) hne
        · obtain ⟨t, rfl⟩ := stars_suffix_head us hus_suf hus_ne
          simp only [List.cons_append]
          exact try3_head_ne '*' (by decide) _
    · obtain ⟨y, t, rfl, hy⟩ := head_ws_of_suffix _ w1 huw_ne huw_suf haw1
      simp only [List.cons_append]
      exact try3_ws_none y _ hy
  · apply try3_none_of_strip
    rw [show (ue ++ (w1 ++ ('"' :: (stars8 ++ ['"'])))) ++ Q
        = ue ++ ((w1 ++ ('"' :: (stars8 ++ ['"']))) ++ Q) from by simp]
    apply lit_region_none2
    · rcases factEP_UN ue ((List.mem_tails ue EPkw).2 hue_suf) with h | h
      · exact absurd h hue_ne
      · exact Or.inr h
    · rcases factEP_UN ue ((List.mem_tails ue EPkw).2 hue_suf) with h | h
      · exact absurd h hue_ne
      · exact ne_of_mm ue (str "username") (by decide) h.1

theorem imm41 (w1 : Str) (haw1 : w1.all pyWS = true)
    (u Q : Str) (hu : u <:+ EPkw ++ (w1 ++ ('"' :: (stars8 ++ ['"'])))) (hne : u ≠ []) :
    try4 (u ++ Q) = none := by
  rcases suffix_append_cases u EPkw _ hu with h | ⟨ue, hue_ne, hue_suf, rfl⟩
  · rcases suffix_append_cases u w1 _ h with h2 | ⟨uw, huw_ne, huw_suf, rfl⟩
    · rcases List.suffix_cons_iff.1 h2 with rfl | h3
      · rw [List.cons_append]
        exact try4_head_ne '"' (by decide) _
      · rcases suffix_append_cases u stars8 _ h3 with h4 | ⟨us, hus_ne, hus_suf, rfl⟩
        · rcases List.suffix_cons_iff.1 h4 with rfl | h5
          · show try4 ('"' :: Q) = none
            exact try4_head_ne '"' (by decide) Q
          · exact absurd (List.suffix_nil.1 h5) hne
        · obtain ⟨t, rfl⟩ := stars_suffix_head us hus_suf hus_ne
          simp only [List.cons_append]
          exact try4_head_ne '*' (by decide) _
    · obtain ⟨y, t, rfl, hy⟩ := head_ws_of_suffix _ w1 huw_ne huw_suf haw1
      simp only [List.cons_append]
      exact try4_ws_none y _ hy
  · apply try4_none_of_strip
    rw [show (ue ++ (w1 ++ ('"' :: (stars8 ++ ['"'])))) ++ Q
        = ue ++ ((w1 ++ ('"' :: (stars8 ++ ['"']))) ++ Q) from by simp]
    apply lit_region_none2
    · rcases factEP_SN ue ((List.mem_tails ue EPkw).2 hue_suf) with h | h
      · exact absurd h hue_ne
      · exact Or.inr h
    · rcases factEP_SN ue ((List.mem_tails ue EPkw).2 hue_suf) with h | h
      · exact absurd h hue_ne
      · exact ne_of_mm ue (str "snmp-server community") (by decide) h.1

theorem imm32 (K : Str) (hK : K = PWkw ∨ K = SECkw) (d : Char) (hd : d.isDigit = true)
    (u Q : Str) (hu : u <:+ K ++ ' ' :: d :: ' ' :: stars8) (hne : u ≠ []) :
    try3 (u ++ Q) = none := by
  rcases suffix_append_cases u K _ hu with h | ⟨ue, hue_ne, hue_suf, rfl⟩
  · rcases List.suffix_cons_iff.1 h with rfl | h
    · rw [List.cons_append]
      exact try3_ws_none ' ' _ (by decide)
    rcases List.suffix_cons_iff.1 h with rfl | h
    · rw [List.cons_append]
      exact try3_head_ne d (digit_ne d hd 'u' (by decide)) _
    rcases List.suffix_cons_iff.1 h with rfl | h
    · rw [List.cons_append]
      exact try3_ws_none ' ' _ (by decide)
    · obtain ⟨t, rfl⟩ := stars_suffix_head u h hne
      rw [List.cons_append]
      exact try3_head_ne '*' (by decide) _
  · apply try3_none_of_strip
    rw [show (ue ++ (' ' :: d :: ' ' :: stars8)) ++ Q
        = ue ++ ((' ' :: d :: ' ' :: stars8) ++ Q) from by simp]
    apply lit_region_none2
    · rcases hK with rfl | rfl
      · rcases factPW_UN ue ((List.mem_tails ue PWkw).2 hue_suf) with h | h
        · exact absurd h hue_ne
        · exact Or.inr h
      · rcases factSEC_UN ue ((List.mem_tails ue SECkw).2 hue_suf) with h | h
        · exact absurd h hue_ne
        · exact Or.inr h
    · rcases hK with rfl | rfl
      · rcases factPW_UN ue ((List.mem_tails ue PWkw).2 hue_suf) with h | h
        · exact absurd h hue_ne
        · exact ne_of_mm ue (str "username") (by decide) h.1
      · rcases factSEC_UN ue ((List.mem_tails ue SECkw).2 hue_suf) with h | h
        · exact absurd h hue_ne
        · exact ne_of_mm ue (str "username") (by decide) h.1

theorem imm42 (K : Str) (hK : K = PWkw ∨ K = SECkw) (d : Char) (hd : d.isDigit = true)
    (u Q : Str) (hu : u <:+ K ++ ' ' :: d :: ' ' :: stars8) (hne : u ≠ []) :
    try4 (u ++ Q) = none := by
  rcases suffix_append_cases u K _ hu with h | ⟨ue, hue_ne, hue_suf, rfl⟩
  · rcases List.suffix_cons_iff.1 h with rfl | h
    · rw [List.cons_append]
      exact try4_ws_none ' ' _ (by decide)
    rcases List.suffix_cons_iff.1 h with rfl | h
    · rw [List.cons_append]
      exact try4_head_ne d (digit_ne d hd 's' (by decide)) _
    rcases List.suffix_cons_iff.1 h with rfl | h
    · rw [List.cons_append]
      exact try4_ws_none ' ' _ (by decide)
    · obtain ⟨t, rfl⟩ := stars_suffix_head u h hne
      rw [List.cons_append]
      exact try4_head_ne '*' (by decide) _
  · apply try4_none_of_strip
    rw [show (ue ++ (' ' :: d :: ' ' :: stars8)) ++ Q
        = ue ++ ((' ' :: d :: ' ' :: stars8) ++ Q) from by simp]
    apply lit_region_none2
    · rcases hK with rfl | rfl
      · rcases factPW_SN ue ((List.mem_tails ue PWkw).2 hue_suf) with h | h
        · exact absurd h hue_ne
        · exact Or.inr h
      · rcases factSEC_SN ue ((List.mem_tails ue SECkw).2 hue_suf) with h | h
        · exact absurd h hue_ne
        · exact Or.inr h
    · rcases hK with rfl | rfl
      · rcases factPW_SN ue ((List.mem_tails ue PWkw).2 hue_suf) with h | h
        · exact absurd h hue_ne
        · exact ne_of_mm ue (str "snmp-server community") (by decide) h.1
      · rcases factSEC_SN ue ((List.mem_tails ue SECkw).2 hue_suf) with h | h
        · exact absurd h hue_ne
        · exact ne_of_mm ue (str "snmp-server community") (by decide) h.1

theorem imm43 (w1 t1 w2 : Str) (haw1 : w1.all pyWS = true)
    (hat1 : t1.all (fun c => !pyWS c) = true)
    (hw2 : w2 ≠ []) (haw2 : w2.all pyWS = true)
    (u Q : Str)
    (hu : u <:+ UNkw ++ (w1 ++ (t1 ++ (w2 ++ (SECkw ++ ' ' :: '5' :: ' ' :: stars8)))))
    (hne : u ≠ []) :
    try4 (u ++ Q) = none := by
  rcases suffix_append_cases u UNkw _ hu with h | ⟨ue, hue_ne, hue_suf, rfl⟩
  · rcases suffix_append_cases u w1 _ h with h2 | ⟨uw, huw_ne, huw_suf, rfl⟩
    · rcases suffix_append_cases u t1 _ h2 with h3 | ⟨ut, hut_ne, hut_suf, rfl⟩
      · rcases suffix_append_cases u w2 _ h3 with h4 | ⟨uw2, huw2_ne, huw2_suf, rfl⟩
        · rcases suffix_append_cases u SECkw _ h4 with h5 | ⟨us, hus_ne, hus_suf, rfl⟩
          · rcases List.suffix_cons_iff.1 h5 with rfl | h6
            · rw [List.cons_append]
              exact try4_ws_none ' ' _ (by decide)
            rcases List.suffix_cons_iff.1 h6 with rfl | h6
            · rw [List.cons_append]
              exact try4_head_ne '5' (by decide) _
            rcases List.suffix_cons_iff.1 h6 with rfl | h6
            · rw [List.cons_append]
              exact try4_ws_none ' ' _ (by decide)
            · obtain ⟨t, rfl⟩ := stars_suffix_head u h6 hne
              rw [List.cons_append]
              exact try4_head_ne '*' (by decide) _
          · apply try4_none_of_strip
            rw [show (us ++ (' ' :: '5' :: ' ' :: stars8)) ++ Q
                = us ++ ((' ' :: '5' :: ' ' :: stars8) ++ Q) from by simp]
            apply lit_region_none2
            · rcases factSEC_SN us ((List.mem_tails us SECkw).2 hus_suf) with h | h
              · exact absurd h hus_ne
              · exact Or.inr h
            · rcases factSEC_SN us ((List.mem_tails us SECkw).2 hus_suf) with h | h
              · exact absurd h hus_ne
              · exact ne_of_mm us (str "snmp-server community") (by decide) h.1
        · obtain ⟨y, t, rfl, hy⟩ := head_ws_of_suffix _ w2 huw2_ne huw2_suf haw2
          simp only [List.cons_append]
          exact try4_ws_none y _ hy
      · rw [show (ut ++ (w2 ++ (SECkw ++ ' ' :: '5' :: ' ' :: stars8))) ++ Q
            = ut ++ (w2 ++ ((SECkw ++ ' ' :: '5' :: ' ' :: stars8) ++ Q)) from by simp]
        exact t1_region_try4 ut w2 Q
          (all_of_suffix (fun c => !pyWS c) ut t1 hut_suf hat1) hw2 haw2
    · obtain ⟨y, t, rfl, hy⟩ := head_ws_of_suffix _ w1 huw_ne huw_suf haw1
      simp only [List.cons_append]
      exact try4_ws_none y _ hy
  · apply try4_none_of_strip
    rw [show (ue ++ (w1 ++ (t1 ++ (w2 ++ (SECkw ++ ' ' :: '5' :: ' ' :: stars8))))) ++ Q
        = ue ++ ((w1 ++ (t1 ++ (w2 ++ (SECkw ++ ' ' :: '5' :: ' ' :: stars8)))) ++ Q)
        from by simp]
    apply lit_region_none2
    · rcases factUN_SN ue ((List.mem_tails ue UNkw).2 hue_suf) with h | h
      · exact absurd h hue_ne
      · exact Or.inr h
    · rcases factUN_SN ue ((List.mem_tails ue UNkw).2 hue_suf) with h | h
      · exact absurd h hue_ne
      · exact ne_of_mm ue (str "snmp-server community") (by decide) h.1

theorem allid_self_skeleton (t : Str → Option (Nat × Str))
    (hnil : t [] = none)
    (hws : ∀ c v, pyWS c = true → t (c :: v) = none)
    (htrans : ∀ z f, (t (subLoopF t f z)).isSome = true → (t z).isSome = true)
    (hmatch : ∀ z len r0, t z = some (len, r0) →
      1 ≤ len ∧
      (∀ u Q, u <:+ r0 → u ≠ [] → u ≠ r0 → t (u ++ Q) = none) ∧
      (∀ W, (headWsOrNil (z.drop len) → headWsOrNil W) →
        t (r0 ++ W) = some (r0.length, r0))) :
    ∀ (z : Str) (f : Nat), z.length ≤ f → AllId t (subLoopF t f z) := by
  intro z
  generalize hn : z.length = n
  induction n using Nat.strong_induction_on generalizing z with
  | _ n ih =>
    intro f hf
    subst hn
    cases z with
    | nil =>
      intro v hv len r hm
      have hv0 : v = [] := by
        cases f with
        | zero => exact List.suffix_nil.1 hv
        | succ f2 => exact List.suffix_nil.1 hv
      rw [hv0, hnil] at hm
      exact Option.noConfusion hm
    | cons c zrest =>
      cases f with
      | zero => simp at hf
      | succ f' =>
        cases hm0 : t (c :: zrest) with
        | none =>
          have hout : subLoopF t (f' + 1) (c :: zrest) = c :: subLoopF t f' zrest := by
            simp only [subLoopF, hm0]
          have hf' : zrest.length ≤ f' := by
            simp [List.length_cons] at hf
            omega
          have hih : AllId t (subLoopF t f' zrest) :=
            ih zrest.length (by simp) zrest rfl f' hf'
          rw [hout]
          intro v hv len r hm
          rcases List.suffix_cons_iff.1 hv with rfl | hv2
          · exfalso
            have h1 : (t (subLoopF t (f' + 1) (c :: zrest))).isSome = true := by
              rw [hout, hm]
              rfl
            have h2 := htrans _ _ h1
            rw [hm0] at h2
            exact Bool.noConfusion h2
          · exact hih v hv2 len r hm
        | some lr =>
          obtain ⟨len0, r0⟩ := lr
          obtain ⟨h1len, hstrict, hid⟩ := hmatch _ _ _ hm0
          have hout : subLoopF t (f' + 1) (c :: zrest) =
              r0 ++ subLoopF t f' (zrest.drop (len0 - 1)) := by
            simp only [subLoopF, hm0]
          have hdropeq : zrest.drop (len0 - 1) = (c :: zrest).drop len0 := by
            cases len0 with
            | zero => omega
            | succ k => simp
          have hlt : ((c :: zrest).drop len0).length < (c :: zrest).length := by
            have hld := List.length_drop len0 (c :: zrest)
            rw [hld]
            have hlc : (c :: zrest).length = zrest.length + 1 := by simp
            omega
          have hfd : ((c :: zrest).drop len0).length ≤ f' := by omega
          have hih : AllId t (subLoopF t f' ((c :: zrest).drop len0)) :=
            ih ((c :: zrest).drop len0).length hlt _ rfl f' hfd
          rw [hout, hdropeq]
          intro v hv len r hm
          rcases suffix_append_cases v r0 _ hv with hv2 | ⟨u, hu_ne, hu_suf, rfl⟩
          · exact hih v hv2 len r hm
          · by_cases hufull : u = r0
            · subst hufull
              have hWimp : headWsOrNil ((c :: zrest).drop len0) →
                  headWsOrNil (subLoopF t f' ((c :: zrest).drop len0)) :=
                fun hr => headWs_subLoopF t hws _ hr f'
              have hidW := hid _ hWimp
              rw [hidW] at hm
              injection hm with hm1
              injection hm1 with hm2 hm3
              rw [← hm3, ← hm2]
              exact (List.take_left _ _).symm
            · rw [hstrict u _ hu_suf hu_ne hufull] at hm
              exact Option.noConfusion hm

theorem allid_pres_skeleton (tI tJ : Str → Option (Nat × Str))
    (hnilI : tI [] = none)
    (hwsJ : ∀ c v, pyWS c = true → tJ (c :: v) = none)
    (htransIJ : ∀ z f, (tI (subLoopF tJ f z)).isSome = true → (tI z).isSome = true)
    (hIonJ : ∀ z lenZ rZ, tI z = some (lenZ, rZ) →
      (∀ u Q, u <:+ rZ → u ≠ [] → tJ (u ++ Q) = none) ∧
      (∀ W, (headWsOrNil (z.drop lenZ) → headWsOrNil W) →
        tI (rZ ++ W) = some (rZ.length, rZ)))
    (hpairs : ∀ z lenJ rJ, tJ z = some (lenJ, rJ) →
      1 ≤ lenJ ∧
      ∀ u, u <:+ rJ → u ≠ [] →
        (∀ Q, tI (u ++ Q) = none) ∨
        (∀ W, (headWsOrNil (z.drop lenJ) → headWsOrNil W) →
          tI (u ++ W) = some (u.length, u))) :
    ∀ (z : Str) (f : Nat), z.length ≤ f → AllId tI z → AllId tI (subLoopF tJ f z) := by
  intro z
  generalize hn : z.length = n
  induction n using Nat.strong_induction_on generalizing z with
  | _ n ih =>
    intro f hf hz
    subst hn
    cases z with
    | nil =>
      intro v hv len r hm
      have hv0 : v = [] := by
        cases f with
        | zero => exact List.suffix_nil.1 hv
        | succ f2 => exact List.suffix_nil.1 hv
      rw [hv0, hnilI] at hm
      exact Option.noConfusion hm
    | cons c zrest =>
      cases f with
      | zero => simp at hf
      | succ f' =>
        cases hm0 : tJ (c :: zrest) with
        | none =>
          have hout : subLoopF tJ (f' + 1) (c :: zrest) = c :: subLoopF tJ f' zrest := by
            simp only [subLoopF, hm0]
          have hzrest : AllId tI zrest := fun v hv len r hm =>
            hz v (hv.trans (List.suffix_cons c zrest)) len r hm
          have hf' : zrest.length ≤ f' := by
            simp [List.length_cons] at hf
            omega
          have hih : AllId tI (subLoopF tJ f' zrest) :=
            ih zrest.length (by simp) zrest rfl f' hf' hzrest
          rw [hout]
          intro v hv len r hm
          rcases List.suffix_cons_iff.1 hv with rfl | hv2
          · have h1 : (tI (subLoopF tJ (f' + 1) (c :: zrest))).isSome = true := by
              rw [hout, hm]
              rfl
            have h2 := htransIJ _ _ h1
            cases hmz : tI (c :: zrest) with
            | none =>
              rw [hmz] at h2
              exact Bool.noConfusion h2
            | some p =>
              obtain ⟨lenZ, rZ⟩ := p
              have hrZ : rZ = (c :: zrest).take lenZ :=
                hz (c :: zrest) (List.suffix_refl _) lenZ rZ hmz
              obtain ⟨himm, hidI⟩ := hIonJ _ _ _ hmz
              have hzdec : (c :: zrest) = rZ ++ (c :: zrest).drop lenZ := by
                rw [hrZ]
                exact (List.take_append_drop lenZ (c :: zrest)).symm
              have hrZlen : rZ.length ≤ f' + 1 := by
                rw [hrZ]
                have h3 := List.length_take lenZ (c :: zrest)
                have h4 : ((c :: zrest).take lenZ).length ≤ (c :: zrest).length := by
                  rw [h3]
                  exact min_le_right _ _
                omega
              have hcopy : subLoopF tJ (f' + 1) (c :: zrest) =
                  rZ ++ subLoopF tJ (f' + 1 - rZ.length) ((c :: zrest).drop lenZ) := by
                conv_lhs => rw [hzdec]
                exact subLoopF_copy tJ _ rZ (fun u hu hune => himm u _ hu hune)
                  (f' + 1) hrZlen
              have hWimp : headWsOrNil ((c :: zrest).drop lenZ) →
                  headWsOrNil (subLoopF tJ (f' + 1 - rZ.length) ((c :: zrest).drop lenZ)) :=
                fun hr => headWs_subLoopF tJ hwsJ _ hr _
              have hidW := hidI _ hWimp
              rw [← hout, hcopy, hidW] at hm
              injection hm with hm1
              injection hm1 with hm2 hm3
              have hgoal : (c :: subLoopF tJ f' zrest) =
                  rZ ++ subLoopF tJ (f' + 1 - rZ.length) ((c :: zrest).drop lenZ) := by
                rw [← hout, hcopy]
              rw [hgoal, ← hm3, ← hm2]
              exact (List.take_left _ _).symm
          · exact hih v hv2 len r hm
        | some lr =>
          obtain ⟨lenJ, rJ⟩ := lr
          obtain ⟨h1len, hu_cases⟩ := hpairs _ _ _ hm0
          have hout : subLoopF tJ (f' + 1) (c :: zrest) =
              rJ ++ subLoopF tJ f' (zrest.drop (lenJ - 1)) := by
            simp only [subLoopF, hm0]
          have hdropeq : zrest.drop (lenJ - 1) = (c :: zrest).drop lenJ := by
            cases lenJ with
            | zero => omega
            | succ k => simp
          have hlt : ((c :: zrest).drop lenJ).length < (c :: zrest).length := by
            have hld := List.length_drop lenJ (c :: zrest)
            rw [hld]
            have hlc : (c :: zrest).length = zrest.length + 1 := by simp
            omega
          have hfd : ((c :: zrest).drop lenJ).length ≤ f' := by omega
          have hrest : AllId tI ((c :: zrest).drop lenJ) := fun v hv len r hm =>
            hz v (hv.trans (List.drop_suffix lenJ (c :: zrest))) len r hm
          have hih : AllId tI (subLoopF tJ f' ((c :: zrest).drop lenJ)) :=
            ih ((c :: zrest).drop lenJ).length hlt _ rfl f' hfd hrest
          rw [hout, hdropeq]
          intro v hv len r hm
          rcases suffix_append_cases v rJ _ hv with hv2 | ⟨u, hu_ne, hu_suf, rfl⟩
          · exact hih v hv2 len r hm
          · rcases hu_cases u hu_suf hu_ne with hnone | hid
            · rw [hnone _] at hm
              exact Option.noConfusion hm
            · have hWimp : headWsOrNil ((c :: zrest).drop lenJ) →
                  headWsOrNil (subLoopF tJ f' ((c :: zrest).drop lenJ)) :=
                fun hr => headWs_subLoopF tJ hwsJ _ hr _
              have hidW := hid _ hWimp
              rw [hidW] at hm
              injection hm with hm1
              injection hm1 with hm2 hm3
              rw [← hm3, ← hm2]
              exact (List.take_left _ _).symm

theorem try1_nil : try1 [] = none := rfl

theorem try2_nil : try2 [] = none := rfl

theorem try3_nil : try3 [] = none := rfl

theorem try4_nil : try4 [] = none := rfl

theorem len_pos1 : ∀ s len r, try1 s = some (len, r) → 1 ≤ len := by
  intro s len r h
  obtain ⟨w1, ct, hz, hw1, haw1, hct, hact, hlen, hr⟩ := try1_shape s len r h
  omega

theorem len_pos2 : ∀ s len r, try2 s = some (len, r) → 1 ≤ len := by
  intro s len r h
  obtain ⟨K, w1, d, w2, tk, hK, hz, hw1, haw1, hd, hw2, haw2, htk, hatk, hrest, hlen, hr⟩ :=
    try2_shape s len r h
  omega

theorem len_pos3 : ∀ s len r, try3 s = some (len, r) → 1 ≤ len := by
  intro s len r h
  obtain ⟨w1, t1, w2, w3, d, w4, tk, hz, hw1, haw1, ht1, hat1, hw2, haw2, hw3, haw3,
    hd, hw4, haw4, htk, hatk, hrest, hlen, hr⟩ := try3_shape s len r h
  omega

theorem len_pos4 : ∀ s len r, try4 s = some (len, r) → 1 ≤ len := by
  intro s len r h
  obtain ⟨w1, tk, hz, hw1, haw1, htk, hatk, hrest, hlen, hr⟩ := try4_shape s len r h
  have hsn : SNkw.length = 21 := by decide
  omega

theorem fam1_S1s : Fam1 S1s :=
  Or.inl ⟨EPkw, by decide, List.suffix_refl _, rfl⟩

theorem fam2_S2s_PW : Fam2 PWkw (S2s PWkw) :=
  Or.inl ⟨PWkw, by decide, List.suffix_refl _, rfl⟩

theorem fam2_S2s_SEC : Fam2 SECkw (S2s SECkw) :=
  Or.inl ⟨SECkw, by decide, List.suffix_refl _, rfl⟩

theorem fam3_S3s : Fam3 S3s :=
  Or.inl ⟨UNkw, by decide, List.suffix_refl _, rfl⟩

theorem fam4_S4s : Fam4 S4s :=
  Or.inl ⟨SNkw, by decide, List.suffix_refl _, rfl⟩

theorem some_try2_of_subLoop (tJ : Str → Option (Nat × Str))
    (htr : ∀ (z : Str) (f : Nat) (ss : List Stage), Fam2 PWkw ss →
      runStages ss (subLoopF tJ f z) = true → runStages ss z = true)
    (htr2 : ∀ (z : Str) (f : Nat) (ss : List Stage), Fam2 SECkw ss →
      runStages ss (subLoopF tJ f z) = true → runStages ss z = true) :
    ∀ z f, (try2 (subLoopF tJ f z)).isSome = true → (try2 z).isSome = true := by
  intro z f h
  unfold try2 at h
  cases hpw : try2kw (str "password") (subLoopF tJ f z) with
  | some r =>
    have hrs : runStages (S2s PWkw) (subLoopF tJ f z) = true := by
      rw [runS2_isSome]
      rw [show PWkw = str "password" from rfl, hpw]
      rfl
    exact try2_isSome_of_kw PWkw z (Or.inl rfl) (htr z f (S2s PWkw) fam2_S2s_PW hrs)
  | none =>
    rw [hpw] at h
    simp only [] at h
    have hrs : runStages (S2s SECkw) (subLoopF tJ f z) = true := by
      rw [runS2_isSome]
      rw [show SECkw = str "secret" from rfl]
      exact h
    exact try2_isSome_of_kw SECkw z (Or.inr rfl) (htr2 z f (S2s SECkw) fam2_S2s_SEC hrs)

theorem htr11 : ∀ z f, (try1 (subLoopF try1 f z)).isSome = true →
    (try1 z).isSome = true := by
  intro z f h
  rw [← runS1_isSome] at h
  have h2 := trans11 z f S1s fam1_S1s h
  rw [runS1_isSome] at h2
  exact h2

theorem htr12 : ∀ z f, (try1 (subLoopF try2 f z)).isSome = true →
    (try1 z).isSome = true := by
  intro z f h
  rw [← runS1_isSome] at h
  have h2 := trans12 z f S1s fam1_S1s h
  rw [runS1_isSome] at h2
  exact h2

theorem htr13 : ∀ z f, (try1 (subLoopF try3 f z)).isSome = true →
    (try1 z).isSome = true := by
  intro z f h
  rw [← runS1_isSome] at h
  have h2 := trans13 z f S1s fam1_S1s h
  rw [runS1_isSome] at h2
  exact h2

theorem htr14 : ∀ z f, (try1 (subLoopF try4 f z)).isSome = true →
    (try1 z).isSome = true := by
  intro z f h
  rw [← runS1_isSome] at h
  have h2 := trans14 z f S1s fam1_S1s h
  rw [runS1_isSome] at h2
  exact h2

theorem htr22 : ∀ z f, (try2 (subLoopF try2 f z)).isSome = true →
    (try2 z).isSome = true :=
  some_try2_of_subLoop try2 (trans22 PWkw (Or.inl rfl)) (trans22 SECkw (Or.inr rfl))

theorem htr23 : ∀ z f, (try2 (subLoopF try3 f z)).isSome = true →
    (try2 z).isSome = true :=
  some_try2_of_subLoop try3 (trans23 PWkw (Or.inl rfl)) (trans23 SECkw (Or.inr rfl))

theorem htr24 : ∀ z f, (try2 (subLoopF try4 f z)).isSome = true →
    (try2 z).isSome = true :=
  some_try2_of_subLoop try4 (trans24 PWkw (Or.inl rfl)) (trans24 SECkw (Or.inr rfl))

theorem htr33 : ∀ z f, (try3 (subLoopF try3 f z)).isSome = true →
    (try3 z).isSome = true := by
  intro z f h
  rw [← runS3_isSome] at h
  have h2 := trans33 z f S3s fam3_S3s h
  rw [runS3_isSome] at h2
  exact h2

theorem htr34 : ∀ z f, (try3 (subLoopF try4 f z)).isSome = true →
    (try3 z).isSome = true := by
  intro z f h
  rw [← runS3_isSome] at h
  have h2 := trans34 z f S3s fam3_S3s h
  rw [runS3_isSome] at h2
  exact h2

theorem htr44 : ∀ z f, (try4 (subLoopF try4 f z)).isSome = true →
    (try4 z).isSome = true := by
  intro z f h
  rw [← runS4_isSome] at h
  have h2 := trans44 z f S4s fam4_S4s h
  rw [runS4_isSome] at h2
  exact h2

theorem I3_assoc : ∀ w1 t1 w2 : Str,
    UNkw ++ w1 ++ t1 ++ w2 ++ (SECkw ++ ' ' :: '5' :: ' ' :: stars8)
    = UNkw ++ (w1 ++ (t1 ++ (w2 ++ (SECkw ++ ' ' :: '5' :: ' ' :: stars8)))) := by
  intro w1 t1 w2
  simp [List.append_assoc]

theorem hmatch1 : ∀ z len r0, try1 z = some (len, r0) →
    1 ≤ len ∧
    (∀ u Q, u <:+ r0 → u ≠ [] → u ≠ r0 → try1 (u ++ Q) = none) ∧
    (∀ W, (headWsOrNil (z.drop len) → headWsOrNil W) →
      try1 (r0 ++ W) = some (r0.length, r0)) := by
  intro z len r0 h
  obtain ⟨w1, ct, hz, hw1, haw1, hct, hact, hlen, hr⟩ := try1_shape z len r0 h
  refine ⟨by omega, ?_, ?_⟩
  · intro u Q hu hune hustrict
    rw [hr] at hu hustrict
    exact x11_strict w1 hw1 haw1 u Q hu hune hustrict
  · intro W _
    rw [hr]
    exact id1_match w1 W hw1 haw1

theorem hmatch2 : ∀ z len r0, try2 z = some (len, r0) →
    1 ≤ len ∧
    (∀ u Q, u <:+ r0 → u ≠ [] → u ≠ r0 → try2 (u ++ Q) = none) ∧
    (∀ W, (headWsOrNil (z.drop len) → headWsOrNil W) →
      try2 (r0 ++ W) = some (r0.length, r0)) := by
  intro z len r0 h
  obtain ⟨K, w1, d, w2, tk, hK, hz, hw1, haw1, hd, hw2, haw2, htk, hatk, hrest, hlen, hr⟩ :=
    try2_shape z len r0 h
  refine ⟨by omega, ?_, ?_⟩
  · intro u Q hu hune hustrict
    rw [hr] at hu hustrict
    exact x22_strict K hK d hd u Q hu hune hustrict
  · intro W himp
    rw [hr]
    exact id2_match K hK d hd W (himp hrest)

theorem hmatch3 : ∀ z len r0, try3 z = some (len, r0) →
    1 ≤ len ∧
    (∀ u Q, u <:+ r0 → u ≠ [] → u ≠ r0 → try3 (u ++ Q) = none) ∧
    (∀ W, (headWsOrNil (z.drop len) → headWsOrNil W) →
      try3 (r0 ++ W) = some (r0.length, r0)) := by
  intro z len r0 h
  obtain ⟨w1, t1, w2, w3, d, w4, tk, hz, hw1, haw1, ht1, hat1, hw2, haw2, hw3, haw3,
    hd, hw4, haw4, htk, hatk, hrest, hlen, hr⟩ := try3_shape z len r0 h
  refine ⟨by omega, ?_, ?_⟩
  · intro u Q hu hune hustrict
    rw [hr, I3_assoc] at hu hustrict
    exact x33_strict w1 t1 w2 hw1 haw1 ht1 hat1 hw2 haw2 u Q hu hune hustrict
  · intro W himp
    rw [hr]
    exact id3_match w1 t1 w2 W hw1 haw1 ht1 hat1 hw2 haw2 (himp hrest)

theorem hmatch4 : ∀ z len r0, try4 z = some (len, r0) →
    1 ≤ len ∧
    (∀ u Q, u <:+ r0 → u ≠ [] → u ≠ r0 → try4 (u ++ Q) = none) ∧
    (∀ W, (headWsOrNil (z.drop len) → headWsOrNil W) →
      try4 (r0 ++ W) = some (r0.length, r0)) := by
  intro z len r0 h
  obtain ⟨w1, tk, hz, hw1, haw1, htk, hatk, hrest, hlen, hr⟩ := try4_shape z len r0 h
  have hsn : SNkw.length = 21 := by decide
  refine ⟨by omega, ?_, ?_⟩
  · intro u Q hu hune hustrict
    rw [hr] at hu hustrict
    exact x44_strict u Q hu hune hustrict
  · intro W himp
    rw [hr]
    exact id4_match W (himp hrest)

theorem hIonJ12 : ∀ z lenZ rZ, try1 z = some (lenZ, rZ) →
    (∀ u Q, u <:+ rZ → u ≠ [] → try2 (u ++ Q) = none) ∧
    (∀ W, (headWsOrNil (z.drop lenZ) → headWsOrNil W) →
      try1 (rZ ++ W) = some (rZ.length, rZ)) := by
  intro z lenZ rZ h
  obtain ⟨w1, ct, hz, hw1, haw1, hct, hact, hlen, hr⟩ := try1_shape z lenZ rZ h
  constructor
  · intro u Q hu hune
    rw [hr] at hu
    exact imm21 w1 hw1 haw1 u Q hu hune
  · intro W _
    rw [hr]
    exact id1_match w1 W hw1 haw1

theorem hIonJ13 : ∀ z lenZ rZ, try1 z = some (lenZ, rZ) →
    (∀ u Q, u <:+ rZ → u ≠ [] → try3 (u ++ Q) = none) ∧
    (∀ W, (headWsOrNil (z.drop lenZ) → headWsOrNil W) →
      try1 (rZ ++ W) = some (rZ.length, rZ)) := by
  intro z lenZ rZ h
  obtain ⟨w1, ct, hz, hw1, haw1, hct, hact, hlen, hr⟩ := try1_shape z lenZ rZ h
  constructor
  · intro u Q hu hune
    rw [hr] at hu
    exact imm31 w1 haw1 u Q hu hune
  · intro W _
    rw [hr]
    exact id1_match w1 W hw1 haw1

theorem hIonJ14 : ∀ z lenZ rZ, try1 z = some (lenZ, rZ) →
    (∀ u Q, u <:+ rZ → u ≠ [] → try4 (u ++ Q) = none) ∧
    (∀ W, (headWsOrNil (z.drop lenZ) → headWsOrNil W) →
      try1 (rZ ++ W) = some (rZ.length, rZ)) := by
  intro z lenZ rZ h
  obtain ⟨w1, ct, hz, hw1, haw1, hct, hact, hlen, hr⟩ := try1_shape z lenZ rZ h
  constructor
  · intro u Q hu hune
    rw [hr] at hu
    exact imm41 w1 haw1 u Q hu hune
  · intro W _
    rw [hr]
    exact id1_match w1 W hw1 haw1

theorem hIonJ23 : ∀ z lenZ rZ, try2 z = some (lenZ, rZ) →
    (∀ u Q, u <:+ rZ → u ≠ [] → try3 (u ++ Q) = none) ∧
    (∀ W, (headWsOrNil (z.drop lenZ) → headWsOrNil W) →
      try2 (rZ ++ W) = some (rZ.length, rZ)) := by
  intro z lenZ rZ h
  obtain ⟨K, w1, d, w2, tk, hK, hz, hw1, haw1, hd, hw2, haw2, htk, hatk, hrest, hlen, hr⟩ :=
    try2_shape z lenZ rZ h
  constructor
  · intro u Q hu hune
    rw [hr] at hu
    exact imm32 K hK d hd u Q hu hune
  · intro W himp
    rw [hr]
    exact id2_match K hK d hd W (himp hrest)

theorem hIonJ24 : ∀ z lenZ rZ, try2 z = some (lenZ, rZ) →
    (∀ u Q, u <:+ rZ → u ≠ [] → try4 (u ++ Q) = none) ∧
    (∀ W, (headWsOrNil (z.drop lenZ) → headWsOrNil W) →
      try2 (rZ ++ W) = some (rZ.length, rZ)) := by
  intro z lenZ rZ h
  obtain ⟨K, w1, d, w2, tk, hK, hz, hw1, haw1, hd, hw2, haw2, htk, hatk, hrest, hlen, hr⟩ :=
    try2_shape z lenZ rZ h
  constructor
  · intro u Q hu hune
    rw [hr] at hu
    exact imm42 K hK d hd u Q hu hune
  · intro W himp
    rw [hr]
    exact id2_match K hK d hd W (himp hrest)

theorem hIonJ34 : ∀ z lenZ rZ, try3 z = some (lenZ, rZ) →
    (∀ u Q, u <:+ rZ → u ≠ [] → try4 (u ++ Q) = none) ∧
    (∀ W, (headWsOrNil (z.drop lenZ) → headWsOrNil W) →
      try3 (rZ ++ W) = some (rZ.length, rZ)) := by
  intro z lenZ rZ h
  obtain ⟨w1, t1, w2, w3, d, w4, tk, hz, hw1, haw1, ht1, hat1, hw2, haw2, hw3, haw3,
    hd, hw4, haw4, htk, hatk, hrest, hlen, hr⟩ := try3_shape z lenZ rZ h
  constructor
  · intro u Q hu hune
    rw [hr, I3_assoc] at hu
    exact imm43 w1 t1 w2 haw1 hat1 hw2 haw2 u Q hu hune
  · intro W himp
    rw [hr]
    exact id3_match w1 t1 w2 W hw1 haw1 ht1 hat1 hw2 haw2 (himp hrest)

theorem hpairs12 : ∀ z lenJ rJ, try2 z = some (lenJ, rJ) →
    1 ≤ lenJ ∧
    ∀ u, u <:+ rJ → u ≠ [] →
      (∀ Q, try1 (u ++ Q) = none) ∨
      (∀ W, (headWsOrNil (z.drop lenJ) → headWsOrNil W) →
        try1 (u ++ W) = some (u.length, u)) := by
  intro z lenJ rJ h
  obtain ⟨K, w1, d, w2, tk, hK, hz, hw1, haw1, hd, hw2, haw2, htk, hatk, hrest, hlen, hr⟩ :=
    try2_shape z lenJ rJ h
  refine ⟨by omega, ?_⟩
  intro u hu hune
  left
  intro Q
  rw [hr] at hu
  exact x12_none K hK d hd u Q hu hune

theorem hpairs13 : ∀ z lenJ rJ, try3 z = some (lenJ, rJ) →
    1 ≤ lenJ ∧
    ∀ u, u <:+ rJ → u ≠ [] →
      (∀ Q, try1 (u ++ Q) = none) ∨
      (∀ W, (headWsOrNil (z.drop lenJ) → headWsOrNil W) →
        try1 (u ++ W) = some (u.length, u)) := by
  intro z lenJ rJ h
  obtain ⟨w1, t1, w2, w3, d, w4, tk, hz, hw1, haw1, ht1, hat1, hw2, haw2, hw3, haw3,
    hd, hw4, haw4, htk, hatk, hrest, hlen, hr⟩ := try3_shape z lenJ rJ h
  refine ⟨by omega, ?_⟩
  intro u hu hune
  left
  intro Q
  rw [hr, I3_assoc] at hu
  exact x13_none w1 t1 w2 hw1 haw1 hat1 hw2 haw2 u Q hu hune

theorem hpairs14 : ∀ z lenJ rJ, try4 z = some (lenJ, rJ) →
    1 ≤ lenJ ∧
    ∀ u, u <:+ rJ → u ≠ [] →
      (∀ Q, try1 (u ++ Q) = none) ∨
      (∀ W, (headWsOrNil (z.drop lenJ) → headWsOrNil W) →
        try1 (u ++ W) = some (u.length, u)) := by
  intro z lenJ rJ h
  obtain ⟨w1, tk, hz, hw1, haw1, htk, hatk, hrest, hlen, hr⟩ := try4_shape z lenJ rJ h
  have hsn : SNkw.length = 21 := by decide
  refine ⟨by omega, ?_⟩
  intro u hu hune
  left
  intro Q
  rw [hr] at hu
  exact x14_none u Q hu hune

theorem hpairs23 : ∀ z lenJ rJ, try3 z = some (lenJ, rJ) →
    1 ≤ lenJ ∧
    ∀ u, u <:+ rJ → u ≠ [] →
      (∀ Q, try2 (u ++ Q) = none) ∨
      (∀ W, (headWsOrNil (z.drop lenJ) → headWsOrNil W) →
        try2 (u ++ W) = some (u.length, u)) := by
  intro z lenJ rJ h
  obtain ⟨w1, t1, w2, w3, d, w4, tk, hz, hw1, haw1, ht1, hat1, hw2, haw2, hw3, haw3,
    hd, hw4, haw4, htk, hatk, hrest, hlen, hr⟩ := try3_shape z lenJ rJ h
  refine ⟨by omega, ?_⟩
  intro u hu hune
  rw [hr, I3_assoc] at hu
  by_cases hueq : u = SECkw ++ (' ' :: '5' :: ' ' :: stars8)
  · right
    intro W himp
    subst hueq
    exact id2_match SECkw (Or.inr rfl) '5' (by decide) W (himp hrest)
  · left
    intro Q
    rcases x23_cases w1 t1 w2 hw1 haw1 hat1 hw2 haw2 u Q hu hune with hnone | heq
    · exact hnone
    · exact absurd heq hueq

theorem hpairs24 : ∀ z lenJ rJ, try4 z = some (lenJ, rJ) →
    1 ≤ lenJ ∧
    ∀ u, u <:+ rJ → u ≠ [] →
      (∀ Q, try2 (u ++ Q) = none) ∨
      (∀ W, (headWsOrNil (z.drop lenJ) → headWsOrNil W) →
        try2 (u ++ W) = some (u.length, u)) := by
  intro z lenJ rJ h
  obtain ⟨w1, tk, hz, hw1, haw1, htk, hatk, hrest, hlen, hr⟩ := try4_shape z lenJ rJ h
  have hsn : SNkw.length = 21 := by decide
  refine ⟨by omega, ?_⟩
  intro u hu hune
  left
  intro Q
  rw [hr] at hu
  exact x24_none u Q hu hune

theorem hpairs34 : ∀ z lenJ rJ, try4 z = some (lenJ, rJ) →
    1 ≤ lenJ ∧
    ∀ u, u <:+ rJ → u ≠ [] →
      (∀ Q, try3 (u ++ Q) = none) ∨
      (∀ W, (headWsOrNil (z.drop lenJ) → headWsOrNil W) →
        try3 (u ++ W) = some (u.length, u)) := by
  intro z lenJ rJ h
  obtain ⟨w1, tk, hz, hw1, haw1, htk, hatk, hrest, hlen, hr⟩ := try4_shape z lenJ rJ h
  have hsn : SNkw.length = 21 := by decide
  refine ⟨by omega, ?_⟩
  intro u hu hune
  left
  intro Q
  rw [hr] at hu
  exact x34_none u Q hu hune

theorem allid_self1 (z : Str) : AllId try1 (pySub try1 z) :=
  allid_self_skeleton try1 try1_nil (fun c v hc => try1_ws_none c v hc) htr11 hmatch1
    z z.length (le_refl _)

theorem allid_self2 (z : Str) : AllId try2 (pySub try2 z) :=
  allid_self_skeleton try2 try2_nil (fun c v hc => try2_ws_none c v hc) htr22 hmatch2
    z z.length (le_refl _)

theorem allid_self3 (z : Str) : AllId try3 (pySub try3 z) :=
  allid_self_skeleton try3 try3_nil (fun c v hc => try3_ws_none c v hc) htr33 hmatch3
    z z.length (le_refl _)

theorem allid_self4 (z : Str) : AllId try4 (pySub try4 z) :=
  allid_self_skeleton try4 try4_nil (fun c v hc => try4_ws_none c v hc) htr44 hmatch4
    z z.length (le_refl _)

theorem allid_pres12 (z : Str) (h : AllId try1 z) : AllId try1 (pySub try2 z) :=
  allid_pres_skeleton try1 try2 try1_nil (fun c v hc => try2_ws_none c v hc)
    htr12 hIonJ12 hpairs12 z z.length (le_refl _) h

theorem allid_pres13 (z : Str) (h : AllId try1 z) : AllId try1 (pySub try3 z) :=
  allid_pres_skeleton try1 try3 try1_nil (fun c v hc => try3_ws_none c v hc)
    htr13 hIonJ13 hpairs13 z z.length (le_refl _) h

theorem allid_pres14 (z : Str) (h : AllId try1 z) : AllId try1 (pySub try4 z) :=
  allid_pres_skeleton try1 try4 try1_nil (fun c v hc => try4_ws_none c v hc)
    htr14 hIonJ14 hpairs14 z z.length (le_refl _) h

theorem allid_pres23 (z : Str) (h : AllId try2 z) : AllId try2 (pySub try3 z) :=
  allid_pres_skeleton try2 try3 try2_nil (fun c v hc => try3_ws_none c v hc)
    htr23 hIonJ23 hpairs23 z z.length (le_refl _) h

theorem allid_pres24 (z : Str) (h : AllId try2 z) : AllId try2 (pySub try4 z) :=
  allid_pres_skeleton try2 try4 try2_nil (fun c v hc => try4_ws_none c v hc)
    htr24 hIonJ24 hpairs24 z z.length (le_refl _) h

theorem allid_pres34 (z : Str) (h : AllId try3 z) : AllId try3 (pySub try4 z) :=
  allid_pres_skeleton try3 try4 try3_nil (fun c v hc => try4_ws_none c v hc)
    htr34 hIonJ34 hpairs34 z z.length (le_refl _) h

theorem allid_sanitize (x : Str) :
    AllId try1 (sanitize_text x) ∧ AllId try2 (sanitize_text x) ∧
    AllId try3 (sanitize_text x) ∧ AllId try4 (sanitize_text x) := by
  have a1 : AllId try1 (pySub try1 x) := allid_self1 x
  have a1b : AllId try1 (pySub try2 (pySub try1 x)) := allid_pres12 _ a1
  have a1c : AllId try1 (pySub try3 (pySub try2 (pySub try1 x))) := allid_pres13 _ a1b
  have a1d : AllId try1 (sanitize_text x) := allid_pres14 _ a1c
  have a2 : AllId try2 (pySub try2 (pySub try1 x)) := allid_self2 _
  have a2b : AllId try2 (pySub try3 (pySub try2 (pySub try1 x))) := allid_pres23 _ a2
  have a2c : AllId try2 (sanitize_text x) := allid_pres24 _ a2b
  have a3 : AllId try3 (pySub try3 (pySub try2 (pySub try1 x))) := allid_self3 _
  have a3b : AllId try3 (sanitize_text x) := allid_pres34 _ a3
  have a4 : AllId try4 (sanitize_text x) := allid_self4 _
  exact ⟨a1d, a2c, a3b, a4⟩

/-- C9: the text sanitizer is idempotent — for every string `x`,
`_sanitize_text (_sanitize_text x) = _sanitize_text x`.  The proof shows that
the output of `sanitize_text` admits no match of any of the four credential
patterns other than identity matches on already-substituted regions, so each
of the four substitution passes maps it to itself. -/
theorem c9_sanitize_idempotent (x : Str) :
    sanitize_text (sanitize_text x) = sanitize_text x := by
  obtain ⟨a1, a2, a3, a4⟩ := allid_sanitize x
  have p1 : pySub try1 (sanitize_text x) = sanitize_text x :=
    pySub_eq_self_of_AllId try1 len_pos1 _ a1
  have p2 : pySub try2 (sanitize_text x) = sanitize_text x :=
    pySub_eq_self_of_AllId try2 len_pos2 _ a2
  have p3 : pySub try3 (sanitize_text x) = sanitize_text x :=
    pySub_eq_self_of_AllId try3 len_pos3 _ a3
  have p4 : pySub try4 (sanitize_text x) = sanitize_text x :=
    pySub_eq_self_of_AllId try4 len_pos4 _ a4
  show pySub try4 (pySub try3 (pySub try2 (pySub try1 (sanitize_text x)))) = sanitize_text x
  rw [p1, p2, p3, p4]
